import Mathlib

/-!
# NTFS boot-structure decoders (`Program2/utility.cpp`, `Program3/Program3.cpp`)

A shallow embedding of the C++ decoders for the Master Boot Record, its
partition table and the NTFS Volume Boot Record.

* `unsigned char` is `Fin 256`; `std::vector<unsigned char>` is a list of bytes.
* A member function is a state transformer on the object it is called on
  (`Meth`).  Running it yields the object after the call, the outcome (a value,
  a thrown `std::invalid_argument`, or undefined behaviour) and the list of
  vector accesses performed through `operator[]` and iterator ranges.
* `std::uint64_t` and `size_t` arithmetic is arithmetic on `Nat` modulo `2^64`;
  `int` arithmetic is arithmetic on `Int` wrapped to 32 bits.
-/

namespace NTFS

/-! ## Bytes, vectors and constants (`utility.hpp`, `Constants.hpp`) -/

/-- An `unsigned char`. -/
abbrev Byte := Fin 256

/-- The type `dkt::UString`, a `std::vector<unsigned char>`. -/
abbrev UString := List Byte

def SECTOR_SIZE : Nat := 512
def PARTITION_TABLE_OFFSET : Nat := 446
def PARTITION_TABLE_SIZE : Nat := 64
def PARTITION_ENTRY_SIZE : Nat := 16
def NTFS_VBR_MFT_OFFSET : Nat := 0x30
def NTFS_VBR_MFTMIRR_OFFSET : Nat := 0x38
def CLUSTER_SIZE : Nat := 8

/-! ## Machine arithmetic -/

/-- Reduction of a natural number to a `std::uint64_t` / `size_t`. -/
def wrap64 (n : Nat) : Nat := n % 2 ^ 64

/-- Unsigned 64-bit subtraction, as in `SectorStr.size() - 2`. -/
def sub64 (a b : Nat) : Nat := (a % 2 ^ 64 + 2 ^ 64 - b % 2 ^ 64) % 2 ^ 64

/-- Unsigned 64-bit multiplication. -/
def mul64 (a b : Nat) : Nat := (a * b) % 2 ^ 64

/-- Unsigned 64-bit left shift. -/
def shl64 (a k : Nat) : Nat := (a <<< k) % 2 ^ 64

/-- Reduction of an integer to the range of a 32-bit `int`. -/
def wrapInt32 (x : Int) : Int := (x + 2 ^ 31) % 2 ^ 32 - 2 ^ 31

/-- Left shift of an `int` (the promoted type of an `unsigned char` operand). -/
def shlInt (x : Int) (k : Nat) : Int := wrapInt32 (x * 2 ^ k)

/-- Conversion of an `int` operand to `std::uint64_t` (usual arithmetic
conversions: the value modulo `2^64`, which sign-extends a negative `int`). -/
def intToU64 (x : Int) : Nat := (x % 2 ^ 64).toNat

/-! ## Outcomes of calls -/

/-- The `std::invalid_argument` exceptions thrown by the decoders, one
constructor per message. -/
inductive Exception
  /-- "Expected 16 for entry size, got `got`" -/
  | entrySize (got : Nat)
  /-- "Non-existent partition" -/
  | nonExistentPartition
  /-- "Not an NTFS entry (byte 4 != 0x07)" -/
  | notNTFSEntry
  /-- "Expected 512 for sector size, got `got`" -/
  | sectorSize (got : Nat)
  /-- "MBR ending must be 0x55AA" -/
  | mbrEnding
  /-- "Bytes 3-10 are not equal to \"NTFS    \"" -/
  | notNTFS
  deriving DecidableEq, Repr

/-- What a call produces: a value, a thrown exception, or undefined behaviour
(an access outside a vector). -/
inductive Outcome (α : Type)
  | ok (a : α)
  | thrown (e : Exception)
  | undefined
  deriving DecidableEq, Repr

/-- One access to a vector: the size of the vector and the index accessed. -/
structure Access where
  size : Nat
  index : Nat
  deriving DecidableEq, Repr

/-- An access is in range when the index is below the size of the vector. -/
def Access.inRange (a : Access) : Prop := a.index < a.size

instance (a : Access) : Decidable a.inRange := by
  unfold Access.inRange; infer_instance

/-- The result of running a member function on an object. -/
structure Run (σ α : Type) where
  /-- the object after the call, also when the call throws -/
  self : σ
  /-- the value returned, the exception thrown, or undefined behaviour -/
  outcome : Outcome α
  /-- the vector accesses performed, oldest first -/
  reads : List Access

/-- A member function of a class whose data members are `σ`. -/
def Meth (σ α : Type) : Type := σ → Run σ α

/-- The accesses `r` happened before those of the run `x`. -/
def Run.prepend {σ α : Type} (r : List Access) (x : Run σ α) : Run σ α :=
  ⟨x.self, x.outcome, r ++ x.reads⟩

/-- Continue a run with `f` when it returned; a throw or undefined behaviour
ends the run. -/
def Run.andThen {σ α β : Type} (x : Run σ α) (f : α → Meth σ β) : Run σ β :=
  match x.outcome with
  | .ok a => (f a x.self).prepend x.reads
  | .thrown e => ⟨x.self, .thrown e, x.reads⟩
  | .undefined => ⟨x.self, .undefined, x.reads⟩

/-- Continue a run with the handler when it threw. -/
def Run.handle {σ α : Type} (x : Run σ α) (handler : Exception → Meth σ α) : Run σ α :=
  match x.outcome with
  | .thrown e => (handler e x.self).prepend x.reads
  | _ => x

/-- The run of a constructor seen from the caller `s`: the constructed object is
the value. -/
def Run.asNew {σ τ : Type} (x : Run τ Unit) (s : σ) : Run σ τ :=
  match x.outcome with
  | .ok _ => ⟨s, .ok x.self, x.reads⟩
  | .thrown e => ⟨s, .thrown e, x.reads⟩
  | .undefined => ⟨s, .undefined, x.reads⟩

/-- The run of a member function of another object seen from the caller `s`. -/
def Run.inCaller {σ τ α : Type} (x : Run τ α) (s : σ) : Run σ α :=
  ⟨s, x.outcome, x.reads⟩

namespace Meth

variable {σ τ α β : Type}

/-- Return a value. -/
def ret (a : α) : Meth σ α := fun s => ⟨s, .ok a, []⟩

/-- Sequencing: the second call runs only when the first returned. -/
def seq (m : Meth σ α) (f : α → Meth σ β) : Meth σ β := fun s =>
  (m s).andThen f

instance : Monad (Meth σ) where
  pure := ret
  bind := seq

/-- The statement `throw std::invalid_argument(...)`. -/
def raise (e : Exception) : Meth σ α := fun s => ⟨s, .thrown e, []⟩

/-- The object the member function runs on (`*this`). -/
def getThis : Meth σ σ := fun s => ⟨s, .ok s, []⟩

/-- Assignment to the data members of `*this`. -/
def setThis (s : σ) : Meth σ Unit := fun _ => ⟨s, .ok (), []⟩

/-- The expression `v[i]` on a vector: undefined behaviour outside the vector. -/
def index {ε : Type} (v : List ε) (i : Nat) : Meth σ ε := fun s =>
  match v[i]? with
  | some b => ⟨s, .ok b, [⟨v.length, i⟩]⟩
  | none => ⟨s, .undefined, [⟨v.length, i⟩]⟩

/-- The vector `UString(v.begin() + lo, v.begin() + hi)`: a copy of the elements
at indices `lo .. hi - 1`; undefined behaviour when an iterator is outside
`[begin, end]` or the range is reversed. -/
def range (v : UString) (lo hi : Nat) : Meth σ UString := fun s =>
  if lo ≤ hi ∧ hi ≤ v.length then
    ⟨s, .ok ((v.drop lo).take (hi - lo)), (List.range' lo (hi - lo)).map (Access.mk v.length)⟩
  else
    ⟨s, .undefined, [⟨v.length, hi⟩]⟩

/-- The block `try { body } catch (std::invalid_argument &e) { handler }`. -/
def tryCatch (body : Meth σ α) (handler : Exception → Meth σ α) : Meth σ α := fun s =>
  (body s).handle handler

/-- The short-circuit operator `a && b`. -/
def and (a b : Meth σ Bool) : Meth σ Bool := do
  if (← a) then b else pure false

/-- The short-circuit operator `a || b`. -/
def or (a b : Meth σ Bool) : Meth σ Bool := do
  if (← a) then pure true else b

/-- Construction of an object of another class inside a member function: the
constructor body `ctor` runs on the default-initialised members `init`. -/
def construct (init : τ) (ctor : Meth τ Unit) : Meth σ τ := fun s =>
  (ctor init).asNew s

/-- A call of a member function on another object, whose value is used and
whose copy of the object is discarded (a `const` member function). -/
def call (obj : τ) (m : Meth τ α) : Meth σ α := fun s =>
  (m obj).inCaller s

end Meth

open Meth

/-! ## `PartitionEntry` and `NTFSPartitionEntry` -/

/-- Data members of `class PartitionEntry`. -/
structure PartitionEntry where
  /-- the stored entry -/
  entry : UString
  deriving DecidableEq, Repr

/-- The class `NTFSPartitionEntry` derives from `PartitionEntry` and adds no
data member. -/
abbrev NTFSPartitionEntry := PartitionEntry

/-- The type `dkt::EntryVector`. -/
abbrev EntryVector := List PartitionEntry

/-- The type `dkt::NTFSEntryVector`. -/
abbrev NTFSEntryVector := List NTFSPartitionEntry

namespace PartitionEntry

/-- `void PartitionEntry::SetEntry(const dkt::UString &entry)` -/
def SetEntry (entry : UString) : Meth PartitionEntry Unit := do
  if entry.length ≠ PARTITION_ENTRY_SIZE then
    raise (.entrySize entry.length)
  if (← index entry 4) = 0x0 then
    raise .nonExistentPartition
  setThis { entry := entry }

/-- `PartitionEntry::PartitionEntry(const dkt::UString &entry)` -/
def ctor (entry : UString) : Meth PartitionEntry Unit :=
  SetEntry entry

/-- A new `PartitionEntry(entry)`: the constructor run on an empty `entry`
member. When the outcome is not `ok` no object exists. -/
def new (entry : UString) : Run PartitionEntry Unit :=
  ctor entry { entry := [] }

/-- `dkt::UString PartitionEntry::GetEntry() const` -/
def GetEntry : Meth PartitionEntry UString := do
  return (← getThis).entry

/-- `bool PartitionEntry::GetBootIndicator() const` -/
def GetBootIndicator : Meth PartitionEntry Bool := do
  let b ← index (← getThis).entry 0
  return decide (b ≠ 0)

/-- `unsigned char PartitionEntry::GetPartitionType() const` -/
def GetPartitionType : Meth PartitionEntry Byte := do
  index (← getThis).entry 4

/-- `std::uint64_t PartitionEntry::GetStartingSector() const`:
`static_cast<std::uint64_t>(entry[11]) << 24 | entry[10] << 16 | entry[9] << 8 | entry[8]`.
Only `entry[11]` is cast; the other three operands are promoted to `int`,
shifted as `int` and converted to `std::uint64_t` by the `|`. -/
def GetStartingSector : Meth PartitionEntry Nat := do
  let e := (← getThis).entry
  let b11 ← index e 11
  let b10 ← index e 10
  let b9 ← index e 9
  let b8 ← index e 8
  return ((shl64 b11.val 24 ||| intToU64 (shlInt b10.val 16))
            ||| intToU64 (shlInt b9.val 8)) ||| intToU64 (wrapInt32 b8.val)

end PartitionEntry

namespace NTFSPartitionEntry

/-- `bool NTFSPartitionEntry::IsNTFSEntry() const` -/
def IsNTFSEntry : Meth PartitionEntry Bool := do
  let b ← index (← getThis).entry 4
  return decide (b = 0x07)

/-- `NTFSPartitionEntry::NTFSPartitionEntry(const dkt::UString &entry)` -/
def ctor (entry : UString) : Meth PartitionEntry Unit := do
  PartitionEntry.ctor entry
  if !(← IsNTFSEntry) then
    raise .notNTFSEntry

/-- A new `NTFSPartitionEntry(entry)`. -/
def new (entry : UString) : Run PartitionEntry Unit :=
  ctor entry { entry := [] }

end NTFSPartitionEntry

/-! ## `Sector`, `MBR` and `NTFSVBR` -/

/-- Data members of `class Sector`. -/
structure Sector where
  SectorStr : UString
  deriving DecidableEq, Repr

/-- The class `MBR` derives from `Sector` and adds no data member. -/
abbrev MBR := Sector

/-- The class `NTFSVBR` derives from `MBR` and adds no data member. -/
abbrev NTFSVBR := MBR

/-- The type `dkt::VBRVector`. -/
abbrev VBRVector := List NTFSVBR

namespace Sector

/-- `void Sector::SetSector(const dkt::UString &sector)` -/
def SetSector (sector : UString) : Meth Sector Unit := do
  if sector.length ≠ SECTOR_SIZE then
    raise (.sectorSize sector.length)
  setThis { SectorStr := sector }

/-- `Sector::Sector(const dkt::UString &sector)` -/
def ctor (sector : UString) : Meth Sector Unit :=
  SetSector sector

/-- A new `Sector(sector)`: the constructor run on an empty `SectorStr`. When the
outcome is not `ok` no object exists. -/
def new (sector : UString) : Run Sector Unit :=
  ctor sector { SectorStr := [] }

/-- `dkt::UString Sector::GetSector() const` -/
def GetSector : Meth Sector UString := do
  return (← getThis).SectorStr

end Sector

namespace MBR

/-- `bool MBR::IsValidMBR() const` -/
def IsValidMBR : Meth Sector Bool := do
  let s := (← getThis).SectorStr
  Meth.and (do return decide ((← index s (sub64 s.length 2)) = 0x55))
           (do return decide ((← index s (sub64 s.length 1)) = 0xAA))

/-- `MBR::MBR(const dkt::UString &MBR) : Sector(MBR)` -/
def ctor (MBR : UString) : Meth Sector Unit := do
  Sector.ctor MBR
  if !(← IsValidMBR) then
    raise .mbrEnding

/-- A new `MBR(B)`. -/
def new (B : UString) : Run Sector Unit :=
  ctor B { SectorStr := [] }

/-- The loop `for (int i = 0; i < 4; ++i)` of `MBR::ParseEntries`, with
`remaining` iterations left to run from index `i`. -/
def ParseEntries.loop : (remaining i : Nat) → EntryVector → Meth Sector EntryVector
  | 0, _, result => pure result
  | remaining + 1, i, result => do
    let s := (← getThis).SectorStr
    let result ← tryCatch
      (do
        let slot ← range s (PARTITION_TABLE_OFFSET + i * PARTITION_ENTRY_SIZE)
                            (PARTITION_TABLE_OFFSET + (i + 1) * PARTITION_ENTRY_SIZE)
        let partition ← construct { entry := [] } (PartitionEntry.ctor slot)
        pure (result ++ [partition]))
      (fun _ => pure result)
    ParseEntries.loop remaining (i + 1) result

/-- `dkt::EntryVector MBR::ParseEntries() const` -/
def ParseEntries : Meth Sector EntryVector :=
  ParseEntries.loop 4 0 []

end MBR

namespace NTFSVBR

/-- The test `VBR[i] != c` of `NTFSVBR::SetVBR`. -/
def differs (VBR : UString) (i : Nat) (c : Char) : Meth Sector Bool := do
  return decide ((← index VBR i).val ≠ c.toNat)

/-- `void NTFSVBR::SetVBR(const dkt::UString &VBR)` -/
def SetVBR (VBR : UString) : Meth Sector Unit := do
  if (← Meth.or (differs VBR 3 'N')
       (Meth.or (differs VBR 4 'T')
       (Meth.or (differs VBR 5 'F')
       (Meth.or (differs VBR 6 'S')
       (Meth.or (differs VBR 7 ' ')
       (Meth.or (differs VBR 8 ' ')
       (Meth.or (differs VBR 9 ' ')
                (differs VBR 10 ' ')))))))) then
    raise .notNTFS
  setThis { SectorStr := VBR }

/-- `NTFSVBR::NTFSVBR(const dkt::UString &VBR) : MBR(VBR)` -/
def ctor (VBR : UString) : Meth Sector Unit := do
  MBR.ctor VBR
  SetVBR VBR

/-- A new `NTFSVBR(B)`. -/
def new (B : UString) : Run Sector Unit :=
  ctor B { SectorStr := [] }

/-- `dkt::UString NTFSVBR::GetVBR() const` -/
def GetVBR : Meth Sector UString := do
  return (← getThis).SectorStr

/-- The eight-operand expression shared by `GetMFTLCN` and `GetMFTMirrLCN`:
`static_cast<std::uint64_t>(SectorStr[off + 7]) << (8 * 7) | ... |
static_cast<std::uint64_t>(SectorStr[off])`. -/
def leU64 (off : Nat) : Meth Sector Nat := do
  let s := (← getThis).SectorStr
  let b7 ← index s (off + 7)
  let b6 ← index s (off + 6)
  let b5 ← index s (off + 5)
  let b4 ← index s (off + 4)
  let b3 ← index s (off + 3)
  let b2 ← index s (off + 2)
  let b1 ← index s (off + 1)
  let b0 ← index s off
  return (((((((shl64 b7.val (8 * 7) ||| shl64 b6.val (8 * 6)) ||| shl64 b5.val (8 * 5))
    ||| shl64 b4.val (8 * 4)) ||| shl64 b3.val (8 * 3)) ||| shl64 b2.val (8 * 2))
    ||| shl64 b1.val (8 * 1)) ||| wrap64 b0.val)

/-- `std::uint64_t NTFSVBR::GetMFTLCN() const` -/
def GetMFTLCN : Meth Sector Nat :=
  leU64 NTFS_VBR_MFT_OFFSET

/-- `std::uint64_t NTFSVBR::GetMFTMirrLCN() const` -/
def GetMFTMirrLCN : Meth Sector Nat :=
  leU64 NTFS_VBR_MFTMIRR_OFFSET

end NTFSVBR

/-! ## Program3: `displayMFTProperties` and `work` -/

def SUCCESS : Int := 0
def ARGUMENT_EXPECTED : Int := 1
def OPEN_ERROR : Int := 2
def READ_ERROR : Int := 3
def LSEEK_ERROR : Int := 4
def GPT_FORMATTED : Int := 5

/-- The opened device behind the file descriptor `fd`. -/
structure Device where
  /-- `read(fd, buf, SECTOR_SIZE + 1)` at a file offset: `none` when the call
  returns a negative value, otherwise the contents of `buf` after the call -/
  read : Int → Option (Nat → Byte)
  /-- whether `lseek(fd, offset, SEEK_SET)` returns a non-negative value -/
  lseek : Int → Bool

/-- What `work` does to the outside world, in order. -/
inductive Event
  /-- `read(fd, buf, SECTOR_SIZE + 1)` at a file offset -/
  | read (offset : Int)
  /-- `lseek(fd, offset, SEEK_SET)` -/
  | lseek (offset : Int)
  /-- `perror("read")` -/
  | perrorRead
  /-- `perror("lseek")` -/
  | perrorLseek
  /-- "This disk is in GPT format, which is unsupported." -/
  | gptUnsupported
  /-- "Partition `n`: " -/
  | partition (n : Nat)
  /-- "NTFS entry" -/
  | ntfsEntry
  /-- "Non-NTFS entry" -/
  | nonNTFSEntry
  /-- "`n` NTFS partitions on opened device" -/
  | ntfsCount (n : Nat)
  /-- "valid VBR" -/
  | validVBR
  /-- "invalid VBR" -/
  | invalidVBR
  /-- "$MFT address: 0x`a`" -/
  | mftAddress (a : Nat)
  /-- "$MFTMirr address: 0x`a`" -/
  | mftMirrAddress (a : Nat)
  /-- the closing newline after the two addresses -/
  | newline
  deriving DecidableEq, Repr

/-- The state `work` runs on: the events so far. An outcome `thrown` of a
free function is an exception that leaves it uncaught. -/
abbrev World := List Event

/-- Record an event. -/
def emit (e : Event) : Meth World Unit := fun w => ⟨w ++ [e], .ok (), []⟩

/-- The call `read(fd, buf, SECTOR_SIZE + 1)` with the file offset at `offset`. -/
def sysRead (fd : Device) (offset : Int) : Meth World (Option (Nat → Byte)) := do
  emit (.read offset)
  return fd.read offset

/-- Conversion of a `std::uint64_t` argument to the signed 64-bit `off_t`. -/
def toOff (n : Nat) : Int := if n % 2 ^ 64 < 2 ^ 63 then n % 2 ^ 64 else n % 2 ^ 64 - 2 ^ 64

/-- The call `lseek(fd, offset, SEEK_SET)`; true when it returns a non-negative
value. -/
def sysLseek (fd : Device) (offset : Nat) : Meth World Bool := do
  emit (.lseek (toOff offset))
  return fd.lseek (toOff offset)

/-- The copy loop `for (i = 0; i < SECTOR_SIZE; ++i) str[i] = buf[i]` into a
`dkt::UString str(SECTOR_SIZE)`. -/
def sectorOf (buf : Nat → Byte) : UString := (List.range SECTOR_SIZE).map buf

/-- `void displayMFTProperties(const NTFSVBR &vbr)`: the two values handed to
`printf` are `vbr.GetMFTLCN() * CLUSTER_SIZE * SECTOR_SIZE` and
`vbr.GetMFTMirrLCN() * CLUSTER_SIZE * SECTOR_SIZE` in `std::uint64_t`. -/
def displayMFTProperties (vbr : NTFSVBR) : Meth World Unit := do
  let mft ← call vbr NTFSVBR.GetMFTLCN
  emit (.mftAddress (mul64 (mul64 mft CLUSTER_SIZE) SECTOR_SIZE))
  let mirr ← call vbr NTFSVBR.GetMFTMirrLCN
  emit (.mftMirrAddress (mul64 (mul64 mirr CLUSTER_SIZE) SECTOR_SIZE))

/-- The loop of `work` that keeps the NTFS entries, with `remaining` iterations
left to run from index `i`. -/
def work.ntfsLoop (entries : EntryVector) :
    (remaining i : Nat) → NTFSEntryVector → Meth World NTFSEntryVector
  | 0, _, NTFSEntries => pure NTFSEntries
  | remaining + 1, i, NTFSEntries => do
    emit (.partition (i + 1))
    let NTFSEntries ← tryCatch
      (do
        let bytes ← call (← index entries i) PartitionEntry.GetEntry
        let e ← construct { entry := [] } (NTFSPartitionEntry.ctor bytes)
        emit .ntfsEntry
        pure (NTFSEntries ++ [e]))
      (fun _ => do
        emit .nonNTFSEntry
        pure NTFSEntries)
    work.ntfsLoop entries remaining (i + 1) NTFSEntries

/-- The loop of `work` that reads the VBR of each NTFS partition, with
`remaining` iterations left to run from index `i`. The value is `some code` when
the loop leaves `work` through `return code`. -/
def work.vbrLoop (fd : Device) (NTFSEntries : NTFSEntryVector) :
    (remaining i : Nat) → VBRVector → Meth World (Option Int)
  | 0, _, _ => pure none
  | remaining + 1, i, VBRs => do
    let start ← call (← index NTFSEntries i) PartitionEntry.GetStartingSector
    let vbrAddr := mul64 start SECTOR_SIZE
    if !(← sysLseek fd vbrAddr) then
      emit .perrorLseek
      pure (some LSEEK_ERROR)
    else
      match ← sysRead fd (toOff vbrAddr) with
      | none => do
        emit .perrorRead
        pure (some READ_ERROR)
      | some vbr => do
        let vbrStr := sectorOf vbr
        emit (.partition (i + 1))
        let VBRs ← tryCatch
          (do
            let v ← construct { SectorStr := [] } (NTFSVBR.ctor vbrStr)
            let VBRs := VBRs ++ [v]
            emit .validVBR
            displayMFTProperties (← index VBRs i)
            emit .newline
            pure VBRs)
          (fun _ => do
            emit .invalidVBR
            pure VBRs)
        work.vbrLoop fd NTFSEntries remaining (i + 1) VBRs

/-- `int work(int fd)` of Program3, started with the file offset at 0. -/
def work (fd : Device) : Meth World Int := do
  match ← sysRead fd 0 with
  | none => do
    emit .perrorRead
    pure READ_ERROR
  | some mbrArr => do
    let mbrStr := sectorOf mbrArr
    let mbr ← construct { SectorStr := [] } (MBR.ctor mbrStr)
    let entries ← call mbr MBR.ParseEntries
    if (← Meth.and (pure (decide (entries.length ≠ 0)))
          (do return decide ((← call (← index entries 0) PartitionEntry.GetPartitionType) = 0xEE))) then
      emit .gptUnsupported
      pure GPT_FORMATTED
    else
      let NTFSEntries ← work.ntfsLoop entries entries.length 0 []
      emit (.ntfsCount NTFSEntries.length)
      match ← work.vbrLoop fd NTFSEntries NTFSEntries.length 0 [] with
      | some code => pure code
      | none => pure 0

/-! ## Specification-side definitions -/

/-- Specification side: bytes 3 to 10 of `B` are `N`, `T`, `F`, `S` and four
spaces. -/
def hasNTFSMagic (B : UString) : Prop :=
  B[3]? = some 0x4E ∧ B[4]? = some 0x54 ∧ B[5]? = some 0x46 ∧ B[6]? = some 0x53 ∧
  B[7]? = some 0x20 ∧ B[8]? = some 0x20 ∧ B[9]? = some 0x20 ∧ B[10]? = some 0x20

instance (B : UString) : Decidable (hasNTFSMagic B) := by
  unfold hasNTFSMagic; infer_instance

/-- Specification side: the last two bytes of a 512-byte sector are 0x55, 0xAA. -/
def hasTrailer (B : UString) : Prop :=
  B[510]? = some 0x55 ∧ B[511]? = some 0xAA

instance (B : UString) : Decidable (hasTrailer B) := by
  unfold hasTrailer; infer_instance

/-- Specification side: the little-endian value of the `n` bytes of `B` from
offset `off`, the sum over `i < n` of `B[off + i] * 2^(8 * i)`. -/
def leSum (B : UString) (off n : Nat) : Nat :=
  ((List.range n).map fun i => (B.getD (off + i) 0).val * 2 ^ (8 * i)).sum

/-- Specification side: the 16 bytes of slot `i` of the partition table,
`B[446 + 16 i] .. B[446 + 16 i + 15]`. -/
def slotBytes (B : UString) (i : Nat) : UString :=
  (List.range 16).map fun j => B.getD (446 + 16 * i + j) 0

/-- Specification side: the type byte `B[446 + 16 i + 4]` of slot `i` is not
zero. -/
def slotPresent (B : UString) (i : Nat) : Bool :=
  decide (B.getD (446 + 16 * i + 4) 0 ≠ 0)

/-- Specification side: the slots among `lo, .., lo + n - 1` whose type byte is
not zero, in increasing order, each as an entry holding the slot's bytes. -/
def presentEntries (B : UString) (lo n : Nat) : EntryVector :=
  ((List.range' lo n).filter (slotPresent B)).map fun i => { entry := slotBytes B i }

/-! ## Sample inputs -/

/-- A 512-byte sector of zeros. -/
def zeroSector : UString := List.replicate 512 0

/-- An NTFS boot sector: jump, the magic, `$MFT` at cluster 4, `$MFTMirr` at
cluster 0x1869C0, and the trailer. -/
def sampleVBR : UString :=
  [0xEB, 0x52, 0x90, 0x4E, 0x54, 0x46, 0x53, 0x20, 0x20, 0x20, 0x20] ++ List.replicate 37 0 ++
    [0x04, 0, 0, 0, 0, 0, 0, 0] ++ [0xC0, 0x69, 0x18, 0, 0, 0, 0, 0] ++
    List.replicate 446 0 ++ [0x55, 0xAA]

/-- A sector of zeros closed by the trailer 0x55, 0xAA. -/
def emptyMBR : UString := List.replicate 510 0 ++ [0x55, 0xAA]

/-- The sample boot sector with `$MFT` at cluster 0x0102030405060708 and
`$MFTMirr` at cluster 0x38. -/
def sampleVBR2 : UString :=
  [0xEB, 0x52, 0x90, 0x4E, 0x54, 0x46, 0x53, 0x20, 0x20, 0x20, 0x20] ++ List.replicate 37 0 ++
    [0x08, 0x07, 0x06, 0x05, 0x04, 0x03, 0x02, 0x01] ++ [0x38, 0, 0, 0, 0, 0, 0, 0] ++
    List.replicate 446 0 ++ [0x55, 0xAA]

/-- A partition-table slot of type 0x07 whose starting-sector bytes are
FF FE FD FC (the top byte is above 0x7F). -/
def sampleSlotHigh : UString :=
  [0x80, 0, 0, 0, 0x07, 0, 0, 0, 0xFF, 0xFE, 0xFD, 0xFC, 0, 0, 0, 0]

/-- A master boot record with one partition, in slot 0: bootable, type 0x07,
starting at sector 2048. -/
def sampleMBR : UString :=
  List.replicate 446 0 ++
    [0x80, 0x20, 0x21, 0x00, 0x07, 0xFE, 0xFF, 0xFF, 0x00, 0x08, 0x00, 0x00, 0x00, 0x00, 0x10, 0x00]
    ++ List.replicate 48 0 ++ [0x55, 0xAA]

/-- A protective master boot record: slot 0 has type 0xEE, the other slots are
empty. -/
def gptMBR : UString :=
  List.replicate 446 0 ++
    [0x00, 0x00, 0x02, 0x00, 0xEE, 0xFF, 0xFF, 0xFF, 0x01, 0x00, 0x00, 0x00, 0xFF, 0xFF, 0xFF, 0xFF]
    ++ List.replicate 48 0 ++ [0x55, 0xAA]

/-- A device on which every read fills the buffer with the bytes of `sector`
and every seek succeeds. -/
def constDevice (sector : UString) : Device :=
  { read := fun _ => some (fun i => sector.getD i 0), lseek := fun _ => true }

/-- Specification side: the entry holds 16 bytes and its type byte, byte 4, is
0x07. -/
def isNTFSType (e : PartitionEntry) : Bool :=
  decide (e.entry.length = 16 ∧ e.entry[4]? = some 0x07)

/-- A partition-table slot of type 0x0B whose boot indicator is 0x01, neither
0x00 nor 0x80. -/
def sampleSlotOddBoot : UString :=
  [0x01, 0, 0, 0, 0x0B, 0, 0, 0, 0x3F, 0, 0, 0, 0, 0, 0, 0]

/-- Specification side: every value a run can return satisfies `P`. -/
def Run.returnsOnly {σ α : Type} (P : α → Prop) (x : Run σ α) : Prop :=
  ∀ a, x.outcome = .ok a → P a

/-- Specification side: the ways the loop over the NTFS partitions ends: it runs
to its end, or leaves `work` with `READ_ERROR` or `LSEEK_ERROR`. -/
def isLoopExit (r : Option Int) : Prop :=
  r = none ∨ r = some READ_ERROR ∨ r = some LSEEK_ERROR

/-- Specification side: the codes `work` returns once the GPT test has failed:
0, `READ_ERROR` or `LSEEK_ERROR`. -/
def isNonGptCode (c : Int) : Prop :=
  c = 0 ∨ c = READ_ERROR ∨ c = LSEEK_ERROR

/-- A master boot record whose slot 0 is empty (type 0x00) and whose slot 1 has
type 0xEE. -/
def gptSlot1MBR : UString :=
  List.replicate 446 0 ++ List.replicate 16 0 ++
    [0x00, 0x00, 0x02, 0x00, 0xEE, 0xFF, 0xFF, 0xFF, 0x01, 0x00, 0x00, 0x00, 0xFF, 0xFF, 0xFF, 0xFF]
    ++ List.replicate 32 0 ++ [0x55, 0xAA]

/-- A master boot record with two NTFS partitions: slot 0 starts at sector 1,
slot 1 at sector 2. -/
def twoNtfsMBR : UString :=
  List.replicate 446 0 ++
    [0x80, 0, 0, 0, 0x07, 0, 0, 0, 0x01, 0, 0, 0, 0x01, 0, 0, 0] ++
    [0x00, 0, 0, 0, 0x07, 0, 0, 0, 0x02, 0, 0, 0, 0x01, 0, 0, 0] ++
    List.replicate 32 0 ++ [0x55, 0xAA]

/-- A device holding `twoNtfsMBR` in sector 0, zeros in sector 1 (not a boot
sector) and the sample NTFS boot sector in sector 2. -/
def secondValidDevice : Device :=
  { read := fun off => some (fun i =>
      (if off = 0 then twoNtfsMBR else if off = 1024 then sampleVBR else zeroSector).getD i 0),
    lseek := fun _ => true }

/-- A device holding `twoNtfsMBR` in sector 0 and the sample NTFS boot sector
everywhere else. -/
def bothValidDevice : Device :=
  { read := fun off => some (fun i => (if off = 0 then twoNtfsMBR else sampleVBR).getD i 0),
    lseek := fun _ => true }

/-- An 11-byte vector that ends with the NTFS magic at bytes 3 to 10. -/
def shortMagic : UString :=
  [0x00, 0x00, 0x00, 0x4E, 0x54, 0x46, 0x53, 0x20, 0x20, 0x20, 0x20]

/-- The calls a user can make on a `Sector`, `MBR` or `NTFSVBR` object; the
first two exist on every `Sector`, the next two on every `MBR`, the last four
on an `NTFSVBR` only. -/
inductive SectorOp
  | SetSector (sector : UString)
  | GetSector
  | IsValidMBR
  | ParseEntries
  | SetVBR (VBR : UString)
  | GetVBR
  | GetMFTLCN
  | GetMFTMirrLCN

/-- The run of one call on the object `s`, its value discarded. -/
def SectorOp.run (op : SectorOp) (s : Sector) : Run Sector Unit :=
  match op with
  | .SetSector sector => Sector.SetSector sector s
  | .GetSector => (Sector.GetSector s).andThen fun _ => Meth.ret ()
  | .IsValidMBR => (MBR.IsValidMBR s).andThen fun _ => Meth.ret ()
  | .ParseEntries => (MBR.ParseEntries s).andThen fun _ => Meth.ret ()
  | .SetVBR VBR => NTFSVBR.SetVBR VBR s
  | .GetVBR => (NTFSVBR.GetVBR s).andThen fun _ => Meth.ret ()
  | .GetMFTLCN => (NTFSVBR.GetMFTLCN s).andThen fun _ => Meth.ret ()
  | .GetMFTMirrLCN => (NTFSVBR.GetMFTMirrLCN s).andThen fun _ => Meth.ret ()

/-- The object after a sequence of calls, each run on the object the previous
one left, whether it returned or threw. -/
def SectorOp.runAll (ops : List SectorOp) (s : Sector) : Sector :=
  ops.foldl (fun t op => (op.run t).self) s

/-- Whether an outcome is a thrown exception. -/
def Outcome.isThrown {α : Type} : Outcome α → Bool
  | .thrown _ => true
  | _ => false

/-- Specification side: a call the trailer invariant admits on the object `s`:
a getter, `IsValidMBR`, `ParseEntries`, a setter call that throws, or a
`SetSector` or `SetVBR` whose argument has 512 bytes and ends in 0x55, 0xAA. -/
def SectorOp.admitted (op : SectorOp) (s : Sector) : Prop :=
  match op with
  | .SetSector sector =>
    (Sector.SetSector sector s).outcome.isThrown = true ∨
      (sector.length = 512 ∧ hasTrailer sector)
  | .SetVBR VBR =>
    (NTFSVBR.SetVBR VBR s).outcome.isThrown = true ∨ (VBR.length = 512 ∧ hasTrailer VBR)
  | _ => True

instance (op : SectorOp) (s : Sector) : Decidable (op.admitted s) := by
  cases op <;> simp only [SectorOp.admitted] <;> infer_instance

/-- Specification side: every call of the sequence is admitted on the object
the calls before it left. -/
def SectorOp.allAdmitted : List SectorOp → Sector → Prop
  | [], _ => True
  | op :: rest, s => op.admitted s ∧ SectorOp.allAdmitted rest (op.run s).self

instance SectorOp.decAllAdmitted :
    (ops : List SectorOp) → (s : Sector) → Decidable (SectorOp.allAdmitted ops s)
  | [], _ => isTrue trivial
  | op :: rest, s =>
    @instDecidableAnd _ _ _ (SectorOp.decAllAdmitted rest (op.run s).self)

/-! ## Program1 (`Program1.c`) -/

namespace Program1

/-- The struct `PartitionEntry` of Program1: `bool BootIndicator`,
`uint64_t StartingSector` and the bit-field `unsigned char PartitionType : 1`. -/
structure PartitionEntry where
  BootIndicator : Bool
  StartingSector : Nat
  /-- a bit-field one bit wide -/
  PartitionType : Nat
  deriving DecidableEq, Repr

/-- Unsigned 32-bit left shift, as in `(uint32_t)buf[11] << 24`. -/
def shl32 (a k : Nat) : Nat := (a <<< k) % 2 ^ 32

/-- Conversion of an `int` operand to `uint32_t`. -/
def intToU32 (x : Int) : Nat := (x % 2 ^ 32).toNat

/-- Assignment of a value to an unsigned bit-field `width` bits wide: the value
modulo `2^width`. -/
def toBitField (width n : Nat) : Nat := n % 2 ^ width

/-- `PartitionEntry *newPartitionEntry(unsigned char *buf)`, with `buf` the
array the pointer points into and `none` for `NULL`; `malloc` is taken to
succeed. -/
def newPartitionEntry (buf : UString) : Meth Unit (Option PartitionEntry) := do
  if (← index buf 4) = 0x0 then
    return none
  else
    let b0 ← index buf 0
    let b11 ← index buf 11
    let b10 ← index buf 10
    let b9 ← index buf 9
    let b8 ← index buf 8
    let b4 ← index buf 4
    return some
      { BootIndicator := decide (b0 ≠ 0)
        StartingSector :=
          wrap64 (((shl32 b11.val 24 ||| intToU32 (shlInt b10.val 16))
            ||| intToU32 (shlInt b9.val 8)) ||| intToU32 (wrapInt32 b8.val))
        PartitionType := toBitField 1 b4.val }

/-- Conversion of an `unsigned char` to the signed 8-bit `char`. -/
def toChar (b : Byte) : Int := if b.val < 128 then (b.val : Int) else (b.val : Int) - 256

/-- The library function `strcmp` on two `char` arrays: the characters are
compared as `unsigned char` up to the first difference or the terminating NUL;
the value is the difference there, and reading past the end of an array is
undefined. -/
def strcmp : List Int → List Int → Outcome Int
  | a :: as, b :: bs =>
    if a % 256 ≠ b % 256 then .ok (a % 256 - b % 256)
    else if a % 256 = 0 then .ok 0
    else strcmp as bs
  | _, _ => .undefined

/-- The string literal `"NTFS    "` as a `char` array with its terminating NUL. -/
def ntfsLiteral : List Int := [0x4E, 0x54, 0x46, 0x53, 0x20, 0x20, 0x20, 0x20, 0x00]

/-- The loop `for (int i = 0; i < 8; ++i) sig[i] = vbr[i + 3];` with `remaining`
iterations left to run from index `i`; `sig` holds the elements assigned so
far, `sig[0] .. sig[i - 1]`. -/
def verifyNTFSVBR.loop (vbr : UString) : (remaining i : Nat) → List Int → Meth Unit (List Int)
  | 0, _, sig => pure sig
  | remaining + 1, i, sig => do
    let b ← index vbr (i + 3)
    verifyNTFSVBR.loop vbr remaining (i + 1) (sig ++ [toChar b])

/-- The value of a library call inside a function. -/
def ofOutcome {α : Type} (o : Outcome α) : Meth Unit α := fun s => ⟨s, o, []⟩

/-- `bool verifyNTFSVBR(unsigned char *vbr)`, with `vbr` the array the pointer
points into. -/
def verifyNTFSVBR (vbr : UString) : Meth Unit Bool := do
  let sig ← verifyNTFSVBR.loop vbr 8 0 []
  let sig := sig ++ [0]
  let r ← ofOutcome (strcmp sig ntfsLiteral)
  return decide (r = 0)

end Program1

namespace Program1

/-- `unsigned char *getVBR(PartitionEntry *entry, int fd)`, with `none` for
`NULL` and the returned buffer as its 512 bytes; `malloc` is taken to succeed.
The offset handed to `lseek` is `entry->StartingSector * SECTOR_SIZE` in
`uint64_t`, converted to `off_t`. The device answers the 512-byte `read` with
the contents of the buffer after the call. -/
def getVBR (entry : Option PartitionEntry) (fd : Device) : Meth World (Option UString) := do
  match entry with
  | none => pure none
  | some entry =>
    if !(← sysLseek fd (mul64 entry.StartingSector SECTOR_SIZE)) then
      emit .perrorLseek
      pure none
    else
      match ← sysRead fd (toOff (mul64 entry.StartingSector SECTOR_SIZE)) with
      | none => do
        emit .perrorRead
        pure none
      | some vbr => pure (some (sectorOf vbr))

end Program1

/-- The calls a user can make on a `PartitionEntry` object; the last exists on
an `NTFSPartitionEntry` only. -/
inductive EntryOp
  | SetEntry (entry : UString)
  | GetEntry
  | GetBootIndicator
  | GetPartitionType
  | GetStartingSector
  | IsNTFSEntry

/-- The run of one call on the object `p`, its value discarded. -/
def EntryOp.run (op : EntryOp) (p : PartitionEntry) : Run PartitionEntry Unit :=
  match op with
  | .SetEntry entry => PartitionEntry.SetEntry entry p
  | .GetEntry => (PartitionEntry.GetEntry p).andThen fun _ => Meth.ret ()
  | .GetBootIndicator => (PartitionEntry.GetBootIndicator p).andThen fun _ => Meth.ret ()
  | .GetPartitionType => (PartitionEntry.GetPartitionType p).andThen fun _ => Meth.ret ()
  | .GetStartingSector => (PartitionEntry.GetStartingSector p).andThen fun _ => Meth.ret ()
  | .IsNTFSEntry => (NTFSPartitionEntry.IsNTFSEntry p).andThen fun _ => Meth.ret ()

/-- The object after a sequence of calls, each run on the object the previous
one left, whether it returned or threw. -/
def EntryOp.runAll (ops : List EntryOp) (p : PartitionEntry) : PartitionEntry :=
  ops.foldl (fun t op => (op.run t).self) p

/-- The `try` block of `MBR::ParseEntries` at index `i`, with `SectorStr` the
member of the object and `result` the vector so far; its value is the vector
after `push_back`. -/
def MBR.ParseEntries.tryBlock (SectorStr : UString) (i : Nat) (result : EntryVector) :
    Meth Sector EntryVector := do
  let slot ← Meth.range SectorStr (PARTITION_TABLE_OFFSET + i * PARTITION_ENTRY_SIZE)
                      (PARTITION_TABLE_OFFSET + (i + 1) * PARTITION_ENTRY_SIZE)
  let partition ← Meth.construct { entry := [] } (PartitionEntry.ctor slot)
  pure (result ++ [partition])

/-- Specification side: the run `x`, started in the world `w`, keeps the events
of `w` and adds its own after them. -/
def Run.addsTo {α : Type} (w : World) (x : Run World α) : Prop :=
  ∃ t, x.self = w ++ t

/-- Specification side: the first event the run `x` adds to the world `w` is a
call of `lseek` with the offset `offset`. -/
def Run.seeksFirst {α : Type} (w : World) (offset : Int) (x : Run World α) : Prop :=
  ∃ t, x.self = w ++ Event.lseek offset :: t

/-! ## Evaluation lemmas for member functions -/

section MethLemmas

variable {σ τ α β ε : Type}

@[simp] theorem Meth.bind_eq (m : Meth σ α) (f : α → Meth σ β) : (m >>= f) = Meth.seq m f := rfl

@[simp] theorem Meth.pure_eq (a : α) : (pure a : Meth σ α) = Meth.ret a := rfl

@[simp] theorem Meth.seq_apply (m : Meth σ α) (f : α → Meth σ β) (s : σ) :
    (m.seq f) s = (m s).andThen f := rfl

@[simp] theorem Meth.tryCatch_apply (m : Meth σ α) (h : Exception → Meth σ α) (s : σ) :
    (Meth.tryCatch m h) s = (m s).handle h := rfl

@[simp] theorem Meth.ret_apply (a : α) (s : σ) : Meth.ret a s = ⟨s, .ok a, []⟩ := rfl

@[simp] theorem Meth.raise_apply (e : Exception) (s : σ) :
    (Meth.raise e : Meth σ α) s = ⟨s, .thrown e, []⟩ := rfl

@[simp] theorem Meth.getThis_apply (s : σ) : Meth.getThis s = ⟨s, .ok s, []⟩ := rfl

@[simp] theorem Meth.setThis_apply (t s : σ) : Meth.setThis t s = ⟨t, .ok (), []⟩ := rfl

@[simp] theorem Meth.call_apply (obj : τ) (m : Meth τ α) (s : σ) :
    Meth.call obj m s = (m obj).inCaller s := rfl

@[simp] theorem Meth.construct_apply (init : τ) (ctor : Meth τ Unit) (s : σ) :
    Meth.construct init ctor s = (ctor init).asNew s := rfl

@[simp] theorem Run.inCaller_mk (t : τ) (o : Outcome α) (r : List Access) (s : σ) :
    Run.inCaller ⟨t, o, r⟩ s = ⟨s, o, r⟩ := rfl

@[simp] theorem Run.inCaller_ite (c : Prop) [Decidable c] (x y : Run τ α) (s : σ) :
    Run.inCaller (if c then x else y) s = if c then x.inCaller s else y.inCaller s := by
  split <;> rfl

@[simp] theorem Run.asNew_ok (t : τ) (r : List Access) (s : σ) :
    Run.asNew ⟨t, .ok (), r⟩ s = ⟨s, .ok t, r⟩ := rfl

@[simp] theorem Run.asNew_thrown (t : τ) (e : Exception) (r : List Access) (s : σ) :
    Run.asNew ⟨t, .thrown e, r⟩ s = ⟨s, .thrown e, r⟩ := rfl

@[simp] theorem Run.asNew_undefined (t : τ) (r : List Access) (s : σ) :
    Run.asNew ⟨t, .undefined, r⟩ s = ⟨s, .undefined, r⟩ := rfl

@[simp] theorem Run.asNew_ite (c : Prop) [Decidable c] (x y : Run τ Unit) (s : σ) :
    Run.asNew (if c then x else y) s = if c then x.asNew s else y.asNew s := by
  split <;> rfl

@[simp] theorem Meth.ite_apply (c : Prop) [Decidable c] (m1 m2 : Meth σ α) (s : σ) :
    (if c then m1 else m2) s = if c then m1 s else m2 s := by
  split <;> rfl

@[simp] theorem Run.prepend_mk (r r2 : List Access) (s : σ) (o : Outcome α) :
    Run.prepend r ⟨s, o, r2⟩ = ⟨s, o, r ++ r2⟩ := rfl

@[simp] theorem Run.prepend_nil (x : Run σ α) : Run.prepend [] x = x := by
  cases x; rfl

@[simp] theorem Run.prepend_outcome (r : List Access) (x : Run σ α) :
    (Run.prepend r x).outcome = x.outcome := rfl

@[simp] theorem Run.prepend_self (r : List Access) (x : Run σ α) :
    (Run.prepend r x).self = x.self := rfl

@[simp] theorem Run.prepend_reads (r : List Access) (x : Run σ α) :
    (Run.prepend r x).reads = r ++ x.reads := rfl

@[simp] theorem Run.prepend_ite (c : Prop) [Decidable c] (r : List Access) (x y : Run σ α) :
    Run.prepend r (if c then x else y) = if c then Run.prepend r x else Run.prepend r y := by
  split <;> rfl

@[simp] theorem Run.andThen_ok (s : σ) (a : α) (r : List Access) (f : α → Meth σ β) :
    Run.andThen ⟨s, .ok a, r⟩ f = (f a s).prepend r := rfl

@[simp] theorem Run.andThen_thrown (s : σ) (e : Exception) (r : List Access)
    (f : α → Meth σ β) : Run.andThen ⟨s, .thrown e, r⟩ f = ⟨s, .thrown e, r⟩ := rfl

@[simp] theorem Run.andThen_undefined (s : σ) (r : List Access) (f : α → Meth σ β) :
    Run.andThen ⟨s, .undefined, r⟩ f = ⟨s, .undefined, r⟩ := rfl

@[simp] theorem Run.andThen_ite (c : Prop) [Decidable c] (x y : Run σ α) (f : α → Meth σ β) :
    Run.andThen (if c then x else y) f = if c then x.andThen f else y.andThen f := by
  split <;> rfl

@[simp] theorem Run.handle_ok (s : σ) (a : α) (r : List Access) (h : Exception → Meth σ α) :
    Run.handle ⟨s, .ok a, r⟩ h = ⟨s, .ok a, r⟩ := rfl

@[simp] theorem Run.handle_thrown (s : σ) (e : Exception) (r : List Access)
    (h : Exception → Meth σ α) : Run.handle ⟨s, .thrown e, r⟩ h = (h e s).prepend r := rfl

@[simp] theorem Run.handle_undefined (s : σ) (r : List Access) (h : Exception → Meth σ α) :
    Run.handle (⟨s, .undefined, r⟩ : Run σ α) h = ⟨s, .undefined, r⟩ := rfl

@[simp] theorem Run.handle_ite (c : Prop) [Decidable c] (x y : Run σ α)
    (h : Exception → Meth σ α) :
    Run.handle (if c then x else y) h = if c then x.handle h else y.handle h := by
  split <;> rfl

/-- An access inside the vector returns the element and is recorded. -/
theorem Meth.index_of_lt (v : List ε) (i : Nat) (h : i < v.length) (s : σ) :
    (Meth.index v i : Meth σ ε) s = ⟨s, .ok (v.get ⟨i, h⟩), [⟨v.length, i⟩]⟩ := by
  simp [Meth.index, List.getElem?_eq_getElem h]

/-- An access outside the vector is undefined behaviour. -/
theorem Meth.index_of_le (v : List ε) (i : Nat) (h : v.length ≤ i) (s : σ) :
    (Meth.index v i : Meth σ ε) s = ⟨s, .undefined, [⟨v.length, i⟩]⟩ := by
  simp [Meth.index, List.getElem?_eq_none h]

end MethLemmas

/-! ## `PartitionEntry` -/

/-- `SetEntry` checks the size, then the type byte, then stores the entry. -/
theorem PartitionEntry.SetEntry_eq (S : UString) (p : PartitionEntry) :
    PartitionEntry.SetEntry S p =
      if S.length ≠ 16 then ⟨p, .thrown (.entrySize S.length), []⟩
      else if S[4]? = some 0 then ⟨p, .thrown .nonExistentPartition, [⟨16, 4⟩]⟩
      else ⟨⟨S⟩, .ok (), [⟨16, 4⟩]⟩ := by
  by_cases hl : S.length = 16
  · have h4 : S[4]? = some (S.get ⟨4, by omega⟩) := List.getElem?_eq_getElem (by omega)
    simp only [PartitionEntry.SetEntry, PARTITION_ENTRY_SIZE, h4,
      Meth.index_of_lt S 4 (by omega), hl, Option.some.injEq,
      Meth.bind_eq, Meth.seq_apply, Meth.ite_apply, Meth.pure_eq, Meth.ret_apply, Run.andThen_ok]
    by_cases h : S.get ⟨4, by omega⟩ = 0 <;> simp [h]
  · simp [PartitionEntry.SetEntry, PARTITION_ENTRY_SIZE, hl]

theorem PartitionEntry.new_eq (S : UString) :
    PartitionEntry.new S =
      if S.length ≠ 16 then ⟨⟨[]⟩, .thrown (.entrySize S.length), []⟩
      else if S[4]? = some 0 then ⟨⟨[]⟩, .thrown .nonExistentPartition, [⟨16, 4⟩]⟩
      else ⟨⟨S⟩, .ok (), [⟨16, 4⟩]⟩ := by
  simp only [PartitionEntry.new, PartitionEntry.ctor, PartitionEntry.SetEntry_eq]

/-! ## `Sector` and `MBR` -/

theorem Sector.SetSector_eq (B : UString) (s : Sector) :
    Sector.SetSector B s =
      if B.length ≠ 512 then ⟨s, .thrown (.sectorSize B.length), []⟩
      else ⟨⟨B⟩, .ok (), []⟩ := by
  by_cases hl : B.length = 512 <;> simp [Sector.SetSector, SECTOR_SIZE, hl]

/-- On a 512-byte sector `IsValidMBR` reads byte 510, and byte 511 only when
byte 510 is 0x55. -/
theorem MBR.IsValidMBR_eq (B : UString) (hB : B.length = 512) :
    MBR.IsValidMBR ⟨B⟩ =
      if B[510]? = some 0x55 then
        ⟨⟨B⟩, .ok (decide (B[511]? = some 0xAA)), [⟨512, 510⟩, ⟨512, 511⟩]⟩
      else ⟨⟨B⟩, .ok false, [⟨512, 510⟩]⟩ := by
  have e0 : B[510]? = some (B.get ⟨510, by omega⟩) := List.getElem?_eq_getElem (by omega)
  have e1 : B[511]? = some (B.get ⟨511, by omega⟩) := List.getElem?_eq_getElem (by omega)
  have d0 : sub64 512 2 = 510 := by decide
  have d1 : sub64 512 1 = 511 := by decide
  simp only [MBR.IsValidMBR, Meth.and, Meth.bind_eq, Meth.pure_eq, Meth.seq_apply,
    Meth.getThis_apply, Run.andThen_ok, hB, d0, d1, e0, e1, Option.some.injEq,
    Meth.index_of_lt B 510 (by omega), Meth.index_of_lt B 511 (by omega), Run.prepend_mk,
    Meth.ret_apply, Run.prepend_nil, Meth.ite_apply]
  by_cases h : B.get ⟨510, by omega⟩ = 0x55 <;> simp [h]

theorem MBR.ctor_eq (B : UString) (s : Sector) :
    MBR.ctor B s =
      if B.length ≠ 512 then ⟨s, .thrown (.sectorSize B.length), []⟩
      else if B[510]? = some 0x55 then
        if B[511]? = some 0xAA then ⟨⟨B⟩, .ok (), [⟨512, 510⟩, ⟨512, 511⟩]⟩
        else ⟨⟨B⟩, .thrown .mbrEnding, [⟨512, 510⟩, ⟨512, 511⟩]⟩
      else ⟨⟨B⟩, .thrown .mbrEnding, [⟨512, 510⟩]⟩ := by
  by_cases hl : B.length = 512
  · simp only [MBR.ctor, Sector.ctor, Meth.bind_eq, Meth.pure_eq, Meth.seq_apply,
      Sector.SetSector_eq, hl, ne_eq, not_true_eq_false, if_false, Run.andThen_ok,
      MBR.IsValidMBR_eq B hl, Run.prepend_nil, Run.andThen_ite]
    by_cases h0 : B[510]? = some 0x55
    · by_cases h1 : B[511]? = some 0xAA <;> simp [h0, h1]
    · simp [h0]
  · simp [MBR.ctor, Sector.ctor, Sector.SetSector_eq, hl]

/-! ## `NTFSVBR` -/

theorem NTFSVBR.differs_of_lt (V : UString) (i : Nat) (c : Char) (h : i < V.length) (s : Sector) :
    NTFSVBR.differs V i c s =
      ⟨s, .ok (decide ((V.get ⟨i, h⟩).val ≠ c.toNat)), [⟨V.length, i⟩]⟩ := by
  simp [NTFSVBR.differs, Meth.index_of_lt V i h]

theorem Meth.or_apply {σ : Type} (a b : Meth σ Bool) (s : σ) :
    Meth.or a b s = (a s).andThen (fun x => if x = true then Meth.ret true else b) := by
  simp [Meth.or]

theorem byte_val_ne (b c : Byte) (n : Nat) (h : c.val = n) : (b.val ≠ n) ↔ ¬ (b = c) := by
  subst h
  constructor
  · intro h e; exact h (by rw [e])
  · intro h e; exact h (Fin.ext e)

/-- On a 512-byte argument `SetVBR` stores the argument exactly when the magic
is present, throws otherwise, and reads only indices 3 to 10. -/
theorem NTFSVBR.SetVBR_eq (V : UString) (hV : V.length = 512) (s : Sector) :
    (NTFSVBR.SetVBR V s).outcome = (if hasNTFSMagic V then .ok () else .thrown .notNTFS) ∧
    (NTFSVBR.SetVBR V s).self = (if hasNTFSMagic V then ⟨V⟩ else s) ∧
    ∀ a ∈ (NTFSVBR.SetVBR V s).reads, a.size = 512 ∧ 3 ≤ a.index ∧ a.index ≤ 10 := by
  have e3 : V[3]? = some (V.get ⟨3, by omega⟩) := List.getElem?_eq_getElem (by omega)
  have e4 : V[4]? = some (V.get ⟨4, by omega⟩) := List.getElem?_eq_getElem (by omega)
  have e5 : V[5]? = some (V.get ⟨5, by omega⟩) := List.getElem?_eq_getElem (by omega)
  have e6 : V[6]? = some (V.get ⟨6, by omega⟩) := List.getElem?_eq_getElem (by omega)
  have e7 : V[7]? = some (V.get ⟨7, by omega⟩) := List.getElem?_eq_getElem (by omega)
  have e8 : V[8]? = some (V.get ⟨8, by omega⟩) := List.getElem?_eq_getElem (by omega)
  have e9 : V[9]? = some (V.get ⟨9, by omega⟩) := List.getElem?_eq_getElem (by omega)
  have e10 : V[10]? = some (V.get ⟨10, by omega⟩) := List.getElem?_eq_getElem (by omega)
  have cN : ('N').toNat = 0x4E := by decide
  have cT : ('T').toNat = 0x54 := by decide
  have cF : ('F').toNat = 0x46 := by decide
  have cS : ('S').toNat = 0x53 := by decide
  have cSp : (' ').toNat = 0x20 := by decide
  simp only [hasNTFSMagic, e3, e4, e5, e6, e7, e8, e9, e10, Option.some.injEq,
    NTFSVBR.SetVBR, Meth.bind_eq, Meth.seq_apply, Meth.or_apply,
    NTFSVBR.differs_of_lt V 3 _ (by omega), NTFSVBR.differs_of_lt V 4 _ (by omega),
    NTFSVBR.differs_of_lt V 5 _ (by omega), NTFSVBR.differs_of_lt V 6 _ (by omega),
    NTFSVBR.differs_of_lt V 7 _ (by omega), NTFSVBR.differs_of_lt V 8 _ (by omega),
    NTFSVBR.differs_of_lt V 9 _ (by omega), NTFSVBR.differs_of_lt V 10 _ (by omega),
    cN, cT, cF, cS, cSp, hV, Run.andThen_ok, Meth.ite_apply, Meth.ret_apply, Meth.pure_eq,
    byte_val_ne _ 0x4E 0x4E rfl, byte_val_ne _ 0x54 0x54 rfl, byte_val_ne _ 0x46 0x46 rfl,
    byte_val_ne _ 0x53 0x53 rfl, byte_val_ne _ 0x20 0x20 rfl]
  generalize V.get ⟨3, _⟩ = b3
  generalize V.get ⟨4, _⟩ = b4
  generalize V.get ⟨5, _⟩ = b5
  generalize V.get ⟨6, _⟩ = b6
  generalize V.get ⟨7, _⟩ = b7
  generalize V.get ⟨8, _⟩ = b8
  generalize V.get ⟨9, _⟩ = b9
  generalize V.get ⟨10, _⟩ = b10
  by_cases h3 : b3 = 0x4E
  case neg => simp [h3]
  by_cases h4 : b4 = 0x54
  case neg => simp [h3, h4]
  by_cases h5 : b5 = 0x46
  case neg => simp [h3, h4, h5]
  by_cases h6 : b6 = 0x53
  case neg => simp [h3, h4, h5, h6]
  by_cases h7 : b7 = 0x20
  case neg => simp [h3, h4, h5, h6, h7]
  by_cases h8 : b8 = 0x20
  case neg => simp [h3, h4, h5, h6, h7, h8]
  by_cases h9 : b9 = 0x20
  case neg => simp [h3, h4, h5, h6, h7, h8, h9]
  by_cases h10 : b10 = 0x20
  case neg => simp [h3, h4, h5, h6, h7, h8, h9, h10]
  simp [h3, h4, h5, h6, h7, h8, h9, h10]

theorem NTFSVBR.ctor_outcome (B : UString) (s : Sector) :
    (NTFSVBR.ctor B s).outcome =
      if B.length ≠ 512 then .thrown (.sectorSize B.length)
      else if ¬ hasTrailer B then .thrown .mbrEnding
      else if ¬ hasNTFSMagic B then .thrown .notNTFS
      else .ok () := by
  by_cases hl : B.length = 512
  · simp only [NTFSVBR.ctor, Meth.bind_eq, Meth.seq_apply, MBR.ctor_eq, hl, ne_eq,
      not_true_eq_false, if_false, hasTrailer]
    by_cases h0 : B[510]? = some 0x55
    · by_cases h1 : B[511]? = some 0xAA
      · simp [h0, h1, (NTFSVBR.SetVBR_eq B hl ⟨B⟩).1]
      · simp [h0, h1]
    · simp [h0]
  · simp [NTFSVBR.ctor, MBR.ctor_eq, hl]

theorem NTFSVBR.ctor_self (B : UString) (s : Sector)
    (h : (NTFSVBR.ctor B s).outcome = .ok ()) : (NTFSVBR.ctor B s).self = ⟨B⟩ := by
  rw [NTFSVBR.ctor_outcome] at h
  by_cases hl : B.length = 512
  · by_cases ht : hasTrailer B
    · by_cases hm : hasNTFSMagic B
      · have ht2 := ht
        simp only [hasTrailer] at ht2
        simp [NTFSVBR.ctor, MBR.ctor_eq, hl, ht2.1, ht2.2, (NTFSVBR.SetVBR_eq B hl ⟨B⟩).2.1, hm]
      · simp [hl, ht, hm] at h
    · simp [hl, ht] at h
  · simp [hl] at h

/-- The accesses of the constructor: none for a wrong size, only the trailer
for a bad trailer, and otherwise the trailer and indices among 3 to 10. -/
theorem NTFSVBR.ctor_reads (B : UString) (s : Sector) :
    (B.length ≠ 512 → (NTFSVBR.ctor B s).reads = []) ∧
    (B.length = 512 → ¬ hasTrailer B →
      ∀ a ∈ (NTFSVBR.ctor B s).reads, a.size = 512 ∧ (a.index = 510 ∨ a.index = 511)) ∧
    (∀ a ∈ (NTFSVBR.ctor B s).reads, a.size = B.length ∧ a.index < B.length) := by
  by_cases hl : B.length = 512
  · have hs := (NTFSVBR.SetVBR_eq B hl ⟨B⟩).2.2
    simp only [NTFSVBR.ctor, Meth.bind_eq, Meth.seq_apply, MBR.ctor_eq, hl, ne_eq,
      not_true_eq_false, if_false, hasTrailer]
    by_cases h0 : B[510]? = some 0x55
    · by_cases h1 : B[511]? = some 0xAA
      · simp only [h0, h1, if_true, Run.andThen_ok, Run.prepend_reads]
        refine ⟨by simp, by simp, ?_⟩
        intro a ha
        rcases List.mem_append.1 ha with ha | ha
        · simp at ha; rcases ha with rfl | rfl <;> simp
        · have := hs a ha; omega
      · simp [h0, h1]
    · simp [h0]
  · simp [NTFSVBR.ctor, MBR.ctor_eq, hl]

/-! ## Claims on construction -/

set_option maxRecDepth 100000 in
/-- C1: for a 512-byte buffer `B`, constructing an `MBR` from `B` succeeds
exactly when `B[510]` is 0x55 and `B[511]` is 0xAA, and the object then holds
`B`; otherwise the constructor throws "MBR ending must be 0x55AA". The all-zero
sector is rejected with that exception. -/
theorem MBR_new_ok_iff_trailer (B : UString) (hB : B.length = 512) :
    ((MBR.new B).outcome = .ok () ↔ (B[510]? = some 0x55 ∧ B[511]? = some 0xAA)) ∧
    (¬ (B[510]? = some 0x55 ∧ B[511]? = some 0xAA) →
      (MBR.new B).outcome = .thrown .mbrEnding) ∧
    ((MBR.new B).outcome = .ok () → (MBR.new B).self = ⟨B⟩) ∧
    (MBR.new zeroSector).outcome = .thrown .mbrEnding := by
  have hz : (MBR.new zeroSector).outcome = .thrown .mbrEnding := by
    have hl : zeroSector.length = 512 := by simp only [zeroSector, List.length_replicate]
    have h : zeroSector[510]? ≠ some 0x55 := by decide
    simp only [MBR.new, MBR.ctor_eq, hl, ne_eq, not_true_eq_false, if_false, h]
  refine ⟨?_, ?_, ?_, hz⟩
  · simp only [MBR.new, MBR.ctor_eq, hB]
    by_cases h0 : B[510]? = some 0x55
    · by_cases h1 : B[511]? = some 0xAA <;> simp [h0, h1]
    · simp [h0]
  · simp only [MBR.new, MBR.ctor_eq, hB]
    by_cases h0 : B[510]? = some 0x55
    · by_cases h1 : B[511]? = some 0xAA <;> simp [h0, h1]
    · simp [h0]
  · simp only [MBR.new, MBR.ctor_eq, hB]
    by_cases h0 : B[510]? = some 0x55
    · by_cases h1 : B[511]? = some 0xAA <;> simp [h0, h1]
    · simp [h0]

set_option maxRecDepth 100000 in
/-- Witness for C1: the empty partition table with a trailer is accepted. -/
theorem MBR_new_ok_iff_trailer_witness :
    emptyMBR.length = 512 ∧ (MBR.new emptyMBR).outcome = .ok () :=
  ⟨by decide, (MBR_new_ok_iff_trailer emptyMBR (by decide)).1.2 (by decide)⟩

/-- Overwriting one of the bytes 3 to 10 with a different value destroys the
magic. -/
theorem hasNTFSMagic_set (B : UString) (i : Nat) (b : Byte) (hB : B.length = 512)
    (hm : hasNTFSMagic B) (h3 : 3 ≤ i) (h10 : i ≤ 10) (hb : B[i]? ≠ some b) :
    ¬ hasNTFSMagic (B.set i b) := by
  unfold hasNTFSMagic at hm ⊢
  obtain ⟨m3, m4, m5, m6, m7, m8, m9, m10⟩ := hm
  have hi : i = 3 ∨ i = 4 ∨ i = 5 ∨ i = 6 ∨ i = 7 ∨ i = 8 ∨ i = 9 ∨ i = 10 := by omega
  intro hc
  obtain ⟨c3, c4, c5, c6, c7, c8, c9, c10⟩ := hc
  rcases hi with rfl | rfl | rfl | rfl | rfl | rfl | rfl | rfl
  · rw [List.getElem?_set_self (by omega)] at c3; exact hb (by rw [m3, c3])
  · rw [List.getElem?_set_self (by omega)] at c4; exact hb (by rw [m4, c4])
  · rw [List.getElem?_set_self (by omega)] at c5; exact hb (by rw [m5, c5])
  · rw [List.getElem?_set_self (by omega)] at c6; exact hb (by rw [m6, c6])
  · rw [List.getElem?_set_self (by omega)] at c7; exact hb (by rw [m7, c7])
  · rw [List.getElem?_set_self (by omega)] at c8; exact hb (by rw [m8, c8])
  · rw [List.getElem?_set_self (by omega)] at c9; exact hb (by rw [m9, c9])
  · rw [List.getElem?_set_self (by omega)] at c10; exact hb (by rw [m10, c10])

/-- Overwriting a byte below index 510 keeps the trailer. -/
theorem hasTrailer_set (B : UString) (i : Nat) (b : Byte) (h : i < 510) :
    hasTrailer (B.set i b) ↔ hasTrailer B := by
  unfold hasTrailer
  rw [List.getElem?_set_ne (by omega), List.getElem?_set_ne (by omega)]

/-- C2: constructing an `NTFSVBR` from a byte sequence `B` succeeds exactly
when `B` has 512 bytes, ends in 0x55, 0xAA and holds "NTFS    " at bytes 3 to
10; and replacing any single one of those eight bytes of an accepted buffer by
a different value makes the constructor throw the not-NTFS exception. -/
theorem NTFSVBR_new_ok_iff (B : UString) :
    ((NTFSVBR.new B).outcome = .ok () ↔
      (B.length = 512 ∧ B[510]? = some 0x55 ∧ B[511]? = some 0xAA ∧ hasNTFSMagic B)) ∧
    (∀ (i : Nat) (b : Byte), (NTFSVBR.new B).outcome = .ok () → 3 ≤ i → i ≤ 10 →
      B[i]? ≠ some b → (NTFSVBR.new (B.set i b)).outcome = .thrown .notNTFS) := by
  have key : ∀ C : UString, (NTFSVBR.new C).outcome = .ok () ↔
      (C.length = 512 ∧ hasTrailer C ∧ hasNTFSMagic C) := by
    intro C
    simp only [NTFSVBR.new, NTFSVBR.ctor_outcome]
    by_cases hl : C.length = 512
    · by_cases ht : hasTrailer C
      · by_cases hm : hasNTFSMagic C <;> simp [hl, ht, hm]
      · simp [hl, ht]
    · simp [hl]
  refine ⟨?_, ?_⟩
  · rw [key B]; simp only [hasTrailer, and_assoc]
  · intro i b hok h3 h10 hb
    obtain ⟨hl, ht, hm⟩ := (key B).1 hok
    have hl2 : (B.set i b).length = 512 := by rw [List.length_set]; exact hl
    have ht2 : hasTrailer (B.set i b) := (hasTrailer_set B i b (by omega)).2 ht
    have hm2 := hasNTFSMagic_set B i b hl hm h3 h10 hb
    simp only [NTFSVBR.new, NTFSVBR.ctor_outcome, hl2, ht2, hm2, ne_eq, not_true_eq_false,
      not_false_eq_true, if_true, if_false]

set_option maxRecDepth 100000 in
/-- Witness for C2: the sample boot sector is accepted, and with a lowercase
`n` at byte 3 it is rejected as not NTFS. -/
theorem NTFSVBR_new_ok_iff_witness :
    (NTFSVBR.new sampleVBR).outcome = .ok () ∧
    (NTFSVBR.new (sampleVBR.set 3 0x6E)).outcome = .thrown .notNTFS :=
  ⟨(NTFSVBR_new_ok_iff sampleVBR).1.2 (by decide),
   (NTFSVBR_new_ok_iff sampleVBR).2 3 0x6E ((NTFSVBR_new_ok_iff sampleVBR).1.2 (by decide))
     (by decide) (by decide) (by decide)⟩

/-- C9: the `NTFSVBR` constructor reports failures in a fixed order. A sequence
whose length is not 512 gives the sector-size exception and no byte is read; a
512-byte buffer with a bad trailer gives the trailer exception whatever bytes 3
to 10 hold, and only indices 510 and 511 are read; a 512-byte buffer with the
trailer and without the magic gives the not-NTFS exception. Every access is
inside `B`, so the behaviour is never undefined. -/
theorem NTFSVBR_new_precedence (B : UString) :
    (B.length ≠ 512 →
      (NTFSVBR.new B).outcome = .thrown (.sectorSize B.length) ∧ (NTFSVBR.new B).reads = []) ∧
    (B.length = 512 → ¬ hasTrailer B →
      (NTFSVBR.new B).outcome = .thrown .mbrEnding ∧
      ∀ a ∈ (NTFSVBR.new B).reads, a.index = 510 ∨ a.index = 511) ∧
    (B.length = 512 → hasTrailer B → ¬ hasNTFSMagic B →
      (NTFSVBR.new B).outcome = .thrown .notNTFS) ∧
    (∀ a ∈ (NTFSVBR.new B).reads, a.size = B.length ∧ a.inRange) ∧
    (NTFSVBR.new B).outcome ≠ .undefined := by
  have hr := NTFSVBR.ctor_reads B ⟨[]⟩
  refine ⟨?_, ?_, ?_, ?_, ?_⟩
  · intro hl
    exact ⟨by simp [NTFSVBR.new, NTFSVBR.ctor_outcome, hl], hr.1 hl⟩
  · intro hl ht
    refine ⟨by simp [NTFSVBR.new, NTFSVBR.ctor_outcome, hl, ht], ?_⟩
    intro a ha
    exact (hr.2.1 hl ht a ha).2
  · intro hl ht hm
    simp [NTFSVBR.new, NTFSVBR.ctor_outcome, hl, ht, hm]
  · intro a ha
    have := hr.2.2 a ha
    exact ⟨this.1, by unfold Access.inRange; omega⟩
  · simp only [NTFSVBR.new, NTFSVBR.ctor_outcome]
    split_ifs <;> simp

set_option maxRecDepth 100000 in
/-- Witness for C9: a trailer-less sector carrying the magic is rejected for its
trailer, and an empty sequence for its size. -/
theorem NTFSVBR_new_precedence_witness :
    (NTFSVBR.new []).outcome = .thrown (.sectorSize 0) ∧
    (NTFSVBR.new (sampleVBR.set 511 0)).outcome = .thrown .mbrEnding ∧
    (NTFSVBR.new (emptyMBR)).outcome = .thrown .notNTFS :=
  ⟨((NTFSVBR_new_precedence []).1 (by decide)).1,
   ((NTFSVBR_new_precedence (sampleVBR.set 511 0)).2.1 (by decide) (by decide)).1,
   (NTFSVBR_new_precedence emptyMBR).2.2.1 (by decide) (by decide) (by decide)⟩

/-- C6: constructing a `PartitionEntry` from a byte sequence `S` has exactly one
of three outcomes. It throws the size exception exactly when the length is not
16, and then reads no byte of `S`; it throws "Non-existent partition" exactly
when the length is 16 and `S[4]` is zero; it succeeds, storing `S`, exactly when
the length is 16 and `S[4]` is not zero. -/
theorem PartitionEntry_new_outcomes (S : UString) :
    ((PartitionEntry.new S).outcome = .thrown (.entrySize S.length) ↔ S.length ≠ 16) ∧
    (S.length ≠ 16 → (PartitionEntry.new S).reads = []) ∧
    ((PartitionEntry.new S).outcome = .thrown .nonExistentPartition ↔
      (S.length = 16 ∧ S[4]? = some 0)) ∧
    ((PartitionEntry.new S).outcome = .ok () ↔ (S.length = 16 ∧ S[4]? ≠ some 0)) ∧
    ((PartitionEntry.new S).outcome = .ok () → (PartitionEntry.new S).self = ⟨S⟩) ∧
    ((PartitionEntry.new S).outcome = .thrown (.entrySize S.length) ∨
      (PartitionEntry.new S).outcome = .thrown .nonExistentPartition ∨
      (PartitionEntry.new S).outcome = .ok ()) := by
  rw [PartitionEntry.new_eq]
  by_cases hl : S.length = 16
  · by_cases h4 : S[4]? = some 0
    · simp only [hl, h4, ne_eq, not_true_eq_false, if_false, if_true]
      simp
    · simp only [hl, h4, ne_eq, not_true_eq_false, if_false]
      simp
  · simp [hl]

/-- Witness for C6: the empty sequence is rejected for its size without a
read. -/
theorem PartitionEntry_new_outcomes_witness :
    (PartitionEntry.new []).reads = [] ∧
    (PartitionEntry.new []).outcome = .thrown (.entrySize 0) :=
  ⟨(PartitionEntry_new_outcomes []).2.1 (by decide),
   (PartitionEntry_new_outcomes []).1.2 (by decide)⟩

/-! ## Little-endian decoding -/

/-- A bitwise or of a multiple of `2^k` with a value below `2^k` is their sum. -/
theorem or_eq_add_of_dvd (x y k : Nat) (hx : 2 ^ k ∣ x) (hy : y < 2 ^ k) :
    x ||| y = x + y := by
  obtain ⟨a, rfl⟩ := hx
  exact (Nat.mul_add_lt_is_or hy a).symm

/-- The eight-operand or of shifted bytes is the little-endian sum. -/
theorem or8_eq_sum (b0 b1 b2 b3 b4 b5 b6 b7 : Nat) (h0 : b0 < 256) (h1 : b1 < 256)
    (h2 : b2 < 256) (h3 : b3 < 256) (h4 : b4 < 256) (h5 : b5 < 256) (h6 : b6 < 256)
    (h7 : b7 < 256) :
    (((((((shl64 b7 (8 * 7) ||| shl64 b6 (8 * 6)) ||| shl64 b5 (8 * 5))
      ||| shl64 b4 (8 * 4)) ||| shl64 b3 (8 * 3)) ||| shl64 b2 (8 * 2))
      ||| shl64 b1 (8 * 1)) ||| wrap64 b0)
    = b0 + b1 * 2 ^ 8 + b2 * 2 ^ 16 + b3 * 2 ^ 24 + b4 * 2 ^ 32 + b5 * 2 ^ 40 + b6 * 2 ^ 48
        + b7 * 2 ^ 56 := by
  have s7 : shl64 b7 (8 * 7) = b7 * 2 ^ 56 := by
    simp only [shl64, Nat.shiftLeft_eq]; omega
  have s6 : shl64 b6 (8 * 6) = b6 * 2 ^ 48 := by
    simp only [shl64, Nat.shiftLeft_eq]; omega
  have s5 : shl64 b5 (8 * 5) = b5 * 2 ^ 40 := by
    simp only [shl64, Nat.shiftLeft_eq]; omega
  have s4 : shl64 b4 (8 * 4) = b4 * 2 ^ 32 := by
    simp only [shl64, Nat.shiftLeft_eq]; omega
  have s3 : shl64 b3 (8 * 3) = b3 * 2 ^ 24 := by
    simp only [shl64, Nat.shiftLeft_eq]; omega
  have s2 : shl64 b2 (8 * 2) = b2 * 2 ^ 16 := by
    simp only [shl64, Nat.shiftLeft_eq]; omega
  have s1 : shl64 b1 (8 * 1) = b1 * 2 ^ 8 := by
    simp only [shl64, Nat.shiftLeft_eq]; omega
  have s0 : wrap64 b0 = b0 := by
    simp only [wrap64]; omega
  rw [s7, s6, s5, s4, s3, s2, s1, s0]
  rw [or_eq_add_of_dvd (b7 * 2 ^ 56) (b6 * 2 ^ 48) 56 (by omega) (by omega)]
  rw [or_eq_add_of_dvd (b7 * 2 ^ 56 + b6 * 2 ^ 48) (b5 * 2 ^ 40) 48 (by omega) (by omega)]
  rw [or_eq_add_of_dvd (b7 * 2 ^ 56 + b6 * 2 ^ 48 + b5 * 2 ^ 40) (b4 * 2 ^ 32) 40
    (by omega) (by omega)]
  rw [or_eq_add_of_dvd (b7 * 2 ^ 56 + b6 * 2 ^ 48 + b5 * 2 ^ 40 + b4 * 2 ^ 32) (b3 * 2 ^ 24) 32
    (by omega) (by omega)]
  rw [or_eq_add_of_dvd (b7 * 2 ^ 56 + b6 * 2 ^ 48 + b5 * 2 ^ 40 + b4 * 2 ^ 32 + b3 * 2 ^ 24)
    (b2 * 2 ^ 16) 24 (by omega) (by omega)]
  rw [or_eq_add_of_dvd
    (b7 * 2 ^ 56 + b6 * 2 ^ 48 + b5 * 2 ^ 40 + b4 * 2 ^ 32 + b3 * 2 ^ 24 + b2 * 2 ^ 16)
    (b1 * 2 ^ 8) 16 (by omega) (by omega)]
  rw [or_eq_add_of_dvd
    (b7 * 2 ^ 56 + b6 * 2 ^ 48 + b5 * 2 ^ 40 + b4 * 2 ^ 32 + b3 * 2 ^ 24 + b2 * 2 ^ 16
      + b1 * 2 ^ 8) b0 8 (by omega) (by omega)]
  omega

/-- The eight-byte little-endian sum, written out. -/
theorem leSum_eight (B : UString) (off : Nat) :
    leSum B off 8 =
      (B.getD off 0).val + (B.getD (off + 1) 0).val * 2 ^ 8 + (B.getD (off + 2) 0).val * 2 ^ 16
        + (B.getD (off + 3) 0).val * 2 ^ 24 + (B.getD (off + 4) 0).val * 2 ^ 32
        + (B.getD (off + 5) 0).val * 2 ^ 40 + (B.getD (off + 6) 0).val * 2 ^ 48
        + (B.getD (off + 7) 0).val * 2 ^ 56 := by
  simp only [leSum, List.range_succ, List.range_zero, List.nil_append, List.map_append,
    List.map_cons, List.map_nil, List.sum_append, List.sum_cons, List.sum_nil, Nat.add_zero]
  omega

/-- The four-byte little-endian sum, written out. -/
theorem leSum_four (B : UString) (off : Nat) :
    leSum B off 4 =
      (B.getD off 0).val + (B.getD (off + 1) 0).val * 2 ^ 8 + (B.getD (off + 2) 0).val * 2 ^ 16
        + (B.getD (off + 3) 0).val * 2 ^ 24 := by
  simp only [leSum, List.range_succ, List.range_zero, List.nil_append, List.map_append,
    List.map_cons, List.map_nil, List.sum_append, List.sum_cons, List.sum_nil, Nat.add_zero]
  omega

/-- Inside a vector `getD` is the element. -/
theorem getD_eq_get {ε : Type} (v : List ε) (i : Nat) (h : i < v.length) (d : ε) :
    v.getD i d = v.get ⟨i, h⟩ := by
  simp [List.getD, List.getElem?_eq_getElem h]

/-- On a sector holding the eight bytes, `leU64` returns their little-endian
value and reads exactly those eight indices. -/
theorem NTFSVBR.leU64_eq (B : UString) (off : Nat) (h : off + 7 < B.length) :
    NTFSVBR.leU64 off ⟨B⟩ =
      ⟨⟨B⟩, .ok (leSum B off 8),
        [⟨B.length, off + 7⟩, ⟨B.length, off + 6⟩, ⟨B.length, off + 5⟩, ⟨B.length, off + 4⟩,
         ⟨B.length, off + 3⟩, ⟨B.length, off + 2⟩, ⟨B.length, off + 1⟩, ⟨B.length, off⟩]⟩ := by
  simp only [NTFSVBR.leU64, Meth.bind_eq, Meth.pure_eq, Meth.seq_apply, Meth.getThis_apply,
    Run.andThen_ok, Meth.index_of_lt B (off + 7) (by omega), Meth.index_of_lt B (off + 6) (by omega),
    Meth.index_of_lt B (off + 5) (by omega), Meth.index_of_lt B (off + 4) (by omega),
    Meth.index_of_lt B (off + 3) (by omega), Meth.index_of_lt B (off + 2) (by omega),
    Meth.index_of_lt B (off + 1) (by omega), Meth.index_of_lt B off (by omega),
    Meth.ret_apply, Run.prepend_mk, Run.prepend_nil, List.append_nil, List.singleton_append,
    List.nil_append]
  rw [or8_eq_sum _ _ _ _ _ _ _ _ (Fin.isLt _) (Fin.isLt _) (Fin.isLt _) (Fin.isLt _)
    (Fin.isLt _) (Fin.isLt _) (Fin.isLt _) (Fin.isLt _)]
  rw [leSum_eight, getD_eq_get B off (by omega), getD_eq_get B (off + 1) (by omega),
    getD_eq_get B (off + 2) (by omega), getD_eq_get B (off + 3) (by omega),
    getD_eq_get B (off + 4) (by omega), getD_eq_get B (off + 5) (by omega),
    getD_eq_get B (off + 6) (by omega), getD_eq_get B (off + 7) (by omega)]

/-- A successfully constructed `NTFSVBR` holds the 512 bytes it was built from. -/
theorem NTFSVBR_new_ok_facts (B : UString) (hok : (NTFSVBR.new B).outcome = .ok ()) :
    (NTFSVBR.new B).self = ⟨B⟩ ∧ B.length = 512 ∧ hasTrailer B ∧ hasNTFSMagic B := by
  refine ⟨NTFSVBR.ctor_self B _ hok, ?_⟩
  simp only [NTFSVBR.new, NTFSVBR.ctor_outcome] at hok
  by_cases hl : B.length = 512
  · by_cases ht : hasTrailer B
    · by_cases hm : hasNTFSMagic B
      · exact ⟨hl, ht, hm⟩
      · simp [hl, ht, hm] at hok
    · simp [hl, ht] at hok
  · simp [hl] at hok

/-- The two cluster numbers of a successfully constructed `NTFSVBR`. -/
theorem NTFSVBR_LCN_eq_leSum_aux (B : UString) (hok : (NTFSVBR.new B).outcome = .ok ()) :
    (NTFSVBR.GetMFTLCN (NTFSVBR.new B).self).outcome = .ok (leSum B 0x30 8) ∧
    (NTFSVBR.GetMFTMirrLCN (NTFSVBR.new B).self).outcome = .ok (leSum B 0x38 8) := by
  obtain ⟨hs, hl, -, -⟩ := NTFSVBR_new_ok_facts B hok
  rw [hs]
  simp only [NTFSVBR.GetMFTLCN, NTFSVBR.GetMFTMirrLCN, NTFS_VBR_MFT_OFFSET,
    NTFS_VBR_MFTMIRR_OFFSET, NTFSVBR.leU64_eq B 0x30 (by omega),
    NTFSVBR.leU64_eq B 0x38 (by omega), hl, and_self]

/-- C3: for a successfully constructed `NTFSVBR` over `B`, `GetMFTLCN()` returns
the sum over `i < 8` of `B[0x30 + i] * 2^(8 i)` and `GetMFTMirrLCN()` the sum over
`i < 8` of `B[0x38 + i] * 2^(8 i)`, both below `2^64`; each call reads eight
indices, all of them inside the 512-byte buffer (0x30 to 0x37, 0x38 to 0x3F). -/
theorem NTFSVBR_LCN_eq_leSum (B : UString) (hok : (NTFSVBR.new B).outcome = .ok ()) :
    (NTFSVBR.GetMFTLCN (NTFSVBR.new B).self).outcome = .ok (leSum B 0x30 8) ∧
    (NTFSVBR.GetMFTMirrLCN (NTFSVBR.new B).self).outcome = .ok (leSum B 0x38 8) ∧
    leSum B 0x30 8 < 2 ^ 64 ∧ leSum B 0x38 8 < 2 ^ 64 ∧
    (NTFSVBR.GetMFTLCN (NTFSVBR.new B).self).reads.length = 8 ∧
    (NTFSVBR.GetMFTMirrLCN (NTFSVBR.new B).self).reads.length = 8 ∧
    (∀ a ∈ (NTFSVBR.GetMFTLCN (NTFSVBR.new B).self).reads,
      a.size = 512 ∧ 0x30 ≤ a.index ∧ a.index ≤ 0x37 ∧ a.inRange) ∧
    (∀ a ∈ (NTFSVBR.GetMFTMirrLCN (NTFSVBR.new B).self).reads,
      a.size = 512 ∧ 0x38 ≤ a.index ∧ a.index ≤ 0x3F ∧ a.inRange) := by
  obtain ⟨hs, hl, -, -⟩ := NTFSVBR_new_ok_facts B hok
  rw [hs]
  simp only [NTFSVBR.GetMFTLCN, NTFSVBR.GetMFTMirrLCN, NTFS_VBR_MFT_OFFSET,
    NTFS_VBR_MFTMIRR_OFFSET, NTFSVBR.leU64_eq B 0x30 (by omega),
    NTFSVBR.leU64_eq B 0x38 (by omega), hl]
  refine ⟨trivial, trivial, ?_, ?_, by simp, by simp, ?_, ?_⟩
  · rw [leSum_eight]
    have := (B.getD 0x30 0).isLt; have := (B.getD (0x30 + 1) 0).isLt
    have := (B.getD (0x30 + 2) 0).isLt; have := (B.getD (0x30 + 3) 0).isLt
    have := (B.getD (0x30 + 4) 0).isLt; have := (B.getD (0x30 + 5) 0).isLt
    have := (B.getD (0x30 + 6) 0).isLt; have := (B.getD (0x30 + 7) 0).isLt
    omega
  · rw [leSum_eight]
    have := (B.getD 0x38 0).isLt; have := (B.getD (0x38 + 1) 0).isLt
    have := (B.getD (0x38 + 2) 0).isLt; have := (B.getD (0x38 + 3) 0).isLt
    have := (B.getD (0x38 + 4) 0).isLt; have := (B.getD (0x38 + 5) 0).isLt
    have := (B.getD (0x38 + 6) 0).isLt; have := (B.getD (0x38 + 7) 0).isLt
    omega
  · intro a ha
    simp only [List.mem_cons, List.mem_singleton, List.not_mem_nil, or_false] at ha
    rcases ha with rfl | rfl | rfl | rfl | rfl | rfl | rfl | rfl <;>
      simp [Access.inRange]
  · intro a ha
    simp only [List.mem_cons, List.mem_singleton, List.not_mem_nil, or_false] at ha
    rcases ha with rfl | rfl | rfl | rfl | rfl | rfl | rfl | rfl <;>
      simp [Access.inRange]

set_option maxRecDepth 100000 in
/-- Witness for C3: the sample boot sector has `$MFT` at cluster 4. -/
theorem NTFSVBR_LCN_eq_leSum_witness :
    (NTFSVBR.new sampleVBR).outcome = .ok () ∧
    (NTFSVBR.GetMFTLCN (NTFSVBR.new sampleVBR).self).outcome = .ok (leSum sampleVBR 0x30 8) ∧
    leSum sampleVBR 0x30 8 = 4 :=
  ⟨by decide, (NTFSVBR_LCN_eq_leSum sampleVBR (by decide)).1, by decide⟩

/-- C10: little-endian round trip. For a value `v` below `2^64` and a valid NTFS
boot sector `B`: when bytes 0x30 to 0x37 of `B` are `(v >> 8 i) & 0xFF`,
`GetMFTLCN()` returns `v`; when bytes 0x38 to 0x3F are, `GetMFTMirrLCN()` returns
`v`; and a second valid boot sector that differs from `B` in one of the bytes
0x30 to 0x37 (0x38 to 0x3F) has a different `GetMFTLCN()` (`GetMFTMirrLCN()`). -/
theorem NTFSVBR_LCN_roundtrip (v : Nat) (hv : v < 2 ^ 64) (B : UString)
    (hok : (NTFSVBR.new B).outcome = .ok ()) :
    ((∀ i < 8, (B.getD (0x30 + i) 0).val = (v >>> (8 * i)) &&& 0xFF) →
      (NTFSVBR.GetMFTLCN (NTFSVBR.new B).self).outcome = .ok v) ∧
    ((∀ i < 8, (B.getD (0x38 + i) 0).val = (v >>> (8 * i)) &&& 0xFF) →
      (NTFSVBR.GetMFTMirrLCN (NTFSVBR.new B).self).outcome = .ok v) ∧
    (∀ C : UString, (NTFSVBR.new C).outcome = .ok () →
      (∃ i < 8, B.getD (0x30 + i) 0 ≠ C.getD (0x30 + i) 0) →
      (NTFSVBR.GetMFTLCN (NTFSVBR.new B).self).outcome ≠
        (NTFSVBR.GetMFTLCN (NTFSVBR.new C).self).outcome) ∧
    (∀ C : UString, (NTFSVBR.new C).outcome = .ok () →
      (∃ i < 8, B.getD (0x38 + i) 0 ≠ C.getD (0x38 + i) 0) →
      (NTFSVBR.GetMFTMirrLCN (NTFSVBR.new B).self).outcome ≠
        (NTFSVBR.GetMFTMirrLCN (NTFSVBR.new C).self).outcome) := by
  have enc : ∀ off : Nat, (∀ i < 8, (B.getD (off + i) 0).val = (v >>> (8 * i)) &&& 0xFF) →
      leSum B off 8 = v := by
    intro off h
    have m : ∀ x : Nat, x &&& 0xFF = x % 256 := fun x => Nat.and_pow_two_sub_one_eq_mod x 8
    have h0 := h 0 (by omega); have h1 := h 1 (by omega); have h2 := h 2 (by omega)
    have h3 := h 3 (by omega); have h4 := h 4 (by omega); have h5 := h 5 (by omega)
    have h6 := h 6 (by omega); have h7 := h 7 (by omega)
    simp only [m, Nat.shiftRight_eq_div_pow, Nat.add_zero] at h0 h1 h2 h3 h4 h5 h6 h7
    rw [leSum_eight, h0, h1, h2, h3, h4, h5, h6, h7]
    omega
  have inj : ∀ (C : UString) (off : Nat), (∃ i < 8, B.getD (off + i) 0 ≠ C.getD (off + i) 0) →
      leSum B off 8 ≠ leSum C off 8 := by
    intro C off ⟨i, hi, hne⟩ heq
    rw [leSum_eight, leSum_eight] at heq
    have := (B.getD off 0).isLt; have := (B.getD (off + 1) 0).isLt
    have := (B.getD (off + 2) 0).isLt; have := (B.getD (off + 3) 0).isLt
    have := (B.getD (off + 4) 0).isLt; have := (B.getD (off + 5) 0).isLt
    have := (B.getD (off + 6) 0).isLt; have := (B.getD (off + 7) 0).isLt
    have := (C.getD off 0).isLt; have := (C.getD (off + 1) 0).isLt
    have := (C.getD (off + 2) 0).isLt; have := (C.getD (off + 3) 0).isLt
    have := (C.getD (off + 4) 0).isLt; have := (C.getD (off + 5) 0).isLt
    have := (C.getD (off + 6) 0).isLt; have := (C.getD (off + 7) 0).isLt
    have hi8 : i = 0 ∨ i = 1 ∨ i = 2 ∨ i = 3 ∨ i = 4 ∨ i = 5 ∨ i = 6 ∨ i = 7 := by omega
    apply hne
    apply Fin.ext
    rcases hi8 with rfl | rfl | rfl | rfl | rfl | rfl | rfl | rfl <;>
      (try simp only [Nat.add_zero]) <;> omega
  have hB := NTFSVBR_LCN_eq_leSum_aux B hok
  refine ⟨?_, ?_, ?_, ?_⟩
  · intro h; rw [hB.1, enc 0x30 h]
  · intro h; rw [hB.2, enc 0x38 h]
  · intro C hC hd
    have hCe := NTFSVBR_LCN_eq_leSum_aux C hC
    rw [hB.1, hCe.1]
    intro h
    exact inj C 0x30 hd (Outcome.ok.inj h)
  · intro C hC hd
    have hCe := NTFSVBR_LCN_eq_leSum_aux C hC
    rw [hB.2, hCe.2]
    intro h
    exact inj C 0x38 hd (Outcome.ok.inj h)

set_option maxRecDepth 100000 in
/-- Witness for C10: 0x0102030405060708 at offset 0x30 and 0x38 at offset 0x38
decode to themselves. -/
theorem NTFSVBR_LCN_roundtrip_witness :
    (NTFSVBR.GetMFTLCN (NTFSVBR.new sampleVBR2).self).outcome = .ok 0x0102030405060708 ∧
    (NTFSVBR.GetMFTMirrLCN (NTFSVBR.new sampleVBR2).self).outcome = .ok 0x38 :=
  ⟨(NTFSVBR_LCN_roundtrip 0x0102030405060708 (by decide) sampleVBR2 (by decide)).1 (by decide),
   (NTFSVBR_LCN_roundtrip 0x38 (by decide) sampleVBR2 (by decide)).2.1 (by decide)⟩

/-! ## Starting sector and byte addresses -/

/-- An `unsigned char` promoted to `int` and shifted left by at most 16 bits
converts to `std::uint64_t` without change of value. -/
theorem intToU64_shlInt_byte (b k : Nat) (hb : b < 256) (hk : k = 0 ∨ k = 8 ∨ k = 16) :
    intToU64 (shlInt (b : Int) k) = b * 2 ^ k := by
  rcases hk with rfl | rfl | rfl <;>
    simp only [intToU64, shlInt, wrapInt32] <;> omega

theorem intToU64_wrapInt32_byte (b : Nat) (hb : b < 256) :
    intToU64 (wrapInt32 (b : Int)) = b := by
  simp only [intToU64, wrapInt32]; omega

/-- The four-operand or of `GetStartingSector` is the little-endian sum. -/
theorem or4_eq_sum (b8 b9 b10 b11 : Nat) (h8 : b8 < 256) (h9 : b9 < 256) (h10 : b10 < 256)
    (h11 : b11 < 256) :
    ((shl64 b11 24 ||| intToU64 (shlInt (b10 : Int) 16)) ||| intToU64 (shlInt (b9 : Int) 8))
      ||| intToU64 (wrapInt32 (b8 : Int))
    = b8 + b9 * 2 ^ 8 + b10 * 2 ^ 16 + b11 * 2 ^ 24 := by
  have s11 : shl64 b11 24 = b11 * 2 ^ 24 := by
    simp only [shl64, Nat.shiftLeft_eq]; omega
  rw [s11, intToU64_shlInt_byte b10 16 h10 (by omega), intToU64_shlInt_byte b9 8 h9 (by omega),
    intToU64_wrapInt32_byte b8 h8]
  rw [or_eq_add_of_dvd (b11 * 2 ^ 24) (b10 * 2 ^ 16) 24 (by omega) (by omega)]
  rw [or_eq_add_of_dvd (b11 * 2 ^ 24 + b10 * 2 ^ 16) (b9 * 2 ^ 8) 16 (by omega) (by omega)]
  rw [or_eq_add_of_dvd (b11 * 2 ^ 24 + b10 * 2 ^ 16 + b9 * 2 ^ 8) b8 8 (by omega) (by omega)]
  omega

/-- On a 16-byte entry `GetStartingSector` returns the little-endian value of
bytes 8 to 11. -/
theorem PartitionEntry.GetStartingSector_eq (S : UString) (hl : S.length = 16) :
    PartitionEntry.GetStartingSector ⟨S⟩ =
      ⟨⟨S⟩, .ok (leSum S 8 4), [⟨16, 11⟩, ⟨16, 10⟩, ⟨16, 9⟩, ⟨16, 8⟩]⟩ := by
  simp only [PartitionEntry.GetStartingSector, Meth.bind_eq, Meth.pure_eq, Meth.seq_apply,
    Meth.getThis_apply, Run.andThen_ok, Meth.index_of_lt S 11 (by omega),
    Meth.index_of_lt S 10 (by omega), Meth.index_of_lt S 9 (by omega),
    Meth.index_of_lt S 8 (by omega), Meth.ret_apply, Run.prepend_mk, Run.prepend_nil,
    List.append_nil, List.singleton_append, List.nil_append, hl]
  rw [or4_eq_sum _ _ _ _ (Fin.isLt _) (Fin.isLt _) (Fin.isLt _) (Fin.isLt _)]
  rw [leSum_four, getD_eq_get S 8 (by omega), getD_eq_get S (8 + 1) (by omega),
    getD_eq_get S (8 + 2) (by omega), getD_eq_get S (8 + 3) (by omega)]

/-- C4: for a 16-byte slot `S` with `S[4]` not zero the entry is constructed and
`GetStartingSector()` returns `S[8] + S[9] * 2^8 + S[10] * 2^16 + S[11] * 2^24`,
a value below `2^32`; the `int` shifts of bytes 9 and 10 and the 64-bit shift of
byte 11 neither sign-extend nor truncate. -/
theorem GetStartingSector_eq_le32 (S : UString) (hl : S.length = 16) (h4 : S[4]? ≠ some 0) :
    (PartitionEntry.new S).outcome = .ok () ∧
    (PartitionEntry.GetStartingSector (PartitionEntry.new S).self).outcome =
      .ok ((S.getD 8 0).val + (S.getD 9 0).val * 2 ^ 8 + (S.getD 10 0).val * 2 ^ 16
        + (S.getD 11 0).val * 2 ^ 24) ∧
    (S.getD 8 0).val + (S.getD 9 0).val * 2 ^ 8 + (S.getD 10 0).val * 2 ^ 16
        + (S.getD 11 0).val * 2 ^ 24 < 2 ^ 32 := by
  have hn : PartitionEntry.new S = ⟨⟨S⟩, .ok (), [⟨16, 4⟩]⟩ := by
    rw [PartitionEntry.new_eq]; simp only [hl, ne_eq, not_true_eq_false, if_false, h4]
  rw [hn]
  refine ⟨rfl, ?_, ?_⟩
  · simp only [PartitionEntry.GetStartingSector_eq S hl, leSum_four]
  · have := (S.getD 8 0).isLt; have := (S.getD 9 0).isLt
    have := (S.getD 10 0).isLt; have := (S.getD 11 0).isLt
    omega

/-- Witness for C4: the bytes FF FE FD FC decode to 0xFCFDFEFF. -/
theorem GetStartingSector_eq_le32_witness :
    (PartitionEntry.GetStartingSector (PartitionEntry.new sampleSlotHigh).self).outcome =
      .ok 0xFCFDFEFF :=
  (GetStartingSector_eq_le32 sampleSlotHigh (by decide) (by decide)).2.1

@[simp] theorem emit_apply (e : Event) (w : World) : emit e w = ⟨w ++ [e], .ok (), []⟩ := rfl

/-- Two 64-bit multiplications by the constants 8 and 512 are one
multiplication by 4096 modulo `2^64`. -/
theorem mul64_cluster_sector (lcn : Nat) :
    mul64 (mul64 lcn CLUSTER_SIZE) SECTOR_SIZE = (lcn * 8 * 512) % 2 ^ 64 := by
  simp only [mul64, CLUSTER_SIZE, SECTOR_SIZE]; omega

/-- On a 512-byte boot sector `displayMFTProperties` prints the two addresses
computed from the two cluster numbers. -/
theorem displayMFTProperties_eq (B : UString) (hl : B.length = 512) (w : World) :
    (displayMFTProperties ⟨B⟩ w).outcome = .ok () ∧
    (displayMFTProperties ⟨B⟩ w).self =
      w ++ [.mftAddress ((leSum B 0x30 8 * 8 * 512) % 2 ^ 64),
            .mftMirrAddress ((leSum B 0x38 8 * 8 * 512) % 2 ^ 64)] := by
  simp only [displayMFTProperties, Meth.bind_eq, Meth.seq_apply, Meth.call_apply,
    NTFSVBR.GetMFTLCN, NTFSVBR.GetMFTMirrLCN, NTFS_VBR_MFT_OFFSET, NTFS_VBR_MFTMIRR_OFFSET,
    NTFSVBR.leU64_eq B 0x30 (by omega), NTFSVBR.leU64_eq B 0x38 (by omega), Run.andThen_ok,
    Run.inCaller_mk, emit_apply, Run.prepend_mk, Run.prepend_outcome, Run.prepend_self, mul64_cluster_sector,
    List.append_assoc, List.singleton_append, and_self]

/-- C7: for a valid `NTFSVBR` the two values printed by `displayMFTProperties`
are `(GetMFTLCN() * 8 * 512) mod 2^64` and `(GetMFTMirrLCN() * 8 * 512) mod 2^64`.
A cluster number below `2^52` gives exactly `LCN * 4096`; cluster 0x100 gives
0x100000 and cluster 4 gives 16384. -/
theorem displayMFTProperties_addresses (B : UString) (hok : (NTFSVBR.new B).outcome = .ok ())
    (w : World) :
    (NTFSVBR.GetMFTLCN (NTFSVBR.new B).self).outcome = .ok (leSum B 0x30 8) ∧
    (NTFSVBR.GetMFTMirrLCN (NTFSVBR.new B).self).outcome = .ok (leSum B 0x38 8) ∧
    (displayMFTProperties (NTFSVBR.new B).self w).outcome = .ok () ∧
    (displayMFTProperties (NTFSVBR.new B).self w).self =
      w ++ [.mftAddress ((leSum B 0x30 8 * 8 * 512) % 2 ^ 64),
            .mftMirrAddress ((leSum B 0x38 8 * 8 * 512) % 2 ^ 64)] ∧
    (leSum B 0x30 8 < 2 ^ 52 → (leSum B 0x30 8 * 8 * 512) % 2 ^ 64 = leSum B 0x30 8 * 4096) ∧
    (leSum B 0x38 8 < 2 ^ 52 → (leSum B 0x38 8 * 8 * 512) % 2 ^ 64 = leSum B 0x38 8 * 4096) ∧
    (leSum B 0x30 8 = 0x100 → (leSum B 0x30 8 * 8 * 512) % 2 ^ 64 = 0x100000) ∧
    (leSum B 0x30 8 = 4 → (leSum B 0x30 8 * 8 * 512) % 2 ^ 64 = 16384) := by
  have hB := NTFSVBR_LCN_eq_leSum_aux B hok
  obtain ⟨hs, hl, -, -⟩ := NTFSVBR_new_ok_facts B hok
  refine ⟨hB.1, hB.2, ?_, ?_, ?_, ?_, ?_, ?_⟩
  · rw [hs]; exact (displayMFTProperties_eq B hl w).1
  · rw [hs]; exact (displayMFTProperties_eq B hl w).2
  · intro h; omega
  · intro h; omega
  · intro h; omega
  · intro h; omega

set_option maxRecDepth 100000 in
/-- Witness for C7: the sample boot sector, with `$MFT` at cluster 4, prints
16384 as the `$MFT` address. -/
theorem displayMFTProperties_addresses_witness :
    (displayMFTProperties (NTFSVBR.new sampleVBR).self []).self =
      [.mftAddress 16384, .mftMirrAddress (0x1869C0 * 4096)] :=
  (displayMFTProperties_addresses sampleVBR (by decide) []).2.2.2.1

/-! ## `MBR::ParseEntries` -/

/-- A range inside the vector copies the elements and records one access per
element. -/
theorem Meth.range_of_le {σ : Type} (v : UString) (lo hi : Nat) (h1 : lo ≤ hi)
    (h2 : hi ≤ v.length) (s : σ) :
    (Meth.range v lo hi : Meth σ UString) s =
      ⟨s, .ok ((v.drop lo).take (hi - lo)),
        (List.range' lo (hi - lo)).map (Access.mk v.length)⟩ := by
  simp [Meth.range, h1, h2]

/-- The iterator range taken by `ParseEntries` for slot `i` is the slot. -/
theorem slice_eq_slotBytes (B : UString) (i : Nat) (hB : B.length = 512) (hi : i < 4) :
    (B.drop (446 + i * 16)).take 16 = slotBytes B i := by
  apply List.ext_getElem?
  intro j
  by_cases hj : j < 16
  · rw [List.getElem?_take_of_lt hj, List.getElem?_drop, slotBytes, List.getElem?_map,
      List.getElem?_range hj, Option.map_some']
    have e : 446 + i * 16 + j = 446 + 16 * i + j := by omega
    rw [e, List.getD_eq_getElem?_getD, List.getElem?_eq_getElem (by omega)]
    rfl
  · rw [List.getElem?_take_eq_none (by omega), List.getElem?_eq_none]
    simp [slotBytes]; omega

theorem slotBytes_length (B : UString) (i : Nat) : (slotBytes B i).length = 16 := by
  simp [slotBytes]

theorem slotBytes_type (B : UString) (i : Nat) :
    (slotBytes B i)[4]? = some (B.getD (446 + 16 * i + 4) 0) := by
  simp [slotBytes, List.getElem?_range]

/-- One iteration of the loop of `ParseEntries` on a 512-byte sector. -/
theorem MBR.ParseEntries.loop_succ (B : UString) (hB : B.length = 512) (n i : Nat) (hi : i < 4)
    (acc : EntryVector) :
    MBR.ParseEntries.loop (n + 1) i acc ⟨B⟩ =
      (MBR.ParseEntries.loop n (i + 1)
        (if slotPresent B i then acc ++ [⟨slotBytes B i⟩] else acc) ⟨B⟩).prepend
        ((List.range' (446 + i * 16) 16).map (Access.mk 512) ++ [⟨16, 4⟩]) := by
  have e1 : 446 + (i + 1) * 16 - (446 + i * 16) = 16 := by omega
  rw [MBR.ParseEntries.loop]
  simp only [Meth.bind_eq, Meth.pure_eq, Meth.seq_apply, Meth.getThis_apply, Run.andThen_ok,
    Meth.tryCatch_apply, PARTITION_TABLE_OFFSET, PARTITION_ENTRY_SIZE,
    Meth.range_of_le B (446 + i * 16) (446 + (i + 1) * 16) (by omega) (by omega), e1,
    slice_eq_slotBytes B i hB hi, Meth.construct_apply, PartitionEntry.ctor,
    PartitionEntry.SetEntry_eq, slotBytes_length, slotBytes_type, hB, ne_eq,
    not_true_eq_false, if_false, Option.some.injEq, Run.prepend_nil, slotPresent]
  by_cases hp : B.getD (446 + 16 * i + 4) 0 = 0
  · simp [-List.getD_eq_getElem?_getD, hp]
  · simp [-List.getD_eq_getElem?_getD, hp]

theorem presentEntries_zero (B : UString) (lo : Nat) : presentEntries B lo 0 = [] := rfl

theorem presentEntries_succ (B : UString) (lo n : Nat) :
    presentEntries B lo (n + 1) =
      (if slotPresent B lo then [⟨slotBytes B lo⟩] else []) ++ presentEntries B (lo + 1) n := by
  simp only [presentEntries, List.range'_succ, List.filter_cons]
  by_cases h : slotPresent B lo = true <;> simp [h]

/-- The loop of `ParseEntries` on a 512-byte sector appends the present slots
in order, leaves the sector unchanged and reads only partition-table bytes and
the type byte of each 16-byte slot copy. -/
theorem MBR.ParseEntries.loop_eq (B : UString) (hB : B.length = 512) :
    ∀ (n i : Nat) (acc : EntryVector), i + n ≤ 4 →
      (MBR.ParseEntries.loop n i acc ⟨B⟩).outcome = .ok (acc ++ presentEntries B i n) ∧
      (MBR.ParseEntries.loop n i acc ⟨B⟩).self = ⟨B⟩ ∧
      ∀ a ∈ (MBR.ParseEntries.loop n i acc ⟨B⟩).reads,
        (a.size = 512 ∧ 446 + 16 * i ≤ a.index ∧ a.index < 446 + 16 * (i + n)) ∨
          a = ⟨16, 4⟩ := by
  intro n
  induction n with
  | zero =>
    intro i acc _
    simp [MBR.ParseEntries.loop, presentEntries_zero]
  | succ n ih =>
    intro i acc h
    rw [MBR.ParseEntries.loop_succ B hB n i (by omega) acc]
    obtain ⟨h1, h2, h3⟩ := ih (i + 1)
      (if slotPresent B i then acc ++ [⟨slotBytes B i⟩] else acc) (by omega)
    refine ⟨?_, ?_, ?_⟩
    · rw [Run.prepend_outcome, h1, presentEntries_succ]
      by_cases hp : slotPresent B i = true <;> simp [hp]
    · rw [Run.prepend_self, h2]
    · intro a ha
      rw [Run.prepend_reads] at ha
      rcases List.mem_append.1 ha with ha | ha
      · rcases List.mem_append.1 ha with ha | ha
        · obtain ⟨k, hk, rfl⟩ := List.mem_map.1 ha
          rw [List.mem_range'_1] at hk
          left
          exact ⟨rfl, by simp only; omega, by simp only; omega⟩
        · right
          simpa using ha
      · rcases h3 a ha with ⟨q1, q2, q3⟩ | q
        · left; exact ⟨q1, by omega, by omega⟩
        · right; exact q

/-- A successfully constructed `MBR` holds the 512 bytes it was built from. -/
theorem MBR_new_ok_facts (B : UString) (hok : (MBR.new B).outcome = .ok ()) :
    (MBR.new B).self = ⟨B⟩ ∧ B.length = 512 ∧ hasTrailer B := by
  simp only [MBR.new, MBR.ctor_eq, hasTrailer] at hok ⊢
  by_cases hl : B.length = 512
  · by_cases h0 : B[510]? = some 0x55
    · by_cases h1 : B[511]? = some 0xAA
      · simp only [hl, h0, h1, ne_eq, not_true_eq_false, if_false, if_true, and_self]
      · simp only [hl, h0, h1, ne_eq, not_true_eq_false, if_false, if_true] at hok
        cases hok
    · simp only [hl, h0, ne_eq, not_true_eq_false, if_false] at hok
      cases hok
  · simp only [hl, ne_eq, not_false_eq_true, if_true] at hok
    cases hok

/-- C5: for a valid `MBR` over `B`, `ParseEntries()` returns the entries of the
slots `i = 0..3` whose type byte `B[446 + 16 i + 4]` is not zero, in increasing
slot order, each holding the 16 bytes `B[446 + 16 i] .. B[446 + 16 i + 15]`. The
result has at most 4 entries, as many as there are slots with a nonzero type
byte, and the sector is left unchanged. -/
theorem ParseEntries_eq_present_slots (B : UString) (hok : (MBR.new B).outcome = .ok ()) :
    (MBR.ParseEntries (MBR.new B).self).outcome =
      .ok (((List.range 4).filter (slotPresent B)).map fun i => { entry := slotBytes B i }) ∧
    (((List.range 4).filter (slotPresent B)).map
      fun i => ({ entry := slotBytes B i } : PartitionEntry)).length ≤ 4 ∧
    (((List.range 4).filter (slotPresent B)).map
      fun i => ({ entry := slotBytes B i } : PartitionEntry)).length
        = (List.range 4).countP (slotPresent B) ∧
    (MBR.ParseEntries (MBR.new B).self).self = ⟨B⟩ := by
  obtain ⟨hs, hl, -⟩ := MBR_new_ok_facts B hok
  obtain ⟨h1, h2, -⟩ := MBR.ParseEntries.loop_eq B hl 4 0 [] (by omega)
  rw [hs]
  refine ⟨?_, ?_, ?_, ?_⟩
  · rw [MBR.ParseEntries, h1, List.nil_append, presentEntries, List.range_eq_range']
  · rw [List.length_map]
    exact (List.length_filter_le _ _).trans (by simp)
  · rw [List.length_map, List.countP_eq_length_filter]
  · rw [MBR.ParseEntries, h2]

set_option maxRecDepth 100000 in
/-- Witness for C5: the sample record yields its single entry. -/
theorem ParseEntries_eq_present_slots_witness :
    (MBR.ParseEntries (MBR.new sampleMBR).self).outcome =
      .ok [⟨[0x80, 0x20, 0x21, 0x00, 0x07, 0xFE, 0xFF, 0xFF, 0x00, 0x08, 0x00, 0x00, 0x00, 0x00,
        0x10, 0x00]⟩] :=
  (ParseEntries_eq_present_slots sampleMBR (by decide)).1

/-! ## Program3 `work` -/

@[simp] theorem sysRead_apply (fd : Device) (off : Int) (w : World) :
    sysRead fd off w = ⟨w ++ [.read off], .ok (fd.read off), []⟩ := by
  simp [sysRead]

@[simp] theorem sysLseek_apply (fd : Device) (off : Nat) (w : World) :
    sysLseek fd off w = ⟨w ++ [.lseek (toOff off)], .ok (fd.lseek (toOff off)), []⟩ := by
  simp [sysLseek]

theorem sectorOf_length (buf : Nat → Byte) : (sectorOf buf).length = 512 := by
  simp [sectorOf, SECTOR_SIZE]

theorem sectorOf_getElem? (buf : Nat → Byte) (i : Nat) (h : i < 512) :
    (sectorOf buf)[i]? = some (buf i) := by
  simp [sectorOf, SECTOR_SIZE, List.getElem?_range h]

/-- Continuing a run whose outcome is known to be a value. -/
theorem Run.andThen_of_ok {σ α β : Type} (x : Run σ α) (a : α) (f : α → Meth σ β)
    (h : x.outcome = .ok a) : x.andThen f = (f a x.self).prepend x.reads := by
  cases x with
  | mk s o r => simp only at h; subst h; rfl

theorem Meth.index_cons_zero {σ ε : Type} (a : ε) (l : List ε) (s : σ) :
    (Meth.index (a :: l) 0 : Meth σ ε) s = ⟨s, .ok a, [⟨l.length + 1, 0⟩]⟩ := by
  simp [Meth.index]

/-- On a valid 512-byte record whose slot 0 has type 0xEE, `work` stops after
the GPT test. -/
theorem work_gpt_run (fd : Device) (buf : Nat → Byte) (hread : fd.read 0 = some buf)
    (h510 : (sectorOf buf)[510]? = some 0x55) (h511 : (sectorOf buf)[511]? = some 0xAA)
    (h450 : (sectorOf buf)[450]? = some 0xEE) (w : World) :
    (work fd w).outcome = .ok GPT_FORMATTED ∧
    (work fd w).self = w ++ [.read 0, .gptUnsupported] := by
  have hl := sectorOf_length buf
  obtain ⟨p1, p2, -⟩ := MBR.ParseEntries.loop_eq (sectorOf buf) hl 4 0 [] (by omega)
  have hp : slotPresent (sectorOf buf) 0 = true := by
    simp only [slotPresent, List.getD_eq_getElem?_getD]
    rw [h450]; decide
  rw [List.nil_append, presentEntries_succ, hp, if_pos rfl, List.singleton_append] at p1
  have ht : (slotBytes (sectorOf buf) 0)[4]? = some 0xEE := by
    rw [slotBytes_type, List.getD_eq_getElem?_getD, h450]; rfl
  have hg : PartitionEntry.GetPartitionType ⟨slotBytes (sectorOf buf) 0⟩ =
      ⟨⟨slotBytes (sectorOf buf) 0⟩, .ok 0xEE, [⟨16, 4⟩]⟩ := by
    simp only [PartitionEntry.GetPartitionType, Meth.bind_eq, Meth.seq_apply, Meth.getThis_apply,
      Run.andThen_ok, Run.prepend_nil, Meth.index]
    rw [ht]; simp [slotBytes_length]
  simp only [work, Meth.bind_eq, Meth.pure_eq, Meth.seq_apply, sysRead_apply, Run.andThen_ok,
    hread, Meth.construct_apply, MBR.ctor_eq, hl, h510, h511, ne_eq, not_true_eq_false, if_false,
    if_true, Run.asNew_ok, Run.prepend_mk, Meth.call_apply, MBR.ParseEntries, Meth.and]
  simp only [Run.inCaller, p1, List.length_cons, Meth.ret_apply, Run.andThen_ok,
    Meth.seq_apply, Meth.ite_apply, Nat.add_one_ne_zero, not_false_eq_true, decide_True,
    if_true, Meth.index_cons_zero, Meth.call_apply, hg, Run.inCaller_mk, Run.prepend_mk,
    emit_apply, Run.prepend_outcome, Run.prepend_self, Run.prepend_nil]
  simp

/-- C8: when the 512 bytes read as the master boot record end in 0x55, 0xAA and
the type byte of slot 0, byte 450, is 0xEE, Program3's `work` returns
`GPT_FORMATTED`, which is 5, whatever slots 1 to 3 hold. Its only actions are
the read of the record and the message that GPT is unsupported: no entry is
classified, no seek is made and no boot sector is read. -/
theorem work_gpt_formatted (fd : Device) (buf : Nat → Byte) (hread : fd.read 0 = some buf)
    (h510 : (sectorOf buf)[510]? = some 0x55) (h511 : (sectorOf buf)[511]? = some 0xAA)
    (h450 : (sectorOf buf)[450]? = some 0xEE) :
    (sectorOf buf).length = 512 ∧
    (work fd []).outcome = .ok GPT_FORMATTED ∧ GPT_FORMATTED = 5 ∧
    (work fd []).self = [.read 0, .gptUnsupported] := by
  obtain ⟨h1, h2⟩ := work_gpt_run fd buf hread h510 h511 h450 []
  exact ⟨sectorOf_length buf, h1, rfl, by rw [h2]; rfl⟩

set_option maxRecDepth 100000 in
/-- Witness for C8: a device whose first sector is a protective record. -/
theorem work_gpt_formatted_witness :
    (work (constDevice gptMBR) []).outcome = .ok 5 ∧
    (work (constDevice gptMBR) []).self = [.read 0, .gptUnsupported] :=
  ⟨(work_gpt_formatted (constDevice gptMBR) (fun i => gptMBR.getD i 0) rfl
      (by decide) (by decide) (by decide)).2.1,
   (work_gpt_formatted (constDevice gptMBR) (fun i => gptMBR.getD i 0) rfl
      (by decide) (by decide) (by decide)).2.2.2⟩

/-! ## `NTFSPartitionEntry`, the getters of `PartitionEntry`, and `Sector` -/

/-- The constructor of `NTFSPartitionEntry` checks the size, the zero type
byte, and then the type byte against 0x07. -/
theorem NTFSPartitionEntry.ctor_eq_cases (S : UString) (p : PartitionEntry) :
    NTFSPartitionEntry.ctor S p =
      if S.length ≠ 16 then ⟨p, .thrown (.entrySize S.length), []⟩
      else if S[4]? = some 0 then ⟨p, .thrown .nonExistentPartition, [⟨16, 4⟩]⟩
      else if S[4]? = some 0x07 then ⟨⟨S⟩, .ok (), [⟨16, 4⟩, ⟨16, 4⟩]⟩
      else ⟨⟨S⟩, .thrown .notNTFSEntry, [⟨16, 4⟩, ⟨16, 4⟩]⟩ := by
  by_cases hl : S.length = 16
  · have h4 : S[4]? = some (S.get ⟨4, by omega⟩) := List.getElem?_eq_getElem (by omega)
    simp only [NTFSPartitionEntry.ctor, NTFSPartitionEntry.IsNTFSEntry, PartitionEntry.ctor,
      Meth.bind_eq, Meth.pure_eq, Meth.seq_apply, PartitionEntry.SetEntry_eq, hl, ne_eq,
      not_true_eq_false, if_false, h4, Option.some.injEq, Run.andThen_ite, Run.andThen_thrown,
      Run.andThen_ok, Meth.getThis_apply, Meth.index_of_lt S 4 (by omega), Run.prepend_mk,
      Run.prepend_nil, Meth.ret_apply, Meth.ite_apply, Meth.raise_apply, Run.prepend_ite]
    by_cases h0 : S.get ⟨4, by omega⟩ = 0
    · simp [h0]
    · by_cases h7 : S.get ⟨4, by omega⟩ = 7 <;> simp [h0, h7]
  · simp [NTFSPartitionEntry.ctor, PartitionEntry.ctor, PartitionEntry.SetEntry_eq, hl]
theorem PartitionEntry.GetEntry_eq (e : PartitionEntry) :
    PartitionEntry.GetEntry e = ⟨e, .ok e.entry, []⟩ := by
  simp [PartitionEntry.GetEntry]

/-- One iteration of the loop of `work` that keeps the NTFS entries. -/
theorem work.ntfsLoop_succ (entries : EntryVector) (n i : Nat) (acc : NTFSEntryVector)
    (w : World) (e : PartitionEntry) (he : entries[i]? = some e) :
    (work.ntfsLoop entries (n + 1) i acc w).outcome =
      (work.ntfsLoop entries n (i + 1) (if isNTFSType e then acc ++ [e] else acc)
        (w ++ [.partition (i + 1), if isNTFSType e then .ntfsEntry else .nonNTFSEntry])).outcome ∧
    (work.ntfsLoop entries (n + 1) i acc w).self =
      (work.ntfsLoop entries n (i + 1) (if isNTFSType e then acc ++ [e] else acc)
        (w ++ [.partition (i + 1), if isNTFSType e then .ntfsEntry else .nonNTFSEntry])).self := by
  have hidx : ∀ s : World, (Meth.index entries i : Meth World PartitionEntry) s =
      ⟨s, .ok e, [⟨entries.length, i⟩]⟩ := by
    intro s; simp [Meth.index, he]
  rw [work.ntfsLoop]
  simp only [Meth.bind_eq, Meth.pure_eq, Meth.seq_apply, emit_apply, Run.andThen_ok,
    Meth.tryCatch_apply, hidx, Meth.call_apply, PartitionEntry.GetEntry_eq, Run.inCaller_mk,
    Run.prepend_mk, Meth.construct_apply, NTFSPartitionEntry.ctor_eq_cases, isNTFSType,
    Run.prepend_nil]
  obtain ⟨S⟩ := e
  by_cases hl : S.length = 16
  · have e4 : S[4]? = some (S.get ⟨4, by omega⟩) := List.getElem?_eq_getElem (by omega)
    simp only [e4, Option.some.injEq, hl, ne_eq, not_true_eq_false, if_false, true_and]
    by_cases h0 : S.get ⟨4, by omega⟩ = 0
    · have h7 : ¬ S.get ⟨4, by omega⟩ = 7 := by rw [h0]; decide
      simp only [if_pos h0, if_neg h7, decide_eq_false h7, Run.asNew_thrown, Run.asNew_ok, Run.andThen_thrown,
        Run.andThen_ok, Run.handle_thrown, Run.handle_ok, Meth.seq_apply, emit_apply,
        Meth.ret_apply, Run.prepend_mk, Run.prepend_outcome, Run.prepend_self, if_true,
        if_false, List.append_assoc, List.singleton_append, List.nil_append, List.append_nil,
        Bool.false_eq_true, and_self]
    · by_cases h7 : S.get ⟨4, by omega⟩ = 7
      · simp only [if_neg h0, if_pos h7, decide_eq_true h7, Run.asNew_thrown, Run.asNew_ok, Run.andThen_thrown,
        Run.andThen_ok, Run.handle_thrown, Run.handle_ok, Meth.seq_apply, emit_apply,
        Meth.ret_apply, Run.prepend_mk, Run.prepend_outcome, Run.prepend_self, if_true,
        if_false, List.append_assoc, List.singleton_append, List.nil_append, List.append_nil,
        Bool.false_eq_true, and_self]
      · simp only [if_neg h0, if_neg h7, decide_eq_false h7, Run.asNew_thrown, Run.asNew_ok, Run.andThen_thrown,
        Run.andThen_ok, Run.handle_thrown, Run.handle_ok, Meth.seq_apply, emit_apply,
        Meth.ret_apply, Run.prepend_mk, Run.prepend_outcome, Run.prepend_self, if_true,
        if_false, List.append_assoc, List.singleton_append, List.nil_append, List.append_nil,
        Bool.false_eq_true, and_self]
  · simp [hl]

/-- The loop of `work` that keeps the NTFS entries returns the entries that
hold 16 bytes with type byte 0x07, in order. -/
theorem work.ntfsLoop_outcome (entries : EntryVector) :
    ∀ (n i : Nat) (acc : NTFSEntryVector) (w : World), i + n = entries.length →
      (work.ntfsLoop entries n i acc w).outcome =
        .ok (acc ++ (entries.drop i).filter isNTFSType) := by
  intro n
  induction n with
  | zero =>
    intro i acc w h
    have : entries.drop i = [] := List.drop_eq_nil_of_le (by omega)
    simp [work.ntfsLoop, this]
  | succ n ih =>
    intro i acc w h
    have hi : i < entries.length := by omega
    have he : entries[i]? = some entries[i] := List.getElem?_eq_getElem hi
    rw [(work.ntfsLoop_succ entries n i acc w entries[i] he).1, ih (i + 1) _ _ (by omega),
      List.drop_eq_getElem_cons hi, List.filter_cons]
    by_cases hp : isNTFSType entries[i] = true <;> simp [hp]

/-- The entries returned by `ParseEntries` hold 16 bytes each. -/
theorem presentEntries_length (B : UString) (lo n : Nat) :
    ∀ e ∈ presentEntries B lo n, e.entry.length = 16 := by
  intro e he
  simp only [presentEntries, List.mem_map] at he
  obtain ⟨i, -, rfl⟩ := he
  exact slotBytes_length B i

/-- On a valid `MBR` over `B`, `ParseEntries` returns the present slots and
leaves the sector unchanged. -/
theorem ParseEntries_present_aux (B : UString) (hok : (MBR.new B).outcome = .ok ()) :
    (MBR.ParseEntries (MBR.new B).self).outcome = .ok (presentEntries B 0 4) ∧
    (MBR.ParseEntries (MBR.new B).self).self = ⟨B⟩ := by
  obtain ⟨hs, hl, -⟩ := MBR_new_ok_facts B hok
  obtain ⟨h1, h2, -⟩ := MBR.ParseEntries.loop_eq B hl 4 0 [] (by omega)
  rw [hs, MBR.ParseEntries, h1, h2, List.nil_append]
  exact ⟨rfl, rfl⟩

/-- C11: constructing an `NTFSPartitionEntry` from `S` succeeds exactly when `S`
has 16 bytes and `S[4]` is 0x07. Hence the loop of `work` that builds
`NTFSEntries` returns, for any entry vector, the entries with 16 bytes and type
0x07 in the same order; for the vector returned by `ParseEntries` on a valid
`MBR` these are the entries whose type byte is 0x07. -/
theorem NTFSPartitionEntry_new_ok_iff (S B : UString) (w : World) :
    ((NTFSPartitionEntry.new S).outcome = .ok () ↔ (S.length = 16 ∧ S[4]? = some 0x07)) ∧
    ((NTFSPartitionEntry.new S).outcome = .ok () → (NTFSPartitionEntry.new S).self = ⟨S⟩) ∧
    (∀ entries : EntryVector,
      (work.ntfsLoop entries entries.length 0 [] w).outcome =
        .ok (entries.filter isNTFSType)) ∧
    ((MBR.new B).outcome = .ok () →
      ∃ entries, (MBR.ParseEntries (MBR.new B).self).outcome = .ok entries ∧
        (work.ntfsLoop entries entries.length 0 [] w).outcome =
          .ok (entries.filter fun e => decide (e.entry[4]? = some 0x07))) := by
  have hloop : ∀ entries : EntryVector,
      (work.ntfsLoop entries entries.length 0 [] w).outcome =
        .ok (entries.filter isNTFSType) := by
    intro entries
    rw [work.ntfsLoop_outcome entries entries.length 0 [] w (by omega)]
    simp
  have hnew : (NTFSPartitionEntry.new S).outcome = .ok () ↔
      (S.length = 16 ∧ S[4]? = some 0x07) := by
    simp only [NTFSPartitionEntry.new, NTFSPartitionEntry.ctor_eq_cases]
    by_cases hl : S.length = 16
    · obtain ⟨b, hb⟩ : ∃ b, S[4]? = some b := ⟨_, List.getElem?_eq_getElem (by omega)⟩
      simp only [hl, hb, Option.some.injEq, ne_eq, not_true_eq_false, if_false, true_and]
      by_cases h0 : b = 0
      · subst h0; simp
      · by_cases h7 : b = 7 <;> simp [h0, h7]
    · simp [hl]
  have hself : (NTFSPartitionEntry.new S).outcome = .ok () →
      (NTFSPartitionEntry.new S).self = ⟨S⟩ := by
    intro h
    obtain ⟨hl, h7⟩ := hnew.1 h
    have h0 : ¬ (some 7 : Option Byte) = some 0 := by decide
    simp only [NTFSPartitionEntry.new, NTFSPartitionEntry.ctor_eq_cases, hl, h7, ne_eq,
      not_true_eq_false, if_false, if_true, if_neg h0]
  refine ⟨hnew, hself, hloop, ?_⟩
  · intro hok
    obtain ⟨h1, -⟩ := ParseEntries_present_aux B hok
    refine ⟨_, h1, ?_⟩
    rw [hloop]
    congr 1
    apply List.filter_congr
    intro e he
    have hlen : e.entry.length = 16 := presentEntries_length B 0 4 e he
    simp [isNTFSType, hlen]

/-- Witness for C11: the single entry of the sample record is an NTFS entry. -/
theorem NTFSPartitionEntry_new_ok_iff_witness :
    (NTFSPartitionEntry.new sampleSlotHigh).outcome = .ok () ∧
    (NTFSPartitionEntry.new sampleSlotOddBoot).outcome ≠ .ok () :=
  ⟨(NTFSPartitionEntry_new_ok_iff sampleSlotHigh [] []).1.2 (by decide),
   fun h => absurd ((NTFSPartitionEntry_new_ok_iff sampleSlotOddBoot [] []).1.1 h) (by decide)⟩

/-- C12: for a 16-byte slot `S` with `S[4]` not zero the entry is constructed
whatever `S[0]` and the nonzero `S[4]` are, `GetBootIndicator()` returns whether
`S[0]` is not zero and `GetPartitionType()` returns `S[4]`. -/
theorem PartitionEntry_getters (S : UString) (hl : S.length = 16) (h4 : S[4]? ≠ some 0) :
    (PartitionEntry.new S).outcome = .ok () ∧
    (PartitionEntry.GetBootIndicator (PartitionEntry.new S).self).outcome =
      .ok (decide (S.getD 0 0 ≠ 0)) ∧
    (PartitionEntry.GetPartitionType (PartitionEntry.new S).self).outcome =
      .ok (S.getD 4 0) := by
  have hn : PartitionEntry.new S = ⟨⟨S⟩, .ok (), [⟨16, 4⟩]⟩ := by
    rw [PartitionEntry.new_eq]; simp only [hl, ne_eq, not_true_eq_false, if_false, h4]
  rw [hn]
  refine ⟨rfl, ?_, ?_⟩
  · simp only [PartitionEntry.GetBootIndicator, Meth.bind_eq, Meth.pure_eq, Meth.seq_apply,
      Meth.getThis_apply, Run.andThen_ok, Meth.index_of_lt S 0 (by omega), Meth.ret_apply,
      Run.prepend_mk, Run.prepend_nil, getD_eq_get S 0 (by omega)]
  · simp only [PartitionEntry.GetPartitionType, Meth.bind_eq, Meth.seq_apply,
      Meth.getThis_apply, Run.andThen_ok, Meth.index_of_lt S 4 (by omega), Run.prepend_nil,
      getD_eq_get S 4 (by omega)]

/-- Witness for C12: a boot indicator of 0x01 reads as bootable and the type
0x0B is returned unchanged. -/
theorem PartitionEntry_getters_witness :
    (PartitionEntry.new sampleSlotOddBoot).outcome = .ok () ∧
    (PartitionEntry.GetBootIndicator (PartitionEntry.new sampleSlotOddBoot).self).outcome =
      .ok true ∧
    (PartitionEntry.GetPartitionType (PartitionEntry.new sampleSlotOddBoot).self).outcome =
      .ok 0x0B :=
  PartitionEntry_getters sampleSlotOddBoot (by decide) (by decide)

/-- C13: constructing a `Sector` from a byte sequence `B` succeeds exactly when
`B` has 512 bytes; then `GetSector()` returns `B` unchanged, and otherwise the
constructor throws the sector-size exception. -/
theorem Sector_new_ok_iff (B : UString) :
    ((Sector.new B).outcome = .ok () ↔ B.length = 512) ∧
    (B.length = 512 → (Sector.GetSector (Sector.new B).self).outcome = .ok B) ∧
    (B.length ≠ 512 → (Sector.new B).outcome = .thrown (.sectorSize B.length)) := by
  simp only [Sector.new, Sector.ctor, Sector.SetSector_eq]
  by_cases hl : B.length = 512
  · simp [hl, Sector.GetSector]
  · simp [hl]

set_option maxRecDepth 100000 in
/-- Witness for C13: the zero sector is stored and returned; the empty sequence
is rejected. -/
theorem Sector_new_ok_iff_witness :
    (Sector.GetSector (Sector.new zeroSector).self).outcome = .ok zeroSector ∧
    (Sector.new []).outcome = .thrown (.sectorSize 0) :=
  ⟨(Sector_new_ok_iff zeroSector).2.1 (by decide), (Sector_new_ok_iff []).2.2 (by decide)⟩

/-! ## End to end -/

/-- Eight bytes that are the little-endian digits of `v` sum to `v`. -/
theorem leSum_eight_of_digits (B : UString) (off v : Nat) (hv : v < 2 ^ 64)
    (h : ∀ i < 8, (B.getD (off + i) 0).val = (v >>> (8 * i)) &&& 0xFF) :
    leSum B off 8 = v := by
  have m : ∀ x : Nat, x &&& 0xFF = x % 256 := fun x => Nat.and_pow_two_sub_one_eq_mod x 8
  have h0 := h 0 (by omega); have h1 := h 1 (by omega); have h2 := h 2 (by omega)
  have h3 := h 3 (by omega); have h4 := h 4 (by omega); have h5 := h 5 (by omega)
  have h6 := h 6 (by omega); have h7 := h 7 (by omega)
  simp only [m, Nat.shiftRight_eq_div_pow, Nat.add_zero] at h0 h1 h2 h3 h4 h5 h6 h7
  rw [leSum_eight, h0, h1, h2, h3, h4, h5, h6, h7]
  omega

/-- Byte `j` of slot `i` is byte `446 + 16 i + j` of the sector. -/
theorem slotBytes_getD (B : UString) (i j : Nat) (hj : j < 16) :
    (slotBytes B i).getD j 0 = B.getD (446 + 16 * i + j) 0 := by
  simp [slotBytes, List.getElem?_range hj]

/-- When slot `k` is the only present slot the present entries are that slot. -/
theorem presentEntries_single (B : UString) (k : Nat) (hk : k < 4)
    (hone : ∀ i < 4, slotPresent B i = true ↔ i = k) :
    presentEntries B 0 4 = [⟨slotBytes B k⟩] := by
  have h0 := hone 0 (by omega); have h1 := hone 1 (by omega)
  have h2 := hone 2 (by omega); have h3 := hone 3 (by omega)
  have hk4 : k = 0 ∨ k = 1 ∨ k = 2 ∨ k = 3 := by omega
  simp only [presentEntries_succ, presentEntries_zero]
  rcases hk4 with rfl | rfl | rfl | rfl <;> simp_all

/-- C14: end to end. For a valid `MBR` over `B` in which slot `k` is the only
slot with a nonzero type byte and that byte is 0x07, `ParseEntries()` returns
exactly the entry of slot `k`, the entry passes the NTFS filter of `work`, and
its starting sector is the little-endian value of bytes 8 to 11 of the slot,
2048 for the bytes 00 08 00 00. For a valid NTFS boot sector `V` whose bytes
0x30 to 0x37 encode 4, `GetMFTLCN()` is 4 and the `$MFT` address printed is
16384. -/
theorem end_to_end_single_ntfs (B V : UString) (k : Nat) (w : World)
    (hok : (MBR.new B).outcome = .ok ()) (hk : k < 4)
    (hone : ∀ i < 4, slotPresent B i = true ↔ i = k)
    (h7 : B.getD (446 + 16 * k + 4) 0 = 0x07)
    (hV : (NTFSVBR.new V).outcome = .ok ())
    (h4 : ∀ i < 8, (V.getD (0x30 + i) 0).val = (4 >>> (8 * i)) &&& 0xFF) :
    (MBR.ParseEntries (MBR.new B).self).outcome = .ok [⟨slotBytes B k⟩] ∧
    (NTFSPartitionEntry.new (slotBytes B k)).outcome = .ok () ∧
    (work.ntfsLoop [⟨slotBytes B k⟩] 1 0 [] w).outcome = .ok [⟨slotBytes B k⟩] ∧
    (PartitionEntry.GetStartingSector ⟨slotBytes B k⟩).outcome =
      .ok ((B.getD (446 + 16 * k + 8) 0).val + (B.getD (446 + 16 * k + 9) 0).val * 2 ^ 8
        + (B.getD (446 + 16 * k + 10) 0).val * 2 ^ 16
        + (B.getD (446 + 16 * k + 11) 0).val * 2 ^ 24) ∧
    (B.getD (446 + 16 * k + 8) 0 = 0x00 → B.getD (446 + 16 * k + 9) 0 = 0x08 →
      B.getD (446 + 16 * k + 10) 0 = 0x00 → B.getD (446 + 16 * k + 11) 0 = 0x00 →
      (PartitionEntry.GetStartingSector ⟨slotBytes B k⟩).outcome = .ok 2048) ∧
    (NTFSVBR.GetMFTLCN (NTFSVBR.new V).self).outcome = .ok 4 ∧
    (displayMFTProperties (NTFSVBR.new V).self w).self =
      w ++ [.mftAddress 16384, .mftMirrAddress ((leSum V 0x38 8 * 8 * 512) % 2 ^ 64)] := by
  have hstart : (PartitionEntry.GetStartingSector ⟨slotBytes B k⟩).outcome =
      .ok ((B.getD (446 + 16 * k + 8) 0).val + (B.getD (446 + 16 * k + 9) 0).val * 2 ^ 8
        + (B.getD (446 + 16 * k + 10) 0).val * 2 ^ 16
        + (B.getD (446 + 16 * k + 11) 0).val * 2 ^ 24) := by
    rw [PartitionEntry.GetStartingSector_eq _ (slotBytes_length B k), leSum_four,
      slotBytes_getD B k 8 (by omega), slotBytes_getD B k (8 + 1) (by omega),
      slotBytes_getD B k (8 + 2) (by omega), slotBytes_getD B k (8 + 3) (by omega)]
  have htype : (slotBytes B k)[4]? = some 0x07 := by rw [slotBytes_type, h7]
  have hn7 : ¬ (some 7 : Option Byte) = some 0 := by decide
  have hnew : NTFSPartitionEntry.new (slotBytes B k) =
      ⟨⟨slotBytes B k⟩, .ok (), [⟨16, 4⟩, ⟨16, 4⟩]⟩ := by
    simp only [NTFSPartitionEntry.new, NTFSPartitionEntry.ctor_eq_cases, slotBytes_length,
      htype, ne_eq, not_true_eq_false, if_false, if_true, if_neg hn7]
  have hleV : leSum V 0x30 8 = 4 := leSum_eight_of_digits V 0x30 4 (by decide) h4
  have hVf := NTFSVBR_new_ok_facts V hV
  refine ⟨?_, ?_, ?_, hstart, ?_, ?_, ?_⟩
  · rw [(ParseEntries_present_aux B hok).1, presentEntries_single B k hk hone]
  · rw [hnew]
  · rw [work.ntfsLoop_outcome _ 1 0 [] w (by simp)]
    simp [isNTFSType, slotBytes_length, htype]
  · intro b8 b9 b10 b11
    rw [hstart, b8, b9, b10, b11]; rfl
  · rw [(NTFSVBR_LCN_eq_leSum_aux V hV).1, hleV]
  · rw [hVf.1, (displayMFTProperties_eq V hVf.2.1 w).2, hleV]
    rfl

set_option maxRecDepth 100000 in
/-- Witness for C14: the sample record and the sample boot sector. -/
theorem end_to_end_single_ntfs_witness :
    (MBR.ParseEntries (MBR.new sampleMBR).self).outcome = .ok [⟨slotBytes sampleMBR 0⟩] ∧
    (PartitionEntry.GetStartingSector ⟨slotBytes sampleMBR 0⟩).outcome = .ok 2048 ∧
    (NTFSVBR.GetMFTLCN (NTFSVBR.new sampleVBR).self).outcome = .ok 4 ∧
    (displayMFTProperties (NTFSVBR.new sampleVBR).self []).self =
      [.mftAddress 16384, .mftMirrAddress ((leSum sampleVBR 0x38 8 * 8 * 512) % 2 ^ 64)] :=
  have h := end_to_end_single_ntfs sampleMBR sampleVBR 0 [] (by decide) (by decide) (by decide)
    (by decide) (by decide) (by decide)
  ⟨h.1, h.2.2.2.2.1 (by decide) (by decide) (by decide) (by decide), h.2.2.2.2.2.1,
    h.2.2.2.2.2.2⟩

/-! ## Return codes of Program3 `work` -/

theorem Run.returnsOnly_andThen {σ α β : Type} (P : β → Prop) (x : Run σ α) (f : α → Meth σ β)
    (h : ∀ a s, Run.returnsOnly P (f a s)) : Run.returnsOnly P (x.andThen f) := by
  obtain ⟨s, o, r⟩ := x
  cases o with
  | ok a => intro b hb; exact h a s b (by simpa using hb)
  | thrown e => intro b hb; simp at hb
  | undefined => intro b hb; simp at hb

theorem Run.returnsOnly_mk_ok {σ α : Type} (P : α → Prop) (s : σ) (a : α) (r : List Access)
    (h : P a) : Run.returnsOnly P (⟨s, .ok a, r⟩ : Run σ α) := by
  intro b hb
  cases hb
  exact h

/-- The loop of `work` over the NTFS partitions leaves `work` only with
`READ_ERROR` or `LSEEK_ERROR`. -/
theorem work.vbrLoop_codes (fd : Device) (NTFSEntries : NTFSEntryVector) :
    ∀ (n i : Nat) (VBRs : VBRVector) (w : World),
      Run.returnsOnly isLoopExit (work.vbrLoop fd NTFSEntries n i VBRs w) := by
  intro n
  induction n with
  | zero =>
    intro i VBRs w
    simp only [work.vbrLoop, Meth.pure_eq, Meth.ret_apply]
    exact Run.returnsOnly_mk_ok _ _ _ _ (Or.inl rfl)
  | succ n ih =>
    intro i VBRs w
    rw [work.vbrLoop]
    simp only [Meth.bind_eq, Meth.pure_eq, Meth.seq_apply]
    refine Run.returnsOnly_andThen isLoopExit _ _ ?_; intro e s
    refine Run.returnsOnly_andThen isLoopExit _ _ ?_; intro start s
    refine Run.returnsOnly_andThen isLoopExit _ _ ?_; intro b s
    cases b with
    | false =>
      simp only [Bool.not_false, if_true, Meth.seq_apply, emit_apply, Run.andThen_ok,
        Meth.ret_apply, Run.prepend_mk]
      exact Run.returnsOnly_mk_ok _ _ _ _ (Or.inr (Or.inr rfl))
    | true =>
      simp only [Bool.not_true, Bool.false_eq_true, if_false, Meth.seq_apply]
      refine Run.returnsOnly_andThen isLoopExit _ _ ?_; intro rd s
      cases rd with
      | none =>
        simp only [Meth.seq_apply, emit_apply, Run.andThen_ok, Meth.ret_apply, Run.prepend_mk]
        exact Run.returnsOnly_mk_ok _ _ _ _ (Or.inr (Or.inl rfl))
      | some vbr =>
        simp only [Meth.seq_apply]
        refine Run.returnsOnly_andThen isLoopExit _ _ ?_; intro u s
        refine Run.returnsOnly_andThen isLoopExit _ _ ?_; intro V s
        exact ih (i + 1) V s

theorem Run.returnsOnly_andThen_of {σ α β : Type} (Q : α → Prop) (P : β → Prop) (x : Run σ α)
    (f : α → Meth σ β) (hx : Run.returnsOnly Q x)
    (h : ∀ a s, Q a → Run.returnsOnly P (f a s)) : Run.returnsOnly P (x.andThen f) := by
  obtain ⟨s, o, r⟩ := x
  cases o with
  | ok a => intro b hb; exact h a s (hx a rfl) b (by simpa using hb)
  | thrown e => intro b hb; simp at hb
  | undefined => intro b hb; simp at hb

theorem Run.returnsOnly_prepend {σ α : Type} (P : α → Prop) (r : List Access) (x : Run σ α)
    (h : Run.returnsOnly P x) : Run.returnsOnly P (x.prepend r) := by
  intro a ha
  exact h a (by simpa using ha)

/-- Once the GPT test has failed, `work` returns 0, `READ_ERROR` or
`LSEEK_ERROR`. -/
theorem work_after_test (fd : Device) (entries : EntryVector) (s : World) :
    Run.returnsOnly isNonGptCode
      (((work.ntfsLoop entries entries.length 0 []).seq fun NTFSEntries =>
        (emit (.ntfsCount NTFSEntries.length)).seq fun _ =>
          (work.vbrLoop fd NTFSEntries NTFSEntries.length 0 []).seq fun r =>
            match r with
            | some code => Meth.ret code
            | none => Meth.ret 0) s) := by
  simp only [Meth.seq_apply]
  refine Run.returnsOnly_andThen isNonGptCode _ _ ?_; intro N s
  simp only [emit_apply, Run.andThen_ok, Meth.seq_apply]
  apply Run.returnsOnly_prepend
  refine Run.returnsOnly_andThen_of isLoopExit isNonGptCode _ _
    (work.vbrLoop_codes fd N N.length 0 [] _) ?_
  intro r s hr
  rcases hr with rfl | rfl | rfl
  · exact Run.returnsOnly_mk_ok _ _ _ _ (Or.inl rfl)
  · exact Run.returnsOnly_mk_ok _ _ _ _ (Or.inr (Or.inl rfl))
  · exact Run.returnsOnly_mk_ok _ _ _ _ (Or.inr (Or.inr rfl))

/-- The type of an entry holding at least 5 bytes. -/
theorem PartitionEntry.GetPartitionType_eq (e : PartitionEntry) (t : Byte)
    (ht : e.entry[4]? = some t) :
    PartitionEntry.GetPartitionType e = ⟨e, .ok t, [⟨e.entry.length, 4⟩]⟩ := by
  simp only [PartitionEntry.GetPartitionType, Meth.bind_eq, Meth.seq_apply, Meth.getThis_apply,
    Run.andThen_ok, Run.prepend_nil, Meth.index, ht]

/-- The GPT test of `work` decides on the first entry returned by
`ParseEntries`: with type 0xEE there `work` returns `GPT_FORMATTED` after the
read of the record and the message; with no entry, or another type there, it
returns 0, `READ_ERROR` or `LSEEK_ERROR` if it returns. -/
theorem work_test_cases (fd : Device) (buf : Nat → Byte) (hread : fd.read 0 = some buf)
    (h510 : (sectorOf buf)[510]? = some 0x55) (h511 : (sectorOf buf)[511]? = some 0xAA)
    (w : World) :
    (∀ e rest, presentEntries (sectorOf buf) 0 4 = e :: rest → e.entry[4]? = some 0xEE →
      (work fd w).outcome = .ok GPT_FORMATTED ∧
      (work fd w).self = w ++ [.read 0, .gptUnsupported]) ∧
    (presentEntries (sectorOf buf) 0 4 = [] → Run.returnsOnly isNonGptCode (work fd w)) ∧
    (∀ e rest t, presentEntries (sectorOf buf) 0 4 = e :: rest → e.entry[4]? = some t →
      t ≠ 0xEE → Run.returnsOnly isNonGptCode (work fd w)) := by
  have hl := sectorOf_length buf
  obtain ⟨p1, p2, -⟩ := MBR.ParseEntries.loop_eq (sectorOf buf) hl 4 0 [] (by omega)
  rw [List.nil_append] at p1
  refine ⟨?_, ?_, ?_⟩
  · intro e rest hE ht
    rw [hE] at p1
    simp only [work, Meth.bind_eq, Meth.pure_eq, Meth.seq_apply, sysRead_apply, Run.andThen_ok,
      hread, Meth.construct_apply, MBR.ctor_eq, hl, h510, h511, ne_eq, not_true_eq_false,
      if_false, if_true, Run.asNew_ok, Run.prepend_mk, Meth.call_apply, MBR.ParseEntries,
      Meth.and]
    simp only [Run.inCaller, p1, List.length_cons, Meth.ret_apply, Run.andThen_ok,
      Meth.seq_apply, Meth.ite_apply, Nat.add_one_ne_zero, not_false_eq_true, decide_True,
      if_true, Meth.index_cons_zero, Meth.call_apply, PartitionEntry.GetPartitionType_eq e _ ht,
      Run.inCaller_mk, Run.prepend_mk, emit_apply, Run.prepend_outcome, Run.prepend_self,
      Run.prepend_nil]
    simp
  · intro hE
    rw [hE] at p1
    simp only [work, Meth.bind_eq, Meth.pure_eq, Meth.seq_apply, sysRead_apply, Run.andThen_ok,
      hread, Meth.construct_apply, MBR.ctor_eq, hl, h510, h511, ne_eq, not_true_eq_false,
      if_false, if_true, Run.asNew_ok, Run.prepend_mk, Meth.call_apply, MBR.ParseEntries,
      Meth.and]
    simp only [Run.inCaller, p1, List.length_nil, Meth.ret_apply, Run.andThen_ok,
      Meth.seq_apply, Meth.ite_apply, not_true_eq_false, decide_False, Bool.false_eq_true,
      if_false, Run.prepend_mk, Run.prepend_nil]
    apply Run.returnsOnly_prepend
    apply Run.returnsOnly_prepend
    apply Run.returnsOnly_prepend
    exact work_after_test fd [] _
  · intro e rest t hE ht hne
    rw [hE] at p1
    simp only [work, Meth.bind_eq, Meth.pure_eq, Meth.seq_apply, sysRead_apply, Run.andThen_ok,
      hread, Meth.construct_apply, MBR.ctor_eq, hl, h510, h511, ne_eq, not_true_eq_false,
      if_false, if_true, Run.asNew_ok, Run.prepend_mk, Meth.call_apply, MBR.ParseEntries,
      Meth.and]
    simp only [Run.inCaller, p1, List.length_cons, Meth.ret_apply, Run.andThen_ok,
      Meth.seq_apply, Meth.ite_apply, Nat.add_one_ne_zero, not_false_eq_true, decide_True,
      if_true, Meth.index_cons_zero, Meth.call_apply, PartitionEntry.GetPartitionType_eq e _ ht,
      Run.inCaller_mk, Run.prepend_mk, emit_apply, Run.prepend_outcome, Run.prepend_self,
      Run.prepend_nil, decide_eq_false hne, Bool.false_eq_true, if_false]
    apply Run.returnsOnly_prepend
    apply Run.returnsOnly_prepend
    apply Run.returnsOnly_prepend
    exact work_after_test fd (e :: rest) _

/-! ## The GPT test of `work` -/

set_option maxRecDepth 100000 in
/-- C15, counterexample: with slot 0 empty and type 0xEE in slot 1, the record
is valid, slot 0 is not a present entry of type 0xEE, and `work` nevertheless
returns `GPT_FORMATTED`. -/
theorem work_gpt_slot1_counterexample :
    (MBR.new gptSlot1MBR).outcome = .ok () ∧
    gptSlot1MBR[450]? = some 0x00 ∧ gptSlot1MBR[466]? = some 0xEE ∧
    (work (constDevice gptSlot1MBR) []).outcome = .ok GPT_FORMATTED ∧
    ¬ ((work (constDevice gptSlot1MBR) []).outcome = .ok GPT_FORMATTED ↔
        (slotPresent gptSlot1MBR 0 = true ∧ gptSlot1MBR.getD 450 0 = 0xEE)) := by
  have h : (work (constDevice gptSlot1MBR) []).outcome = .ok GPT_FORMATTED := by decide
  refine ⟨by decide, by decide, by decide, h, ?_⟩
  intro hiff
  exact absurd (hiff.1 h) (by decide)
/-- Either no slot is present and `ParseEntries` returns nothing, or the first
entry returned is the first present slot. -/
theorem presentEntries_head_cases (B : UString) :
    ((∀ i < 4, slotPresent B i = false) ∧ presentEntries B 0 4 = []) ∨
    (∃ i, i < 4 ∧ slotPresent B i = true ∧ (∀ j < i, slotPresent B j = false) ∧
      ∃ rest, presentEntries B 0 4 = ⟨slotBytes B i⟩ :: rest) := by
  simp only [presentEntries_succ, presentEntries_zero]
  cases h0 : slotPresent B 0
  · cases h1 : slotPresent B 1
    · cases h2 : slotPresent B 2
      · cases h3 : slotPresent B 3
        · left
          refine ⟨?_, by simp⟩
          intro i hi
          have : i = 0 ∨ i = 1 ∨ i = 2 ∨ i = 3 := by omega
          rcases this with rfl | rfl | rfl | rfl <;> assumption
        · right
          refine ⟨3, by omega, h3, ?_, ⟨[], by simp⟩⟩
          intro j hj
          have : j = 0 ∨ j = 1 ∨ j = 2 := by omega
          rcases this with rfl | rfl | rfl <;> assumption
      · right
        refine ⟨2, by omega, h2, ?_, ⟨_, by simp; rfl⟩⟩
        intro j hj
        have : j = 0 ∨ j = 1 := by omega
        rcases this with rfl | rfl <;> assumption
    · right
      refine ⟨1, by omega, h1, ?_, ⟨_, by simp; rfl⟩⟩
      intro j hj
      have : j = 0 := by omega
      subst this; assumption
  · right
    exact ⟨0, by omega, h0, fun j hj => absurd hj (by omega), ⟨_, by simp; rfl⟩⟩

/-- C15, amended: on a valid record `work` returns `GPT_FORMATTED` exactly when
the first slot, in slot order, whose type byte is not zero has type 0xEE. In
particular, when slot 0 is present with a type other than 0xEE, a 0xEE in slot
1, 2 or 3 does not make `work` return `GPT_FORMATTED`. -/
theorem work_gpt_iff_first_present (fd : Device) (buf : Nat → Byte)
    (hread : fd.read 0 = some buf)
    (h510 : (sectorOf buf)[510]? = some 0x55) (h511 : (sectorOf buf)[511]? = some 0xAA) :
    ((work fd []).outcome = .ok GPT_FORMATTED ↔
      ∃ i, i < 4 ∧ slotPresent (sectorOf buf) i = true ∧
        (∀ j < i, slotPresent (sectorOf buf) j = false) ∧
        (sectorOf buf).getD (446 + 16 * i + 4) 0 = 0xEE) ∧
    (slotPresent (sectorOf buf) 0 = true → (sectorOf buf).getD 450 0 ≠ 0xEE →
      (work fd []).outcome ≠ .ok GPT_FORMATTED) := by
  obtain ⟨hA, hB, hC⟩ := work_test_cases fd buf hread h510 h511 []
  have hno : ¬ isNonGptCode GPT_FORMATTED := by
    unfold isNonGptCode GPT_FORMATTED READ_ERROR LSEEK_ERROR; decide
  have key : (work fd []).outcome = .ok GPT_FORMATTED ↔
      ∃ i, i < 4 ∧ slotPresent (sectorOf buf) i = true ∧
        (∀ j < i, slotPresent (sectorOf buf) j = false) ∧
        (sectorOf buf).getD (446 + 16 * i + 4) 0 = 0xEE := by
    rcases presentEntries_head_cases (sectorOf buf) with ⟨hall, hnil⟩ | ⟨i, hi, hp, hfirst, rest, hE⟩
    · constructor
      · intro h; exact absurd (hB hnil _ h) hno
      · rintro ⟨i, hi, hp, -, -⟩
        rw [hall i hi] at hp; cases hp
    · have ht : (⟨slotBytes (sectorOf buf) i⟩ : PartitionEntry).entry[4]? =
          some ((sectorOf buf).getD (446 + 16 * i + 4) 0) := slotBytes_type _ i
      constructor
      · intro h
        refine ⟨i, hi, hp, hfirst, ?_⟩
        by_contra hne
        exact absurd (hC _ rest _ hE ht hne _ h) hno
      · rintro ⟨k, hk, hpk, hfk, hEE⟩
        have hik : i = k := by
          rcases Nat.lt_trichotomy i k with h | h | h
          · rw [hfk i h] at hp; cases hp
          · exact h
          · rw [hfirst k h] at hpk; cases hpk
        subst hik
        rw [hEE] at ht
        exact (hA _ rest hE ht).1
  refine ⟨key, ?_⟩
  intro hp hne h
  obtain ⟨i, hi, hpi, hfi, hEE⟩ := key.1 h
  rcases Nat.eq_zero_or_pos i with rfl | hpos
  · exact hne hEE
  · rw [hfi 0 hpos] at hp; cases hp

set_option maxRecDepth 100000 in
/-- Witness for the amended C15: the record with slot 0 empty and 0xEE in slot 1
is classified as GPT through its first present slot. -/
theorem work_gpt_iff_first_present_witness :
    (work (constDevice gptSlot1MBR) []).outcome = .ok GPT_FORMATTED :=
  (work_gpt_iff_first_present (constDevice gptSlot1MBR) (fun i => gptSlot1MBR.getD i 0) rfl
    (by decide) (by decide)).1.2 ⟨1, by decide, by decide, by decide, by decide⟩

/-! ## The loop of `work` over the NTFS partitions -/

set_option maxRecDepth 1000000 in
/-- C16, the code at a failing input: the first NTFS partition has an invalid
boot sector, the second a valid one. After the second is pushed `VBRs` holds one
element and `work` evaluates `VBRs[1]`, outside the vector: the behaviour is
undefined right after "valid VBR" is printed for partition 2. When both boot
sectors are valid the index is inside the vector and both addresses are
printed. -/
theorem work_second_valid_undefined :
    (work secondValidDevice []).outcome = .undefined ∧
    (work secondValidDevice []).self =
      [.read 0, .partition 1, .ntfsEntry, .partition 2, .ntfsEntry, .ntfsCount 2,
       .lseek 512, .read 512, .partition 1, .invalidVBR,
       .lseek 1024, .read 1024, .partition 2, .validVBR] ∧
    (⟨1, 1⟩ : Access) ∈ (work secondValidDevice []).reads ∧
    (work bothValidDevice []).outcome = .ok 0 ∧
    (work bothValidDevice []).self =
      [.read 0, .partition 1, .ntfsEntry, .partition 2, .ntfsEntry, .ntfsCount 2,
       .lseek 512, .read 512, .partition 1, .validVBR, .mftAddress 16384,
       .mftMirrAddress 6553337856, .newline,
       .lseek 1024, .read 1024, .partition 2, .validVBR, .mftAddress 16384,
       .mftMirrAddress 6553337856, .newline] := by
  decide
/-! ## Invariants under the public member functions -/

set_option maxRecDepth 100000 in
/-- C17, the code at a failing input: on an `NTFSVBR` built from the sample
boot sector, `SetVBR` with an 11-byte vector that carries the magic returns
normally and the object then holds 11 bytes, not 512; `SetSector` with the same
vector throws and leaves the 512 bytes in place. -/
theorem SetVBR_short_breaks_length :
    (NTFSVBR.new sampleVBR).outcome = .ok () ∧
    (NTFSVBR.SetVBR shortMagic (NTFSVBR.new sampleVBR).self).outcome = .ok () ∧
    (NTFSVBR.SetVBR shortMagic (NTFSVBR.new sampleVBR).self).self.SectorStr.length = 11 ∧
    (SectorOp.runAll [.SetVBR shortMagic] (NTFSVBR.new sampleVBR).self).SectorStr.length = 11 ∧
    (Sector.SetSector shortMagic (NTFSVBR.new sampleVBR).self).outcome =
      .thrown (.sectorSize 11) ∧
    (Sector.SetSector shortMagic (NTFSVBR.new sampleVBR).self).self.SectorStr.length = 512 := by
  decide

set_option maxRecDepth 100000 in
/-- C18, counterexample: an `MBR` built from a record with the trailer accepts
`SetSector` with 512 zero bytes; afterwards bytes 510 and 511 are zero and
`IsValidMBR()` returns false. -/
theorem SetSector_drops_trailer_counterexample :
    (MBR.new emptyMBR).outcome = .ok () ∧
    (Sector.SetSector zeroSector (MBR.new emptyMBR).self).outcome = .ok () ∧
    (SectorOp.runAll [.SetSector zeroSector] (MBR.new emptyMBR).self).SectorStr[510]? =
      some 0x00 ∧
    (MBR.IsValidMBR (SectorOp.runAll [.SetSector zeroSector] (MBR.new emptyMBR).self)).outcome =
      .ok false := by
  decide

theorem Run.andThen_ret_self {σ α : Type} (x : Run σ α) :
    (x.andThen fun _ => (Meth.ret () : Meth σ Unit)).self = x.self := by
  obtain ⟨s, o, r⟩ := x
  cases o <;> rfl

theorem Run.andThen_ret_defined {σ α : Type} (x : Run σ α) (h : x.outcome ≠ .undefined) :
    (x.andThen fun _ => (Meth.ret () : Meth σ Unit)).outcome ≠ .undefined := by
  obtain ⟨s, o, r⟩ := x
  cases o with
  | ok a => simp
  | thrown e => simp
  | undefined => exact absurd rfl h

theorem Run.andThen_self_of {σ α β : Type} (x : Run σ α) (f : α → Meth σ β) (s : σ)
    (hx : x.self = s) (hf : ∀ a, (f a s).self = s) : (x.andThen f).self = s := by
  obtain ⟨t, o, r⟩ := x
  simp only at hx
  subst hx
  cases o with
  | ok a => simp only [Run.andThen_ok, Run.prepend_self, hf]
  | thrown e => rfl
  | undefined => rfl

theorem Meth.index_self {σ ε : Type} (v : List ε) (i : Nat) (s : σ) :
    ((Meth.index v i : Meth σ ε) s).self = s := by
  simp only [Meth.index]
  split <;> rfl

theorem NTFSVBR.differs_self (V : UString) (i : Nat) (c : Char) (s : Sector) :
    (NTFSVBR.differs V i c s).self = s := by
  simp only [NTFSVBR.differs, Meth.bind_eq, Meth.pure_eq, Meth.seq_apply]
  exact Run.andThen_self_of _ _ s (Meth.index_self V i s) (fun _ => rfl)

theorem Meth.or_self {σ : Type} (a b : Meth σ Bool) (ha : ∀ s, (a s).self = s)
    (hb : ∀ s, (b s).self = s) (s : σ) : (Meth.or a b s).self = s := by
  rw [Meth.or_apply]
  refine Run.andThen_self_of _ _ s (ha s) ?_
  intro x
  cases x with
  | true => rfl
  | false => exact hb s

/-- A test followed by `throw` or by the assignment of the members: when the
test leaves the object alone and the whole throws, the object is unchanged. -/
theorem Run.guard_set_self {σ : Type} (x : Run σ Bool) (e : Exception) (t s : σ)
    (hx : x.self = s)
    (h : (x.andThen fun b =>
      if b = true then (Meth.raise e : Meth σ Unit).seq fun _ => Meth.setThis t
      else (Meth.ret ()).seq fun _ => Meth.setThis t).outcome.isThrown = true) :
    (x.andThen fun b =>
      if b = true then (Meth.raise e : Meth σ Unit).seq fun _ => Meth.setThis t
      else (Meth.ret ()).seq fun _ => Meth.setThis t).self = s := by
  obtain ⟨u, o, r⟩ := x
  simp only at hx
  subst hx
  cases o with
  | ok b =>
    cases b with
    | true => rfl
    | false => exact absurd h (by simp [Outcome.isThrown])
  | thrown e => rfl
  | undefined => rfl

/-- A call of `SetVBR` that throws leaves the object unchanged, whatever the
argument. -/
theorem NTFSVBR.SetVBR_self_of_thrown (V : UString) (s : Sector)
    (h : (NTFSVBR.SetVBR V s).outcome.isThrown = true) : (NTFSVBR.SetVBR V s).self = s := by
  simp only [NTFSVBR.SetVBR, Meth.bind_eq, Meth.pure_eq, Meth.seq_apply] at h ⊢
  refine Run.guard_set_self _ .notNTFS ⟨V⟩ s ?_ h
  refine Meth.or_self _ _ (NTFSVBR.differs_self V 3 _) ?_ s
  refine Meth.or_self _ _ (NTFSVBR.differs_self V 4 _) ?_
  refine Meth.or_self _ _ (NTFSVBR.differs_self V 5 _) ?_
  refine Meth.or_self _ _ (NTFSVBR.differs_self V 6 _) ?_
  refine Meth.or_self _ _ (NTFSVBR.differs_self V 7 _) ?_
  refine Meth.or_self _ _ (NTFSVBR.differs_self V 8 _) ?_
  exact Meth.or_self _ _ (NTFSVBR.differs_self V 9 _) (NTFSVBR.differs_self V 10 _)

theorem Outcome.ne_undefined_of_isThrown {α : Type} (o : Outcome α) (h : o.isThrown = true) :
    o ≠ .undefined := by
  intro e
  rw [e] at h
  exact absurd h Bool.false_ne_true

/-- One admitted call on an object holding 512 bytes with the trailer leaves
such an object and has defined behaviour. -/
theorem SectorOp.run_admitted (op : SectorOp) (s : Sector) (hl : s.SectorStr.length = 512)
    (ht : hasTrailer s.SectorStr) (hop : op.admitted s) :
    (op.run s).self.SectorStr.length = 512 ∧ hasTrailer (op.run s).self.SectorStr ∧
    (op.run s).outcome ≠ .undefined := by
  obtain ⟨B⟩ := s
  simp only at hl ht
  cases op with
  | SetSector V =>
    by_cases hV : V.length = 512
    · simp only [SectorOp.admitted, Sector.SetSector_eq, if_neg (not_not.mpr hV)] at hop
      simp only [SectorOp.run, Sector.SetSector_eq, if_neg (not_not.mpr hV)]
      rcases hop with h | h
      · exact absurd h (by simp [Outcome.isThrown])
      · exact ⟨hV, h.2, by simp⟩
    · simp only [SectorOp.run, Sector.SetSector_eq, if_pos hV]
      exact ⟨hl, ht, by simp⟩
  | GetSector =>
    simp only [SectorOp.run, Run.andThen_ret_self]
    refine ⟨?_, ?_, Run.andThen_ret_defined _ ?_⟩ <;> simp [Sector.GetSector, hl, ht]
  | IsValidMBR =>
    have e : MBR.IsValidMBR ⟨B⟩ =
        ⟨⟨B⟩, .ok (decide (B[511]? = some 0xAA)), [⟨512, 510⟩, ⟨512, 511⟩]⟩ := by
      rw [MBR.IsValidMBR_eq B hl, if_pos ht.1]
    simp only [SectorOp.run, Run.andThen_ret_self, e]
    exact ⟨hl, ht, Run.andThen_ret_defined _ (by simp)⟩
  | ParseEntries =>
    obtain ⟨p1, p2, -⟩ := MBR.ParseEntries.loop_eq B hl 4 0 [] (by omega)
    simp only [SectorOp.run, Run.andThen_ret_self, MBR.ParseEntries, p2]
    refine ⟨hl, ht, Run.andThen_ret_defined _ ?_⟩
    rw [p1]; simp
  | SetVBR V =>
    simp only [SectorOp.admitted] at hop
    simp only [SectorOp.run]
    rcases hop with h | h
    · rw [NTFSVBR.SetVBR_self_of_thrown V ⟨B⟩ h]
      exact ⟨hl, ht, Outcome.ne_undefined_of_isThrown _ h⟩
    · obtain ⟨q1, q2, -⟩ := NTFSVBR.SetVBR_eq V h.1 ⟨B⟩
      simp only [q1, q2]
      by_cases hm : hasNTFSMagic V
      · simp only [hm, if_true]
        exact ⟨h.1, h.2, by simp⟩
      · simp only [hm, if_false]
        exact ⟨hl, ht, by simp⟩
  | GetVBR =>
    simp only [SectorOp.run, Run.andThen_ret_self]
    refine ⟨?_, ?_, Run.andThen_ret_defined _ ?_⟩ <;> simp [NTFSVBR.GetVBR, hl, ht]
  | GetMFTLCN =>
    simp only [SectorOp.run, Run.andThen_ret_self, NTFSVBR.GetMFTLCN, NTFS_VBR_MFT_OFFSET,
      NTFSVBR.leU64_eq B 0x30 (by omega)]
    exact ⟨hl, ht, Run.andThen_ret_defined _ (by simp)⟩
  | GetMFTMirrLCN =>
    simp only [SectorOp.run, Run.andThen_ret_self, NTFSVBR.GetMFTMirrLCN,
      NTFS_VBR_MFTMIRR_OFFSET, NTFSVBR.leU64_eq B 0x38 (by omega)]
    exact ⟨hl, ht, Run.andThen_ret_defined _ (by simp)⟩

/-- A sequence of admitted calls, from an object holding 512 bytes with the
trailer, ends in such an object, and no call in it is undefined. -/
theorem SectorOp.runAll_admitted (ops : List SectorOp) :
    ∀ s : Sector, s.SectorStr.length = 512 → hasTrailer s.SectorStr →
      SectorOp.allAdmitted ops s →
      (SectorOp.runAll ops s).SectorStr.length = 512 ∧
      hasTrailer (SectorOp.runAll ops s).SectorStr ∧
      ∀ pre op post, ops = pre ++ op :: post →
        (op.run (SectorOp.runAll pre s)).outcome ≠ .undefined := by
  induction ops with
  | nil =>
    intro s hl ht _
    refine ⟨hl, ht, ?_⟩
    intro pre op post h
    exact absurd h (by simp)
  | cons o rest ih =>
    intro s hl ht hops
    obtain ⟨k1, k2, k3⟩ := SectorOp.run_admitted o s hl ht hops.1
    obtain ⟨r1, r2, r3⟩ := ih (o.run s).self k1 k2 hops.2
    refine ⟨r1, r2, ?_⟩
    intro pre op post h
    cases pre with
    | nil =>
      simp only [List.nil_append, List.cons.injEq] at h
      obtain ⟨rfl, -⟩ := h
      exact k3
    | cons p pre' =>
      simp only [List.cons_append, List.cons.injEq] at h
      obtain ⟨rfl, h'⟩ := h
      exact r3 pre' op post h'

/-- C18, amended: an `MBR` or `NTFSVBR` object `s0` successfully constructed
from `B` has `bytes[510] = 0x55` and `bytes[511] = 0xAA`, and so has the object
after any sequence of calls each of which is a getter, `IsValidMBR`,
`ParseEntries`, a `SetSector` or `SetVBR` call that throws, or a `SetSector` or
`SetVBR` call whose 512-byte argument ends in 0x55, 0xAA; `IsValidMBR()` then
returns true and no call of the sequence has undefined behaviour. On any object,
`SetSector` with a 512-byte argument that lacks the trailer returns and leaves
`IsValidMBR()` false, and so does `SetVBR` when that argument carries the NTFS
magic: the trailer is checked at construction only. -/
theorem trailer_kept_by_admitted_calls (B : UString) (s0 : Sector) (ops : List SectorOp)
    (hnew : ((MBR.new B).outcome = .ok () ∧ s0 = (MBR.new B).self) ∨
      ((NTFSVBR.new B).outcome = .ok () ∧ s0 = (NTFSVBR.new B).self))
    (hops : SectorOp.allAdmitted ops s0) :
    s0.SectorStr[510]? = some 0x55 ∧ s0.SectorStr[511]? = some 0xAA ∧
    (SectorOp.runAll ops s0).SectorStr.length = 512 ∧
    (SectorOp.runAll ops s0).SectorStr[510]? = some 0x55 ∧
    (SectorOp.runAll ops s0).SectorStr[511]? = some 0xAA ∧
    (MBR.IsValidMBR (SectorOp.runAll ops s0)).outcome = .ok true ∧
    (∀ pre op post, ops = pre ++ op :: post →
      (op.run (SectorOp.runAll pre s0)).outcome ≠ .undefined) ∧
    (∀ (V : UString) (s : Sector), V.length = 512 → ¬ hasTrailer V →
      (Sector.SetSector V s).outcome = .ok () ∧
      (MBR.IsValidMBR (Sector.SetSector V s).self).outcome = .ok false ∧
      (hasNTFSMagic V →
        (NTFSVBR.SetVBR V s).outcome = .ok () ∧
        (MBR.IsValidMBR (NTFSVBR.SetVBR V s).self).outcome = .ok false)) := by
  have h0 : s0 = ⟨B⟩ ∧ B.length = 512 ∧ hasTrailer B := by
    rcases hnew with ⟨hok, hs⟩ | ⟨hok, hs⟩
    · obtain ⟨f1, f2, f3⟩ := MBR_new_ok_facts B hok
      exact ⟨hs.trans f1, f2, f3⟩
    · obtain ⟨f1, f2, f3, -⟩ := NTFSVBR_new_ok_facts B hok
      exact ⟨hs.trans f1, f2, f3⟩
  obtain ⟨hs, hl, ht⟩ := h0
  subst hs
  obtain ⟨r1, r2, r3⟩ := SectorOp.runAll_admitted ops ⟨B⟩ hl ht hops
  have hfalse : ∀ V : UString, V.length = 512 → ¬ hasTrailer V →
      (MBR.IsValidMBR ⟨V⟩).outcome = .ok false := by
    intro V hV hT
    rw [MBR.IsValidMBR_eq V hV]
    by_cases h510 : V[510]? = some 0x55
    · have h511 : ¬ V[511]? = some 0xAA := fun h => hT ⟨h510, h⟩
      simp only [if_pos h510, decide_eq_false h511]
    · simp only [if_neg h510]
  refine ⟨ht.1, ht.2, r1, r2.1, r2.2, ?_, r3, ?_⟩
  · generalize SectorOp.runAll ops ⟨B⟩ = t at r1 r2
    obtain ⟨T⟩ := t
    simp only at r1 r2
    rw [MBR.IsValidMBR_eq T r1, if_pos r2.1]
    simp only [r2.2, decide_True]
  · intro V s hV hT
    have e : Sector.SetSector V s = ⟨⟨V⟩, .ok (), []⟩ := by
      rw [Sector.SetSector_eq, if_neg (not_not.mpr hV)]
    refine ⟨by rw [e], by rw [e]; exact hfalse V hV hT, ?_⟩
    intro hm
    obtain ⟨q1, q2, -⟩ := NTFSVBR.SetVBR_eq V hV s
    rw [q1, q2, if_pos hm, if_pos hm]
    exact ⟨rfl, hfalse V hV hT⟩

set_option maxRecDepth 100000 in
/-- Witness for the amended C18: after `ParseEntries`, a `SetVBR` that throws
on 512 zero bytes, a `SetSector` that throws on 11 bytes and a `SetSector` with
another valid record, `IsValidMBR()` is true; and `SetSector` with 512 zero
bytes leaves it false. -/
theorem trailer_kept_by_admitted_calls_witness :
    (MBR.IsValidMBR (SectorOp.runAll
      [.ParseEntries, .SetVBR zeroSector, .SetSector shortMagic, .SetSector gptMBR]
      (MBR.new sampleMBR).self)).outcome = .ok true ∧
    (MBR.IsValidMBR (Sector.SetSector zeroSector (MBR.new sampleMBR).self).self).outcome =
      .ok false :=
  have h := trailer_kept_by_admitted_calls sampleMBR (MBR.new sampleMBR).self
    [.ParseEntries, .SetVBR zeroSector, .SetSector shortMagic, .SetSector gptMBR]
    (Or.inl ⟨by decide, rfl⟩) (by decide)
  ⟨h.2.2.2.2.2.1, (h.2.2.2.2.2.2.2 zeroSector (MBR.new sampleMBR).self (by decide)
    (by decide)).2.1⟩

/-! ## Program1 -/

set_option maxRecDepth 100000 in
/-- C19, the code at failing inputs: `PartitionType` is a bit-field one bit
wide, so `newPartitionEntry` stores the low bit of `buf[4]`: 1 for the type
0x07 and 0 for the type 0xEE. -/
theorem Program1_PartitionType_low_bit :
    sampleSlotHigh[4]? = some 0x07 ∧
    (Program1.newPartitionEntry sampleSlotHigh ()).outcome =
      .ok (some { BootIndicator := true, StartingSector := 0xFCFDFEFF, PartitionType := 1 }) ∧
    (slotBytes gptMBR 0)[4]? = some 0xEE ∧
    (Program1.newPartitionEntry (slotBytes gptMBR 0) ()).outcome =
      .ok (some { BootIndicator := false, StartingSector := 1, PartitionType := 0 }) := by
  decide

/-- An `unsigned char` converted to `char` and read back as `unsigned char` is
unchanged. -/
theorem Program1.toChar_mod (b : Byte) : Program1.toChar b % 256 = (b.val : Int) := by
  have := b.isLt
  unfold Program1.toChar
  split <;> omega

/-- The copy loop of `verifyNTFSVBR` on an array of at least 11 bytes. -/
theorem Program1.verifyNTFSVBR.loop_copies (vbr : UString) (h : 11 ≤ vbr.length) :
    Program1.verifyNTFSVBR.loop vbr 8 0 [] () =
      ⟨(), .ok [Program1.toChar (vbr.get ⟨3, by omega⟩), Program1.toChar (vbr.get ⟨4, by omega⟩),
          Program1.toChar (vbr.get ⟨5, by omega⟩), Program1.toChar (vbr.get ⟨6, by omega⟩),
          Program1.toChar (vbr.get ⟨7, by omega⟩), Program1.toChar (vbr.get ⟨8, by omega⟩),
          Program1.toChar (vbr.get ⟨9, by omega⟩), Program1.toChar (vbr.get ⟨10, by omega⟩)],
        [⟨vbr.length, 3⟩, ⟨vbr.length, 4⟩, ⟨vbr.length, 5⟩, ⟨vbr.length, 6⟩,
         ⟨vbr.length, 7⟩, ⟨vbr.length, 8⟩, ⟨vbr.length, 9⟩, ⟨vbr.length, 10⟩]⟩ := by
  simp only [Program1.verifyNTFSVBR.loop, Meth.bind_eq, Meth.pure_eq, Meth.seq_apply,
    Meth.index_of_lt vbr (0 + 3) (by omega), Meth.index_of_lt vbr (0 + 1 + 3) (by omega),
    Meth.index_of_lt vbr (0 + 1 + 1 + 3) (by omega),
    Meth.index_of_lt vbr (0 + 1 + 1 + 1 + 3) (by omega),
    Meth.index_of_lt vbr (0 + 1 + 1 + 1 + 1 + 3) (by omega),
    Meth.index_of_lt vbr (0 + 1 + 1 + 1 + 1 + 1 + 3) (by omega),
    Meth.index_of_lt vbr (0 + 1 + 1 + 1 + 1 + 1 + 1 + 3) (by omega),
    Meth.index_of_lt vbr (0 + 1 + 1 + 1 + 1 + 1 + 1 + 1 + 3) (by omega),
    Run.andThen_ok, Meth.ret_apply, Run.prepend_mk, List.nil_append, List.append_nil,
    List.cons_append, List.singleton_append]

/-- One character of `strcmp` against a nonzero character `c` of the literal. -/
theorem Program1.strcmp_step (x c : Int) (rest : Outcome Int) (P : Prop) (hc : c % 256 = c)
    (hc0 : c ≠ 0) (hrest : x = c → ∃ r, rest = .ok r ∧ (r = 0 ↔ P)) :
    ∃ r, (if x ≠ c % 256 then Outcome.ok (x - c % 256)
          else if x = 0 then Outcome.ok 0 else rest) = .ok r ∧ (r = 0 ↔ (x = c ∧ P)) := by
  by_cases h : x = c
  · obtain ⟨r, hr, hiff⟩ := hrest h
    refine ⟨r, ?_, ?_⟩
    · rw [if_neg (by rw [hc]; exact not_not.mpr h), if_neg (by rw [h]; exact hc0)]
      exact hr
    · rw [hiff]; exact ⟨fun hp => ⟨h, hp⟩, fun hp => hp.2⟩
  · refine ⟨x - c % 256, ?_, ?_⟩
    · rw [if_pos (by rw [hc]; exact h)]
    · rw [hc]
      constructor
      · intro h0; exact absurd (by omega) h
      · intro hp; exact absurd hp.1 h

/-- `strcmp` of eight copied bytes and a NUL against `"NTFS    "` is zero
exactly when the bytes are the eight characters. -/
theorem Program1.strcmp_sig (b3 b4 b5 b6 b7 b8 b9 b10 : Byte) :
    ∃ r, Program1.strcmp
        [Program1.toChar b3, Program1.toChar b4, Program1.toChar b5, Program1.toChar b6,
         Program1.toChar b7, Program1.toChar b8, Program1.toChar b9, Program1.toChar b10, 0]
        Program1.ntfsLiteral = .ok r ∧
      (r = 0 ↔ (b3 = 0x4E ∧ b4 = 0x54 ∧ b5 = 0x46 ∧ b6 = 0x53 ∧ b7 = 0x20 ∧ b8 = 0x20 ∧
        b9 = 0x20 ∧ b10 = 0x20)) := by
  have key : ∀ (b c : Byte), b = c ↔ ((b.val : Int) = (c.val : Int)) := by
    intro b c
    constructor
    · intro e; rw [e]
    · intro e; exact Fin.ext (by exact_mod_cast e)
  have main : ∃ r, Program1.strcmp
        [Program1.toChar b3, Program1.toChar b4, Program1.toChar b5, Program1.toChar b6,
         Program1.toChar b7, Program1.toChar b8, Program1.toChar b9, Program1.toChar b10, 0]
        Program1.ntfsLiteral = .ok r ∧
      (r = 0 ↔ ((b3.val : Int) = 0x4E ∧ (b4.val : Int) = 0x54 ∧ (b5.val : Int) = 0x46 ∧
        (b6.val : Int) = 0x53 ∧ (b7.val : Int) = 0x20 ∧ (b8.val : Int) = 0x20 ∧
        (b9.val : Int) = 0x20 ∧ (b10.val : Int) = 0x20 ∧ True)) := by
    simp only [Program1.strcmp, Program1.ntfsLiteral, Program1.toChar_mod]
    refine Program1.strcmp_step _ 0x4E _ _ (by decide) (by decide) (fun _ => ?_)
    refine Program1.strcmp_step _ 0x54 _ _ (by decide) (by decide) (fun _ => ?_)
    refine Program1.strcmp_step _ 0x46 _ _ (by decide) (by decide) (fun _ => ?_)
    refine Program1.strcmp_step _ 0x53 _ _ (by decide) (by decide) (fun _ => ?_)
    refine Program1.strcmp_step _ 0x20 _ _ (by decide) (by decide) (fun _ => ?_)
    refine Program1.strcmp_step _ 0x20 _ _ (by decide) (by decide) (fun _ => ?_)
    refine Program1.strcmp_step _ 0x20 _ _ (by decide) (by decide) (fun _ => ?_)
    refine Program1.strcmp_step _ 0x20 _ _ (by decide) (by decide) (fun _ => ?_)
    exact ⟨0, by decide, by simp⟩
  obtain ⟨r, hr, hiff⟩ := main
  refine ⟨r, hr, ?_⟩
  have k : ∀ (b c : Byte) (z : Int), (c.val : Int) = z → (b = c ↔ (b.val : Int) = z) := by
    intro b c z hz
    subst hz
    exact key b c
  rw [hiff, k b3 0x4E 0x4E (by decide), k b4 0x54 0x54 (by decide), k b5 0x46 0x46 (by decide),
    k b6 0x53 0x53 (by decide), k b7 0x20 0x20 (by decide), k b8 0x20 0x20 (by decide),
    k b9 0x20 0x20 (by decide), k b10 0x20 0x20 (by decide)]
  simp only [and_true]
/-- On an argument of at least 11 bytes `SetVBR` stores the argument exactly
when the magic is present and throws otherwise, whatever the length and the
last two bytes of the argument. -/
theorem NTFSVBR.SetVBR_outcome_of_ge (V : UString) (hV : 11 ≤ V.length) (s : Sector) :
    (NTFSVBR.SetVBR V s).outcome = (if hasNTFSMagic V then .ok () else .thrown .notNTFS) ∧
    (NTFSVBR.SetVBR V s).self = (if hasNTFSMagic V then ⟨V⟩ else s) := by
  have e3 : V[3]? = some (V.get ⟨3, by omega⟩) := List.getElem?_eq_getElem (by omega)
  have e4 : V[4]? = some (V.get ⟨4, by omega⟩) := List.getElem?_eq_getElem (by omega)
  have e5 : V[5]? = some (V.get ⟨5, by omega⟩) := List.getElem?_eq_getElem (by omega)
  have e6 : V[6]? = some (V.get ⟨6, by omega⟩) := List.getElem?_eq_getElem (by omega)
  have e7 : V[7]? = some (V.get ⟨7, by omega⟩) := List.getElem?_eq_getElem (by omega)
  have e8 : V[8]? = some (V.get ⟨8, by omega⟩) := List.getElem?_eq_getElem (by omega)
  have e9 : V[9]? = some (V.get ⟨9, by omega⟩) := List.getElem?_eq_getElem (by omega)
  have e10 : V[10]? = some (V.get ⟨10, by omega⟩) := List.getElem?_eq_getElem (by omega)
  have cN : ('N').toNat = 0x4E := by decide
  have cT : ('T').toNat = 0x54 := by decide
  have cF : ('F').toNat = 0x46 := by decide
  have cS : ('S').toNat = 0x53 := by decide
  have cSp : (' ').toNat = 0x20 := by decide
  simp only [hasNTFSMagic, e3, e4, e5, e6, e7, e8, e9, e10, Option.some.injEq,
    NTFSVBR.SetVBR, Meth.bind_eq, Meth.seq_apply, Meth.or_apply,
    NTFSVBR.differs_of_lt V 3 _ (by omega), NTFSVBR.differs_of_lt V 4 _ (by omega),
    NTFSVBR.differs_of_lt V 5 _ (by omega), NTFSVBR.differs_of_lt V 6 _ (by omega),
    NTFSVBR.differs_of_lt V 7 _ (by omega), NTFSVBR.differs_of_lt V 8 _ (by omega),
    NTFSVBR.differs_of_lt V 9 _ (by omega), NTFSVBR.differs_of_lt V 10 _ (by omega),
    cN, cT, cF, cS, cSp, Run.andThen_ok, Meth.ite_apply, Meth.ret_apply, Meth.pure_eq,
    byte_val_ne _ 0x4E 0x4E rfl, byte_val_ne _ 0x54 0x54 rfl, byte_val_ne _ 0x46 0x46 rfl,
    byte_val_ne _ 0x53 0x53 rfl, byte_val_ne _ 0x20 0x20 rfl]
  generalize V.get ⟨3, _⟩ = b3
  generalize V.get ⟨4, _⟩ = b4
  generalize V.get ⟨5, _⟩ = b5
  generalize V.get ⟨6, _⟩ = b6
  generalize V.get ⟨7, _⟩ = b7
  generalize V.get ⟨8, _⟩ = b8
  generalize V.get ⟨9, _⟩ = b9
  generalize V.get ⟨10, _⟩ = b10
  by_cases h3 : b3 = 0x4E
  case neg => simp [h3]
  by_cases h4 : b4 = 0x54
  case neg => simp [h3, h4]
  by_cases h5 : b5 = 0x46
  case neg => simp [h3, h4, h5]
  by_cases h6 : b6 = 0x53
  case neg => simp [h3, h4, h5, h6]
  by_cases h7 : b7 = 0x20
  case neg => simp [h3, h4, h5, h6, h7]
  by_cases h8 : b8 = 0x20
  case neg => simp [h3, h4, h5, h6, h7, h8]
  by_cases h9 : b9 = 0x20
  case neg => simp [h3, h4, h5, h6, h7, h8, h9]
  by_cases h10 : b10 = 0x20
  case neg => simp [h3, h4, h5, h6, h7, h8, h9, h10]
  simp [h3, h4, h5, h6, h7, h8, h9, h10]

/-- `verifyNTFSVBR` on an array of at least 11 bytes tells whether bytes 3 to 10
are the magic. -/
theorem Program1.verifyNTFSVBR_outcome (vbr : UString) (h : 11 ≤ vbr.length) :
    (Program1.verifyNTFSVBR vbr ()).outcome = .ok (decide (hasNTFSMagic vbr)) := by
  obtain ⟨r, hr, hiff⟩ := Program1.strcmp_sig (vbr.get ⟨3, by omega⟩) (vbr.get ⟨4, by omega⟩)
    (vbr.get ⟨5, by omega⟩) (vbr.get ⟨6, by omega⟩) (vbr.get ⟨7, by omega⟩)
    (vbr.get ⟨8, by omega⟩) (vbr.get ⟨9, by omega⟩) (vbr.get ⟨10, by omega⟩)
  have e3 : vbr[3]? = some (vbr.get ⟨3, by omega⟩) := List.getElem?_eq_getElem (by omega)
  have e4 : vbr[4]? = some (vbr.get ⟨4, by omega⟩) := List.getElem?_eq_getElem (by omega)
  have e5 : vbr[5]? = some (vbr.get ⟨5, by omega⟩) := List.getElem?_eq_getElem (by omega)
  have e6 : vbr[6]? = some (vbr.get ⟨6, by omega⟩) := List.getElem?_eq_getElem (by omega)
  have e7 : vbr[7]? = some (vbr.get ⟨7, by omega⟩) := List.getElem?_eq_getElem (by omega)
  have e8 : vbr[8]? = some (vbr.get ⟨8, by omega⟩) := List.getElem?_eq_getElem (by omega)
  have e9 : vbr[9]? = some (vbr.get ⟨9, by omega⟩) := List.getElem?_eq_getElem (by omega)
  have e10 : vbr[10]? = some (vbr.get ⟨10, by omega⟩) := List.getElem?_eq_getElem (by omega)
  have hm : hasNTFSMagic vbr ↔ r = 0 := by
    rw [hiff]
    simp only [hasNTFSMagic, e3, e4, e5, e6, e7, e8, e9, e10, Option.some.injEq]
  simp only [Program1.verifyNTFSVBR, Meth.bind_eq, Meth.pure_eq, Meth.seq_apply,
    Program1.verifyNTFSVBR.loop_copies vbr h, Run.andThen_ok, List.cons_append, List.nil_append,
    Program1.ofOutcome, hr, Meth.ret_apply, Run.prepend_mk, Run.prepend_outcome]
  congr 1
  exact (decide_eq_decide.mpr hm).symm

/-- C20: for a buffer of at least 11 bytes Program1's `verifyNTFSVBR` returns
true exactly when bytes 3 to 10 are `N`, `T`, `F`, `S` and four spaces; a zero
byte or a byte above 0x7F among them is rejected like any other mismatch. It
therefore accepts exactly the buffers on which the signature test of Program2's
`NTFSVBR::SetVBR` does not throw. -/
theorem verifyNTFSVBR_iff_magic (vbr : UString) (h : 11 ≤ vbr.length) (s : Sector) :
    (Program1.verifyNTFSVBR vbr ()).outcome = .ok (decide (hasNTFSMagic vbr)) ∧
    ((Program1.verifyNTFSVBR vbr ()).outcome = .ok true ↔ hasNTFSMagic vbr) ∧
    ((Program1.verifyNTFSVBR vbr ()).outcome = .ok true ↔
      (NTFSVBR.SetVBR vbr s).outcome = .ok ()) ∧
    ((Program1.verifyNTFSVBR vbr ()).outcome = .ok false ↔
      (NTFSVBR.SetVBR vbr s).outcome = .thrown .notNTFS) := by
  have h1 := Program1.verifyNTFSVBR_outcome vbr h
  have h2 := (NTFSVBR.SetVBR_outcome_of_ge vbr h s).1
  rw [h1, h2]
  by_cases hm : hasNTFSMagic vbr <;> simp [hm]

set_option maxRecDepth 100000 in
/-- Witness for C20: the sample boot sector is accepted; with a zero byte or the
byte 0xC6 in place of `F` it is rejected. -/
theorem verifyNTFSVBR_iff_magic_witness :
    (Program1.verifyNTFSVBR sampleVBR ()).outcome = .ok true ∧
    (Program1.verifyNTFSVBR (sampleVBR.set 5 0x00) ()).outcome = .ok false ∧
    (Program1.verifyNTFSVBR (sampleVBR.set 5 0xC6) ()).outcome = .ok false :=
  ⟨(verifyNTFSVBR_iff_magic sampleVBR (by decide) ⟨[]⟩).1,
   (verifyNTFSVBR_iff_magic (sampleVBR.set 5 0x00) (by decide) ⟨[]⟩).1,
   (verifyNTFSVBR_iff_magic (sampleVBR.set 5 0xC6) (by decide) ⟨[]⟩).1⟩

/-! ## Program1 and Program2 decode a slot alike -/

theorem Program1.intToU32_shlInt_byte (b k : Nat) (hb : b < 256)
    (hk : k = 0 ∨ k = 8 ∨ k = 16) :
    Program1.intToU32 (shlInt (b : Int) k) = b * 2 ^ k := by
  rcases hk with rfl | rfl | rfl <;>
    simp only [Program1.intToU32, shlInt, wrapInt32] <;> omega

theorem Program1.intToU32_wrapInt32_byte (b : Nat) (hb : b < 256) :
    Program1.intToU32 (wrapInt32 (b : Int)) = b := by
  simp only [Program1.intToU32, wrapInt32]; omega

/-- The four-operand or of `newPartitionEntry`, computed in `uint32_t` and
widened to `uint64_t`, is the little-endian sum. -/
theorem Program1.or4_u32_eq_sum (b8 b9 b10 b11 : Nat) (h8 : b8 < 256) (h9 : b9 < 256)
    (h10 : b10 < 256) (h11 : b11 < 256) :
    wrap64 (((Program1.shl32 b11 24 ||| Program1.intToU32 (shlInt (b10 : Int) 16))
      ||| Program1.intToU32 (shlInt (b9 : Int) 8)) ||| Program1.intToU32 (wrapInt32 (b8 : Int)))
    = b8 + b9 * 2 ^ 8 + b10 * 2 ^ 16 + b11 * 2 ^ 24 := by
  have s11 : Program1.shl32 b11 24 = b11 * 2 ^ 24 := by
    simp only [Program1.shl32, Nat.shiftLeft_eq]; omega
  rw [s11, Program1.intToU32_shlInt_byte b10 16 h10 (by omega),
    Program1.intToU32_shlInt_byte b9 8 h9 (by omega), Program1.intToU32_wrapInt32_byte b8 h8]
  rw [or_eq_add_of_dvd (b11 * 2 ^ 24) (b10 * 2 ^ 16) 24 (by omega) (by omega)]
  rw [or_eq_add_of_dvd (b11 * 2 ^ 24 + b10 * 2 ^ 16) (b9 * 2 ^ 8) 16 (by omega) (by omega)]
  rw [or_eq_add_of_dvd (b11 * 2 ^ 24 + b10 * 2 ^ 16 + b9 * 2 ^ 8) b8 8 (by omega) (by omega)]
  simp only [wrap64]
  omega

/-- `newPartitionEntry` on a 16-byte slot: `NULL` when byte 4 is zero, otherwise
an entry with the boot flag, the little-endian starting sector and the low bit
of the type byte. -/
theorem Program1.newPartitionEntry_outcome (S : UString) (hl : S.length = 16) :
    (Program1.newPartitionEntry S ()).outcome =
      .ok (if S[4]? = some 0 then none
        else some { BootIndicator := decide (S.getD 0 0 ≠ 0)
                    StartingSector := leSum S 8 4
                    PartitionType := (S.getD 4 0).val % 2 }) := by
  obtain ⟨b, hb⟩ : ∃ b, S[4]? = some b := ⟨_, List.getElem?_eq_getElem (by omega)⟩
  have hb' : S.get ⟨4, by omega⟩ = b := by
    have := List.getElem?_eq_getElem (l := S) (n := 4) (by omega)
    rw [hb] at this
    exact (Option.some.inj this).symm
  simp only [Program1.newPartitionEntry, Meth.bind_eq, Meth.pure_eq, Meth.seq_apply,
    Meth.index_of_lt S 4 (by omega), Meth.index_of_lt S 0 (by omega),
    Meth.index_of_lt S 11 (by omega), Meth.index_of_lt S 10 (by omega),
    Meth.index_of_lt S 9 (by omega), Meth.index_of_lt S 8 (by omega), Run.andThen_ok,
    Meth.ite_apply, Meth.ret_apply, Run.prepend_mk, Run.prepend_ite, Run.prepend_outcome,
    hb, hb', Option.some.injEq, Program1.toBitField, pow_one,
    Program1.or4_u32_eq_sum _ _ _ _ (Fin.isLt _) (Fin.isLt _) (Fin.isLt _) (Fin.isLt _),
    leSum_four, getD_eq_get S 0 (by omega), getD_eq_get S 4 (by omega),
    getD_eq_get S 8 (by omega), getD_eq_get S (8 + 1) (by omega),
    getD_eq_get S (8 + 2) (by omega), getD_eq_get S (8 + 3) (by omega)]
  by_cases h0 : b = 0
  · simp only [if_pos h0]
  · simp only [if_neg h0]

theorem PartitionEntry.GetBootIndicator_eq (S : UString) (hl : S.length = 16) :
    PartitionEntry.GetBootIndicator ⟨S⟩ = ⟨⟨S⟩, .ok (decide (S.getD 0 0 ≠ 0)), [⟨16, 0⟩]⟩ := by
  simp only [PartitionEntry.GetBootIndicator, Meth.bind_eq, Meth.pure_eq, Meth.seq_apply,
    Meth.getThis_apply, Run.andThen_ok, Meth.index_of_lt S 0 (by omega), Meth.ret_apply,
    Run.prepend_mk, Run.prepend_nil, getD_eq_get S 0 (by omega), hl, List.nil_append, List.append_nil, List.singleton_append]

/-- C24: on every 16-byte slot `S` the decoder of Program1 and the decoder of
Program2 agree. `newPartitionEntry(S)` returns `NULL` exactly when constructing
a `PartitionEntry` from `S` throws "Non-existent partition", and both exactly
when `S[4]` is zero. When `S[4]` is not zero both succeed, and the
`BootIndicator` and `StartingSector` fields of the entry of Program1 are the
values `GetBootIndicator()` and `GetStartingSector()` return on the entry of
Program2. -/
theorem decoders_agree_on_slot (S : UString) (hl : S.length = 16) :
    ((Program1.newPartitionEntry S ()).outcome = .ok none ↔
      (PartitionEntry.new S).outcome = .thrown .nonExistentPartition) ∧
    ((Program1.newPartitionEntry S ()).outcome = .ok none ↔ S[4]? = some 0) ∧
    (S[4]? ≠ some 0 →
      (PartitionEntry.new S).outcome = .ok () ∧
      ∃ e, (Program1.newPartitionEntry S ()).outcome = .ok (some e) ∧
        (PartitionEntry.GetBootIndicator (PartitionEntry.new S).self).outcome =
          .ok e.BootIndicator ∧
        (PartitionEntry.GetStartingSector (PartitionEntry.new S).self).outcome =
          .ok e.StartingSector) := by
  rw [Program1.newPartitionEntry_outcome S hl, PartitionEntry.new_eq]
  by_cases h4 : S[4]? = some 0
  · simp only [hl, ne_eq, not_true_eq_false, if_false, if_pos h4, true_iff, iff_true,
      true_and, not_true_eq_false, false_implies]
    exact ⟨h4, fun h => absurd h4 h⟩
  · simp only [hl, ne_eq, not_true_eq_false, if_false, if_neg h4, h4, not_false_eq_true,
      true_implies, true_and]
    refine ⟨by simp, by simp, ⟨_, rfl, ?_, ?_⟩⟩
    · rw [PartitionEntry.GetBootIndicator_eq S hl]
    · rw [PartitionEntry.GetStartingSector_eq S hl]

/-- Witness for C24: the slot with starting sector 0x80000800 is decoded to the
same boot flag and starting sector by both programs, and neither rejects it. -/
theorem decoders_agree_on_slot_witness :
    (Program1.newPartitionEntry sampleSlotHigh ()).outcome ≠ .ok none ∧
    (PartitionEntry.new sampleSlotHigh).outcome = .ok () ∧
    ∃ e, (Program1.newPartitionEntry sampleSlotHigh ()).outcome = .ok (some e) ∧
      (PartitionEntry.GetBootIndicator (PartitionEntry.new sampleSlotHigh).self).outcome =
        .ok e.BootIndicator ∧
      (PartitionEntry.GetStartingSector (PartitionEntry.new sampleSlotHigh).self).outcome =
        .ok e.StartingSector :=
  ⟨fun h => absurd ((decoders_agree_on_slot sampleSlotHigh (by decide)).2.1.1 h) (by decide),
   (decoders_agree_on_slot sampleSlotHigh (by decide)).2.2 (by decide)⟩

/-! ## The invariant of `PartitionEntry` -/

/-- A call on an entry of 16 bytes with a nonzero type byte leaves such an
entry, and is defined. -/
theorem EntryOp.run_invariant (op : EntryOp) (p : PartitionEntry) (hl : p.entry.length = 16)
    (h4 : p.entry[4]? ≠ some 0) :
    (op.run p).self.entry.length = 16 ∧ (op.run p).self.entry[4]? ≠ some 0 ∧
    (op.run p).outcome ≠ .undefined := by
  obtain ⟨E⟩ := p
  simp only at hl h4
  cases op with
  | SetEntry S =>
    simp only [EntryOp.run, PartitionEntry.SetEntry_eq]
    by_cases hS : S.length = 16
    · by_cases hS4 : S[4]? = some 0
      · simp only [if_neg (not_not.mpr hS), if_pos hS4]
        exact ⟨hl, h4, by simp⟩
      · simp only [if_neg (not_not.mpr hS), if_neg hS4]
        exact ⟨hS, hS4, by simp⟩
    · simp only [if_pos hS]
      exact ⟨hl, h4, by simp⟩
  | GetEntry =>
    simp only [EntryOp.run, Run.andThen_ret_self, PartitionEntry.GetEntry_eq]
    exact ⟨hl, h4, Run.andThen_ret_defined _ (by simp)⟩
  | GetBootIndicator =>
    simp only [EntryOp.run, Run.andThen_ret_self, PartitionEntry.GetBootIndicator_eq E hl]
    exact ⟨hl, h4, Run.andThen_ret_defined _ (by simp)⟩
  | GetPartitionType =>
    have hE : 4 < E.length := by omega
    have e := PartitionEntry.GetPartitionType_eq ⟨E⟩ (E.get ⟨4, hE⟩)
      (List.getElem?_eq_getElem hE)
    simp only [EntryOp.run, Run.andThen_ret_self, e]
    exact ⟨hl, h4, Run.andThen_ret_defined _ (by simp)⟩
  | GetStartingSector =>
    simp only [EntryOp.run, Run.andThen_ret_self, PartitionEntry.GetStartingSector_eq E hl]
    exact ⟨hl, h4, Run.andThen_ret_defined _ (by simp)⟩
  | IsNTFSEntry =>
    have e : NTFSPartitionEntry.IsNTFSEntry ⟨E⟩ =
        ⟨⟨E⟩, .ok (decide (E.get ⟨4, by omega⟩ = 0x07)), [⟨16, 4⟩]⟩ := by
      simp only [NTFSPartitionEntry.IsNTFSEntry, Meth.bind_eq, Meth.pure_eq, Meth.seq_apply,
        Meth.getThis_apply, Run.andThen_ok, Meth.index_of_lt E 4 (by omega), Meth.ret_apply,
        Run.prepend_mk, Run.prepend_nil, hl, List.nil_append, List.append_nil,
        List.singleton_append]
    simp only [EntryOp.run, Run.andThen_ret_self, e]
    exact ⟨hl, h4, Run.andThen_ret_defined _ (by simp)⟩

/-- A sequence of calls on an entry of 16 bytes with a nonzero type byte leaves
such an entry. -/
theorem EntryOp.runAll_invariant (ops : List EntryOp) :
    ∀ p : PartitionEntry, p.entry.length = 16 → p.entry[4]? ≠ some 0 →
      (EntryOp.runAll ops p).entry.length = 16 ∧ (EntryOp.runAll ops p).entry[4]? ≠ some 0 := by
  induction ops with
  | nil => intro p hl h4; exact ⟨hl, h4⟩
  | cons op ops ih =>
    intro p hl h4
    obtain ⟨k1, k2, -⟩ := EntryOp.run_invariant op p hl h4
    exact ih (op.run p).self k1 k2

/-- C21: `SetEntry` is atomic and keeps the invariant of the entry. For every
`PartitionEntry` `p` and byte sequence `S` the call `SetEntry(S)` either returns
or throws; it throws exactly when the length of `S` is not 16 or `S[4]` is
zero, and then the stored entry of `p` is unchanged; when it returns the stored
entry is `S`. Every object obtained from a successful constructor by any
sequence of member calls, `SetEntry` with any argument among them, holds
exactly 16 bytes with a nonzero type byte, and `GetEntry()` of a freshly
constructed entry returns the bytes it was constructed from. -/
theorem SetEntry_atomic_invariant (S : UString) (p : PartitionEntry) (ops : List EntryOp) :
    (PartitionEntry.SetEntry S p).outcome ≠ .undefined ∧
    ((PartitionEntry.SetEntry S p).outcome ≠ .ok () ↔ (S.length ≠ 16 ∨ S[4]? = some 0)) ∧
    ((PartitionEntry.SetEntry S p).outcome ≠ .ok () → (PartitionEntry.SetEntry S p).self = p) ∧
    ((PartitionEntry.SetEntry S p).outcome = .ok () →
      (PartitionEntry.SetEntry S p).self.entry = S) ∧
    ((PartitionEntry.new S).outcome = .ok () →
      (EntryOp.runAll ops (PartitionEntry.new S).self).entry.length = 16 ∧
      (EntryOp.runAll ops (PartitionEntry.new S).self).entry[4]? ≠ some 0) ∧
    ((PartitionEntry.new S).outcome = .ok () →
      (PartitionEntry.GetEntry (PartitionEntry.new S).self).outcome = .ok S) := by
  rw [PartitionEntry.SetEntry_eq, PartitionEntry.new_eq]
  by_cases hl : S.length = 16
  · by_cases h4 : S[4]? = some 0
    · simp only [if_neg (not_not.mpr hl), if_pos h4]
      simp [hl, h4]
    · simp only [if_neg (not_not.mpr hl), if_neg h4]
      refine ⟨by simp, ⟨fun h => absurd rfl h,
        fun h => h.elim (fun h => absurd hl h) (fun h => absurd h h4)⟩, by simp, by simp,
        fun _ => ?_, fun _ => ?_⟩
      · exact EntryOp.runAll_invariant ops ⟨S⟩ hl h4
      · rw [PartitionEntry.GetEntry_eq]
  · simp only [if_pos hl]
    simp [hl]

/-- Witness for C21: an entry built from one slot and then sent a rejected
`SetEntry`, a getter and an accepted `SetEntry` still holds 16 bytes with a
nonzero type byte, and the rejected call leaves the stored entry alone. -/
theorem SetEntry_atomic_invariant_witness :
    (PartitionEntry.SetEntry [] ⟨sampleSlotHigh⟩).self = ⟨sampleSlotHigh⟩ ∧
    (EntryOp.runAll [.SetEntry [], .GetStartingSector, .SetEntry sampleSlotOddBoot]
      (PartitionEntry.new sampleSlotHigh).self).entry.length = 16 ∧
    (EntryOp.runAll [.SetEntry [], .GetStartingSector, .SetEntry sampleSlotOddBoot]
      (PartitionEntry.new sampleSlotHigh).self).entry[4]? ≠ some 0 ∧
    (PartitionEntry.GetEntry (PartitionEntry.new sampleSlotHigh).self).outcome =
      .ok sampleSlotHigh :=
  ⟨(SetEntry_atomic_invariant [] ⟨sampleSlotHigh⟩ []).2.2.1 (by decide),
   ((SetEntry_atomic_invariant sampleSlotHigh ⟨[]⟩
      [.SetEntry [], .GetStartingSector, .SetEntry sampleSlotOddBoot]).2.2.2.2.1 (by decide)).1,
   ((SetEntry_atomic_invariant sampleSlotHigh ⟨[]⟩
      [.SetEntry [], .GetStartingSector, .SetEntry sampleSlotOddBoot]).2.2.2.2.1 (by decide)).2,
   (SetEntry_atomic_invariant sampleSlotHigh ⟨[]⟩ []).2.2.2.2.2 (by decide)⟩

/-! ## The slices of `ParseEntries` -/

/-- The iteration of the loop of `ParseEntries` runs the `try` block on the
sector of the object and goes on with the vector it leaves. -/
theorem MBR.ParseEntries.loop_tryBlock (n i : Nat) (result : EntryVector) (s : Sector) :
    MBR.ParseEntries.loop (n + 1) i result s =
      ((Meth.tryCatch (MBR.ParseEntries.tryBlock s.SectorStr i result)
          (fun _ => pure result)) s).andThen
        (fun r => MBR.ParseEntries.loop n (i + 1) r) := by
  rw [MBR.ParseEntries.loop]
  simp only [Meth.bind_eq, Meth.seq_apply, Meth.getThis_apply, Run.andThen_ok, Run.prepend_nil]
  rfl

/-- The `try` block on a 512-byte sector: it reads the 16 bytes of slot `i` and
the type byte of the copy, and either appends the entry or throws
"Non-existent partition". -/
theorem MBR.ParseEntries.tryBlock_eq (B : UString) (hB : B.length = 512) (i : Nat) (hi : i < 4)
    (result : EntryVector) (s : Sector) :
    MBR.ParseEntries.tryBlock B i result s =
      if slotPresent B i then
        ⟨s, .ok (result ++ [⟨slotBytes B i⟩]),
          (List.range' (446 + i * 16) 16).map (Access.mk 512) ++ [⟨16, 4⟩]⟩
      else
        ⟨s, .thrown .nonExistentPartition,
          (List.range' (446 + i * 16) 16).map (Access.mk 512) ++ [⟨16, 4⟩]⟩ := by
  have e1 : 446 + (i + 1) * 16 - (446 + i * 16) = 16 := by omega
  simp only [MBR.ParseEntries.tryBlock, Meth.bind_eq, Meth.pure_eq, Meth.seq_apply,
    Run.andThen_ok, PARTITION_TABLE_OFFSET, PARTITION_ENTRY_SIZE,
    Meth.range_of_le B (446 + i * 16) (446 + (i + 1) * 16) (by omega) (by omega), e1,
    slice_eq_slotBytes B i hB hi, Meth.construct_apply, PartitionEntry.ctor,
    PartitionEntry.SetEntry_eq, slotBytes_length, slotBytes_type, hB, ne_eq,
    not_true_eq_false, if_false, Option.some.injEq, Run.prepend_nil, slotPresent]
  by_cases hp : B.getD (446 + 16 * i + 4) 0 = 0
  · simp [-List.getD_eq_getElem?_getD, hp]
  · simp [-List.getD_eq_getElem?_getD, hp]

/-- C22: for every successfully constructed `MBR` over `B` and every index
`i < 4`, the slice taken by `ParseEntries` starts at `446 + 16 i` and ends at
`446 + 16 (i + 1)`, which is at most 510, the place of the trailer; taking it is
defined, reads only bytes of the sector at those indices and gives exactly 16
bytes. The constructor of `PartitionEntry` on that slice never throws the size
exception, and the `try` block, which is what the loop runs, is defined and
throws nothing but "Non-existent partition". `ParseEntries()` itself returns,
and every byte of the sector it reads lies in the partition table. -/
theorem ParseEntries_slices_in_range (B : UString) (hok : (MBR.new B).outcome = .ok ())
    (i : Nat) (hi : i < 4) (result : EntryVector) (n : Nat) :
    PARTITION_TABLE_OFFSET + i * PARTITION_ENTRY_SIZE = 446 + 16 * i ∧
    PARTITION_TABLE_OFFSET + (i + 1) * PARTITION_ENTRY_SIZE = 446 + 16 * (i + 1) ∧
    446 + 16 * (i + 1) ≤ 510 ∧ 510 + 2 = (MBR.new B).self.SectorStr.length ∧
    (∃ slot,
      (Meth.range (MBR.new B).self.SectorStr (PARTITION_TABLE_OFFSET + i * PARTITION_ENTRY_SIZE)
        (PARTITION_TABLE_OFFSET + (i + 1) * PARTITION_ENTRY_SIZE) (MBR.new B).self).outcome =
          .ok slot ∧
      slot.length = 16 ∧
      (∀ n, (PartitionEntry.new slot).outcome ≠ .thrown (.entrySize n)) ∧
      ((PartitionEntry.new slot).outcome = .ok () ∨
        (PartitionEntry.new slot).outcome = .thrown .nonExistentPartition)) ∧
    (∀ a ∈ (Meth.range (MBR.new B).self.SectorStr
        (PARTITION_TABLE_OFFSET + i * PARTITION_ENTRY_SIZE)
        (PARTITION_TABLE_OFFSET + (i + 1) * PARTITION_ENTRY_SIZE) (MBR.new B).self).reads,
      a.size = 512 ∧ 446 + 16 * i ≤ a.index ∧ a.index < 446 + 16 * (i + 1)) ∧
    MBR.ParseEntries.loop (n + 1) i result (MBR.new B).self =
      ((Meth.tryCatch (MBR.ParseEntries.tryBlock (MBR.new B).self.SectorStr i result)
          (fun _ => pure result)) (MBR.new B).self).andThen
        (fun r => MBR.ParseEntries.loop n (i + 1) r) ∧
    (MBR.ParseEntries.tryBlock (MBR.new B).self.SectorStr i result (MBR.new B).self).outcome ≠
      .undefined ∧
    (∀ e, (MBR.ParseEntries.tryBlock (MBR.new B).self.SectorStr i result
        (MBR.new B).self).outcome = .thrown e → e = .nonExistentPartition) ∧
    (∃ entries, (MBR.ParseEntries (MBR.new B).self).outcome = .ok entries) ∧
    (∀ a ∈ (MBR.ParseEntries (MBR.new B).self).reads,
      (a.size = 512 ∧ 446 ≤ a.index ∧ a.index < 510) ∨ a = ⟨16, 4⟩) := by
  obtain ⟨hs, hB, -⟩ := MBR_new_ok_facts B hok
  have e1 : 446 + (i + 1) * 16 - (446 + i * 16) = 16 := by omega
  rw [hs]
  refine ⟨by simp only [PARTITION_TABLE_OFFSET, PARTITION_ENTRY_SIZE]; omega,
    by simp only [PARTITION_TABLE_OFFSET, PARTITION_ENTRY_SIZE]; omega, by omega, hB.symm,
    ?_, ?_, MBR.ParseEntries.loop_tryBlock n i result ⟨B⟩, ?_, ?_, ?_, ?_⟩
  · refine ⟨slotBytes B i, ?_, slotBytes_length B i, ?_, ?_⟩
    · simp only [PARTITION_TABLE_OFFSET, PARTITION_ENTRY_SIZE,
        Meth.range_of_le B (446 + i * 16) (446 + (i + 1) * 16) (by omega) (by omega), e1,
        slice_eq_slotBytes B i hB hi]
    · intro n
      rw [PartitionEntry.new_eq]
      simp only [slotBytes_length, ne_eq, not_true_eq_false, if_false]
      by_cases h : (slotBytes B i)[4]? = some 0
      · simp only [if_pos h]; simp
      · simp only [if_neg h]; simp
    · rw [PartitionEntry.new_eq]
      simp only [slotBytes_length, ne_eq, not_true_eq_false, if_false]
      by_cases h : (slotBytes B i)[4]? = some 0
      · simp only [if_pos h]; simp
      · simp only [if_neg h]; simp
  · intro a ha
    simp only [PARTITION_TABLE_OFFSET, PARTITION_ENTRY_SIZE,
      Meth.range_of_le B (446 + i * 16) (446 + (i + 1) * 16) (by omega) (by omega), e1,
      List.mem_map, List.mem_range'_1, hB] at ha
    obtain ⟨j, hj, rfl⟩ := ha
    exact ⟨rfl, by show 446 + 16 * i ≤ j; omega, by show j < 446 + 16 * (i + 1); omega⟩
  · rw [MBR.ParseEntries.tryBlock_eq B hB i hi]
    by_cases h : slotPresent B i = true
    · simp only [if_pos h]; simp
    · simp only [if_neg h]; simp
  · intro e he
    rw [MBR.ParseEntries.tryBlock_eq B hB i hi] at he
    by_cases h : slotPresent B i = true
    · simp only [if_pos h] at he; cases he
    · simp only [if_neg h] at he
      cases he; rfl
  · exact ⟨_, (MBR.ParseEntries.loop_eq B hB 4 0 [] (by omega)).1⟩
  · intro a ha
    rcases (MBR.ParseEntries.loop_eq B hB 4 0 [] (by omega)).2.2 a ha with h | h
    · exact Or.inl ⟨h.1, by omega, by omega⟩
    · exact Or.inr h

set_option maxRecDepth 100000 in
/-- Witness for C22: on the sample record the last slice, slot 3, ends at 510,
is read inside the table, and its absent partition is the exception thrown. -/
theorem ParseEntries_slices_in_range_witness :
    PARTITION_TABLE_OFFSET + (3 + 1) * PARTITION_ENTRY_SIZE = 446 + 16 * (3 + 1) ∧
    (∀ e, (MBR.ParseEntries.tryBlock (MBR.new sampleMBR).self.SectorStr 3 []
        (MBR.new sampleMBR).self).outcome = .thrown e → e = .nonExistentPartition) ∧
    (∀ a ∈ (MBR.ParseEntries (MBR.new sampleMBR).self).reads,
      (a.size = 512 ∧ 446 ≤ a.index ∧ a.index < 510) ∨ a = ⟨16, 4⟩) :=
  ⟨(ParseEntries_slices_in_range sampleMBR (by decide) 3 (by decide) [] 0).2.1,
   (ParseEntries_slices_in_range sampleMBR (by decide) 3 (by decide) [] 0).2.2.2.2.2.2.2.2.1,
   (ParseEntries_slices_in_range sampleMBR (by decide) 3 (by decide) [] 0).2.2.2.2.2.2.2.2.2.2⟩

/-! ## The offset of the boot sector -/

theorem Run.addsTo_of_self {α : Type} (w : World) (x : Run World α) (h : x.self = w) :
    x.addsTo w := ⟨[], by rw [h, List.append_nil]⟩

theorem Run.addsTo_andThen {α β : Type} (w : World) (x : Run World α) (f : α → Meth World β)
    (hx : x.addsTo w) (hf : ∀ a s, (f a s).addsTo s) : (x.andThen f).addsTo w := by
  obtain ⟨s, o, r⟩ := x
  obtain ⟨t, ht⟩ := hx
  simp only at ht
  subst ht
  cases o with
  | ok a =>
    obtain ⟨u, hu⟩ := hf a (w ++ t)
    exact ⟨t ++ u, by simp only [Run.andThen_ok, Run.prepend_self, hu, List.append_assoc]⟩
  | thrown e => exact ⟨t, rfl⟩
  | undefined => exact ⟨t, rfl⟩

theorem Run.addsTo_handle {α : Type} (w : World) (x : Run World α)
    (h : Exception → Meth World α) (hx : x.addsTo w) (hh : ∀ e s, (h e s).addsTo s) :
    (x.handle h).addsTo w := by
  obtain ⟨s, o, r⟩ := x
  obtain ⟨t, ht⟩ := hx
  simp only at ht
  subst ht
  cases o with
  | ok a => exact ⟨t, rfl⟩
  | thrown e =>
    obtain ⟨u, hu⟩ := hh e (w ++ t)
    exact ⟨t ++ u, by simp only [Run.handle_thrown, Run.prepend_self, hu, List.append_assoc]⟩
  | undefined => exact ⟨t, rfl⟩

theorem Meth.index_addsTo {ε : Type} (v : List ε) (i : Nat) (w : World) :
    (Meth.index v i w).addsTo w := by
  apply Run.addsTo_of_self
  simp only [Meth.index]
  split <;> rfl

theorem Meth.call_addsTo {τ α : Type} (obj : τ) (m : Meth τ α) (w : World) :
    (Meth.call obj m w).addsTo w :=
  Run.addsTo_of_self _ _ rfl

theorem Meth.construct_addsTo {τ : Type} (init : τ) (ctor : Meth τ Unit) (w : World) :
    (Meth.construct init ctor w).addsTo w := by
  apply Run.addsTo_of_self
  simp only [Meth.construct_apply, Run.asNew]
  split <;> rfl

theorem emit_addsTo (e : Event) (w : World) : (emit e w).addsTo w := ⟨[e], rfl⟩

theorem Meth.ret_addsTo {α : Type} (a : α) (w : World) :
    ((Meth.ret a : Meth World α) w).addsTo w := ⟨[], by simp⟩

theorem displayMFTProperties_addsTo (vbr : NTFSVBR) (w : World) :
    (displayMFTProperties vbr w).addsTo w := by
  simp only [displayMFTProperties, Meth.bind_eq, Meth.seq_apply]
  refine Run.addsTo_andThen w _ _ (Meth.call_addsTo _ _ _) ?_; intro a s
  refine Run.addsTo_andThen s _ _ (emit_addsTo _ _) ?_; intro u s
  refine Run.addsTo_andThen s _ _ (Meth.call_addsTo _ _ _) ?_; intro a s
  exact emit_addsTo _ _

/-- A function that indexes a vector, calls a member function on the element
and seeks to the value times the sector size: it only adds events, and when
both first steps return, the first event is that `lseek`. -/
theorem Run.index_call_lseek_events {ε γ : Type} (v : List ε) (i : Nat) (m : Meth ε Nat)
    (fd : Device) (K : Nat → Bool → Meth World γ) (w : World)
    (hK : ∀ start b s, (K start b s).addsTo s) :
    ((Meth.index v i w).andThen fun e => (Meth.call e m).seq fun start =>
        (sysLseek fd (mul64 start SECTOR_SIZE)).seq (K start)).addsTo w ∧
    ∀ e start, v[i]? = some e → (m e).outcome = .ok start →
      ((Meth.index v i w).andThen fun e => (Meth.call e m).seq fun start =>
        (sysLseek fd (mul64 start SECTOR_SIZE)).seq (K start)).seeksFirst w
          (toOff (mul64 start SECTOR_SIZE)) := by
  constructor
  · refine Run.addsTo_andThen w _ _ (Meth.index_addsTo _ _ _) ?_; intro e s
    refine Run.addsTo_andThen s _ _ (Meth.call_addsTo _ _ _) ?_; intro start s
    refine Run.addsTo_andThen s _ _ ⟨[_], by rw [sysLseek_apply]⟩ ?_; intro b s
    exact hK start b s
  · intro e start he hs
    rcases hm : m e with ⟨t, o, r⟩
    rw [hm] at hs
    simp only at hs
    subst hs
    obtain ⟨u, hu⟩ := hK start (fd.lseek (toOff (mul64 start SECTOR_SIZE)))
      (w ++ [.lseek (toOff (mul64 start SECTOR_SIZE))])
    refine ⟨u, ?_⟩
    simp only [Meth.index, he, Run.andThen_ok, Meth.seq_apply, Meth.call_apply, hm,
      Run.inCaller_mk, sysLseek_apply, Run.prepend_self, hu, List.append_assoc,
      List.singleton_append]

/-- One iteration of the loop of `work` over the NTFS partitions, given that
the iterations after it only add events. -/
theorem work.vbrLoop_succ_events (fd : Device) (NTFSEntries : NTFSEntryVector) (n i : Nat)
    (VBRs : VBRVector) (w : World)
    (ih : ∀ V s, (work.vbrLoop fd NTFSEntries n (i + 1) V s).addsTo s) :
    (work.vbrLoop fd NTFSEntries (n + 1) i VBRs w).addsTo w ∧
    ∀ e start, NTFSEntries[i]? = some e →
      (PartitionEntry.GetStartingSector e).outcome = .ok start →
      (work.vbrLoop fd NTFSEntries (n + 1) i VBRs w).seeksFirst w
        (toOff (mul64 start SECTOR_SIZE)) := by
  rw [work.vbrLoop]
  simp only [Meth.bind_eq, Meth.pure_eq, Meth.seq_apply]
  refine Run.index_call_lseek_events _ _ _ _ _ _ ?_
  intro start b s
  cases b with
  | false =>
    simp only [Bool.not_false, if_true, Meth.seq_apply, emit_apply, Run.andThen_ok,
      Meth.ret_apply, Run.prepend_mk]
    exact ⟨[_], rfl⟩
  | true =>
    simp only [Bool.not_true, Bool.false_eq_true, if_false, Meth.seq_apply]
    refine Run.addsTo_andThen s _ _ ⟨[_], by rw [sysRead_apply]⟩ ?_; intro rd s
    cases rd with
    | none =>
      simp only [Meth.seq_apply, emit_apply, Run.andThen_ok, Meth.ret_apply, Run.prepend_mk]
      exact ⟨[_], rfl⟩
    | some vbr =>
      simp only [Meth.seq_apply]
      refine Run.addsTo_andThen s _ _ (emit_addsTo _ _) ?_; intro u s
      refine Run.addsTo_andThen s _ _ ?_ ?_
      · simp only [Meth.tryCatch_apply, Meth.seq_apply]
        refine Run.addsTo_handle s _ _ ?_ ?_
        · refine Run.addsTo_andThen s _ _ (Meth.construct_addsTo _ _ _) ?_; intro v s
          refine Run.addsTo_andThen s _ _ (emit_addsTo _ _) ?_; intro u s
          refine Run.addsTo_andThen s _ _ (Meth.index_addsTo _ _ _) ?_; intro x s
          refine Run.addsTo_andThen s _ _ (displayMFTProperties_addsTo _ _) ?_; intro u s
          refine Run.addsTo_andThen s _ _ (emit_addsTo _ _) ?_; intro u s
          exact Meth.ret_addsTo _ _
        · intro e s
          refine Run.addsTo_andThen s _ _ (emit_addsTo _ _) ?_; intro u s
          exact Meth.ret_addsTo _ _
      · intro V s
        exact ih V s

/-- The loop of `work` over the NTFS partitions only adds events. -/
theorem work.vbrLoop_addsTo (fd : Device) (NTFSEntries : NTFSEntryVector) :
    ∀ (n i : Nat) (VBRs : VBRVector) (w : World),
      (work.vbrLoop fd NTFSEntries n i VBRs w).addsTo w := by
  intro n
  induction n with
  | zero =>
    intro i VBRs w
    simp only [work.vbrLoop, Meth.pure_eq]
    exact Meth.ret_addsTo _ _
  | succ n ih =>
    intro i VBRs w
    exact (work.vbrLoop_succ_events fd NTFSEntries n i VBRs w (ih (i + 1))).1

theorem leSum_four_lt (S : UString) (off : Nat) : leSum S off 4 < 2 ^ 32 := by
  rw [leSum_four]
  have h0 := (S.getD off 0).isLt
  have h1 := (S.getD (off + 1) 0).isLt
  have h2 := (S.getD (off + 2) 0).isLt
  have h3 := (S.getD (off + 3) 0).isLt
  omega

/-- A sector number below `2^32` times the sector size: the 64-bit product is
the product, and its conversion to `off_t` is the same number. -/
theorem mul64_sector_of_lt (start : Nat) (h : start < 2 ^ 32) :
    mul64 start SECTOR_SIZE = start * 512 ∧
    toOff (mul64 start SECTOR_SIZE) = ((start * 512 : Nat) : Int) := by
  have e : mul64 start SECTOR_SIZE = start * 512 := by
    simp only [mul64, SECTOR_SIZE]; omega
  refine ⟨e, ?_⟩
  rw [e]
  simp only [toOff]
  split <;> omega

/-- The first event of `getVBR` on an entry is the `lseek` to its starting
sector times the sector size. -/
theorem Program1.getVBR_seeksFirst (e : Program1.PartitionEntry) (fd : Device) (w : World) :
    (Program1.getVBR (some e) fd w).seeksFirst w (toOff (mul64 e.StartingSector SECTOR_SIZE)) := by
  simp only [Program1.getVBR, Meth.bind_eq, Meth.pure_eq, Meth.seq_apply, sysLseek_apply,
    Run.andThen_ok, Run.prepend_nil]
  cases fd.lseek (toOff (mul64 e.StartingSector SECTOR_SIZE)) with
  | false =>
    simp only [Bool.not_false, if_true, Meth.seq_apply, emit_apply, Run.andThen_ok,
      Meth.ret_apply, Run.prepend_mk]
    exact ⟨[.perrorLseek], by simp only [List.append_assoc, List.singleton_append]⟩
  | true =>
    simp only [Bool.not_true, Bool.false_eq_true, if_false, Meth.seq_apply, sysRead_apply,
      Run.andThen_ok, Run.prepend_nil]
    cases fd.read (toOff (mul64 e.StartingSector SECTOR_SIZE)) with
    | none =>
      simp only [Meth.seq_apply, emit_apply, Run.andThen_ok, Meth.ret_apply, Run.prepend_mk]
      exact ⟨[.read (toOff (mul64 e.StartingSector SECTOR_SIZE)), .perrorRead],
        by simp only [List.append_assoc, List.singleton_append, List.cons_append,
          List.nil_append]⟩
    | some vbr =>
      simp only [Meth.ret_apply]
      exact ⟨[.read (toOff (mul64 e.StartingSector SECTOR_SIZE))],
        by simp only [List.append_assoc, List.singleton_append]⟩

/-- C23: for every decoded partition entry, a 16-byte slot `S` with `S[4]` not
zero, the byte offset at which its boot sector is read is a multiple of 512
below `2^41`. In Program3 `work` seeks first, in each iteration of the loop over
the NTFS partitions, to `GetStartingSector() * SECTOR_SIZE` of the entry at the
index (Program2 computes the offset with the same statement); in Program1
`getVBR` seeks first to `StartingSector * SECTOR_SIZE` of the entry decoded from
`S`, and the two sector numbers are equal. The 64-bit product is the product of
the naturals, so it does not wrap, and its conversion to the signed 64-bit
`off_t` is the same number, so it is not negative. -/
theorem vbr_offset_in_range (S : UString) (hl : S.length = 16) (h4 : S[4]? ≠ some 0)
    (fd : Device) (w : World) (NTFSEntries : NTFSEntryVector) (n i : Nat) (VBRs : VBRVector)
    (hi : NTFSEntries[i]? = some (PartitionEntry.new S).self) :
    ∃ start,
      (PartitionEntry.new S).outcome = .ok () ∧
      (PartitionEntry.GetStartingSector (PartitionEntry.new S).self).outcome = .ok start ∧
      (work.vbrLoop fd NTFSEntries (n + 1) i VBRs w).seeksFirst w
        (toOff (mul64 start SECTOR_SIZE)) ∧
      (∃ e, (Program1.newPartitionEntry S ()).outcome = .ok (some e) ∧
        e.StartingSector = start ∧
        (Program1.getVBR (some e) fd w).seeksFirst w
          (toOff (mul64 e.StartingSector SECTOR_SIZE))) ∧
      mul64 start SECTOR_SIZE = start * 512 ∧
      512 ∣ mul64 start SECTOR_SIZE ∧
      mul64 start SECTOR_SIZE < 2 ^ 41 ∧
      toOff (mul64 start SECTOR_SIZE) = ((start * 512 : Nat) : Int) ∧
      0 ≤ toOff (mul64 start SECTOR_SIZE) := by
  have hn : PartitionEntry.new S = ⟨⟨S⟩, .ok (), [⟨16, 4⟩]⟩ := by
    rw [PartitionEntry.new_eq]; simp only [hl, ne_eq, not_true_eq_false, if_false, h4]
  have hlt := leSum_four_lt S 8
  obtain ⟨m1, m2⟩ := mul64_sector_of_lt (leSum S 8 4) hlt
  rw [hn] at hi ⊢
  have hg : (PartitionEntry.GetStartingSector ⟨S⟩).outcome = .ok (leSum S 8 4) := by
    rw [PartitionEntry.GetStartingSector_eq S hl]
  refine ⟨leSum S 8 4, rfl, hg, ?_, ?_, m1, ?_, ?_, m2, ?_⟩
  · exact (work.vbrLoop_succ_events fd NTFSEntries n i VBRs w
      (work.vbrLoop_addsTo fd NTFSEntries n (i + 1))).2 ⟨S⟩ (leSum S 8 4) hi hg
  · refine ⟨⟨decide (S.getD 0 0 ≠ 0), leSum S 8 4, (S.getD 4 0).val % 2⟩, ?_, rfl,
      Program1.getVBR_seeksFirst _ fd w⟩
    rw [Program1.newPartitionEntry_outcome S hl, if_neg h4]
  · rw [m1]; exact Dvd.intro_left _ rfl
  · rw [m1]; omega
  · rw [m2]; exact Int.natCast_nonneg _

/-- Witness for C23: the slot with starting sector 0xFCFDFEFF, above `2^31`, is
sought at an offset that is a multiple of 512 below `2^41` and not negative. -/
theorem vbr_offset_in_range_witness :
    ∃ start,
      (PartitionEntry.new sampleSlotHigh).outcome = .ok () ∧
      (PartitionEntry.GetStartingSector (PartitionEntry.new sampleSlotHigh).self).outcome =
        .ok start ∧
      (work.vbrLoop (constDevice zeroSector) [⟨sampleSlotHigh⟩] (0 + 1) 0 [] []).seeksFirst []
        (toOff (mul64 start SECTOR_SIZE)) ∧
      (∃ e, (Program1.newPartitionEntry sampleSlotHigh ()).outcome = .ok (some e) ∧
        e.StartingSector = start ∧
        (Program1.getVBR (some e) (constDevice zeroSector) []).seeksFirst []
          (toOff (mul64 e.StartingSector SECTOR_SIZE))) ∧
      mul64 start SECTOR_SIZE = start * 512 ∧
      512 ∣ mul64 start SECTOR_SIZE ∧
      mul64 start SECTOR_SIZE < 2 ^ 41 ∧
      toOff (mul64 start SECTOR_SIZE) = ((start * 512 : Nat) : Int) ∧
      0 ≤ toOff (mul64 start SECTOR_SIZE) :=
  vbr_offset_in_range sampleSlotHigh (by decide) (by decide) (constDevice zeroSector) []
    [⟨sampleSlotHigh⟩] 0 0 [] (by decide)

end NTFS
